import Mathlib

/-! # VTT to LRC batch converter: embedding and verification

Shallow embedding of `src/Generation5EnVer.cpp` (and of `src/Generation5.cpp`, which
differs from it only in comments and console messages).

* A C string is the list of its bytes before the terminating NUL; a byte is a `Nat`.
* A file is the list of its bytes; the output file is the list of bytes written.
* A function returns `none` where the C program has undefined behaviour: a store
  past the end of a fixed buffer, or an `int` value that is not representable.
-/

set_option autoImplicit false

namespace VttLrc

/-! ## Bytes and `<ctype.h>` (C locale) -/

/-- The bytes of an ASCII literal. -/
def ascii (s : String) : List Nat := s.toList.map Char.toNat

/-- C `isdigit`: the bytes `0` to `9`. -/
def isdigit (c : Nat) : Bool := decide (48 ≤ c) && decide (c ≤ 57)

/-- C `isspace`: space, `\t`, `\n`, `\v`, `\f`, `\r`. -/
def isspace (c : Nat) : Bool := c == 32 || (decide (9 ≤ c) && decide (c ≤ 13))

/-- C `tolower`: `A` to `Z` are mapped to `a` to `z`, every other byte is unchanged. -/
def tolower (c : Nat) : Nat := if 65 ≤ c ∧ c ≤ 90 then c + 32 else c

/-! ## `<string.h>` -/

/-- C `strstr`: the offset of the first occurrence of `needle` in `hay`, if any. -/
def strstr : List Nat → List Nat → Option Nat
  | [], needle => if needle = [] then some 0 else none
  | c :: cs, needle =>
    if needle.isPrefixOf (c :: cs) then some 0
    else (strstr cs needle).map (· + 1)

/-- C `strrchr`: the offset of the last occurrence of the byte `c` in `s`, if any. -/
def strrchr : List Nat → Nat → Option Nat
  | [], _ => none
  | x :: xs, c =>
    match strrchr xs c with
    | some i => some (i + 1)
    | none => if x = c then some 0 else none

/-! ## Filename normalizer: `remove_audio_extension` -/

/-- The table `audio_extensions` of the source. -/
def audio_extensions : List (List Nat) :=
  [ascii ".wav", ascii ".mp3", ascii ".flac", ascii ".ogg", ascii ".m4a", ascii ".aac",
   ascii ".wma"]

/-- The `for (current = vtt_name; current < vtt_ext_pos; current++)` loop: `prev_dot` is
    overwritten at every `.`; `i` is the offset of the byte under `current`. -/
def prev_dot_scan : List Nat → Nat → Option Nat → Option Nat
  | [], _, prev_dot => prev_dot
  | c :: cs, i, prev_dot => prev_dot_scan cs (i + 1) (if c = 46 then some i else prev_dot)

/-- The function `remove_audio_extension`: the result is the string left in `clean_name`
    (whose capacity is the caller's business and is not modelled).  `none` is the store past
    the end of `potential_ext[32]`, which happens when `ext_len` is 32 or more. -/
def remove_audio_extension (vtt_name : List Nat) : Option (List Nat) :=
  let vtt_ext_pos :=
    match strstr vtt_name (ascii ".vtt") with
    | some p => some p
    | none => strstr vtt_name (ascii ".VTT")
  match vtt_ext_pos with
  | none => some vtt_name
  | some pos =>
    match prev_dot_scan (vtt_name.take pos) 0 none with
    | some dot =>
      let ext_len := pos - dot
      if 32 ≤ ext_len then none
      else
        let potential_ext := ((vtt_name.drop dot).take ext_len).map tolower
        if audio_extensions.any (fun e => decide (potential_ext = e)) then
          some (vtt_name.take dot)
        else some (vtt_name.take pos)
    | none => some (vtt_name.take pos)

/-! ## `int`, `sscanf` and `fprintf` -/

/-- The value `INT_MAX` of a 32-bit `int`. -/
def INT_MAX : Int := 2147483647

/-- The value `INT_MIN` of a 32-bit `int`. -/
def INT_MIN : Int := -2147483648

/-- The result of an `int` operation: `none` when the value is not representable. -/
def int_result (v : Int) : Option Int :=
  if INT_MIN ≤ v ∧ v ≤ INT_MAX then some v else none

/-- The number written by a string of decimal digits. -/
def digits_value (ds : List Nat) : Nat :=
  ds.foldl (fun acc c => acc * 10 + (c - 48)) 0

/-- One `%d` conversion of `sscanf`: leading white space is skipped, then an optional sign
    and the longest run of digits are read.  `some none` is a matching failure (no digit),
    `some (some (v, rest))` a converted value with the unread input, `none` a value that
    does not fit an `int`. -/
def scan_int (s : List Nat) : Option (Option (Int × List Nat)) :=
  let s1 := s.dropWhile isspace
  let s2 := if s1.head? = some 45 ∨ s1.head? = some 43 then s1.tail else s1
  let ds := s2.takeWhile isdigit
  if ds = [] then some none
  else
    let v : Int := if s1.head? = some 45 then -(digits_value ds : Int) else (digits_value ds : Int)
    match int_result v with
    | none => none
    | some w => some (some (w, s2.dropWhile isdigit))

/-- A directive of a `sscanf` format: `%d` or an ordinary character. -/
inductive Directive where
  | d : Directive
  | lit : Nat → Directive
  deriving DecidableEq, Repr

/-- C `sscanf` for formats made of `%d` and ordinary characters: the list of the values
    converted, in order, up to the first directive that fails.  The return value of the C
    function is the length of this list (an input failure before the first conversion
    gives `EOF` in C and the empty list here; the callers only compare with 3 and 4). -/
def sscanf : List Nat → List Directive → Option (List Int)
  | _, [] => some []
  | s, Directive.lit c :: fmt =>
    match s with
    | [] => some []
    | c' :: t => if c' = c then sscanf t fmt else some []
  | s, Directive.d :: fmt =>
    match scan_int s with
    | none => none
    | some none => some []
    | some (some (v, t)) => (sscanf t fmt).map (fun vs => v :: vs)

/-- The digits printed for a natural number. -/
def decimal (n : Nat) : List Nat := (Nat.toDigits 10 n).map Char.toNat

/-- The conversion `%02d` of `fprintf`: at least two characters, padded with `0` on the
    left; a negative value has its sign counted in the width. -/
def fmt_02d (v : Int) : List Nat :=
  if v < 0 then 45 :: decimal v.natAbs
  else if v < 10 then 48 :: decimal v.toNat
  else decimal v.toNat

/-! ## Converter: `convert_vtt_to_lrc` -/

/-- The two flags of the conversion loop. -/
structure State where
  is_first_webvtt_line : Bool
  found_first_timestamp : Bool
  deriving DecidableEq, Repr

/-- The variables `hour`, `minute`, `second`, `millisecond`. -/
structure Fields where
  hour : Int
  minute : Int
  second : Int
  millisecond : Int
  deriving DecidableEq, Repr

/-- Format `"%d:%d:%d.%d"`. -/
def fmt_hms_dot : List Directive :=
  [Directive.d, Directive.lit 58, Directive.d, Directive.lit 58, Directive.d, Directive.lit 46,
   Directive.d]

/-- Format `"%d:%d.%d"`. -/
def fmt_ms_dot : List Directive :=
  [Directive.d, Directive.lit 58, Directive.d, Directive.lit 46, Directive.d]

/-- Format `"%d:%d:%d,%d"`. -/
def fmt_hms_comma : List Directive :=
  [Directive.d, Directive.lit 58, Directive.d, Directive.lit 58, Directive.d, Directive.lit 44,
   Directive.d]

/-- Format `"%d:%d,%d"`. -/
def fmt_ms_comma : List Directive :=
  [Directive.d, Directive.lit 58, Directive.d, Directive.lit 44, Directive.d]

/-- The stores of `sscanf(.., &hour, &minute, &second, &millisecond)`: one per converted
    value. -/
def store_hmsm (f : Fields) : List Int → Fields
  | [] => f
  | [h] => { f with hour := h }
  | [h, m] => { f with hour := h, minute := m }
  | [h, m, s] => { f with hour := h, minute := m, second := s }
  | h :: m :: s :: ms :: _ => { hour := h, minute := m, second := s, millisecond := ms }

/-- The stores of `sscanf(.., &minute, &second, &millisecond)`. -/
def store_msm (f : Fields) : List Int → Fields
  | [] => f
  | [m] => { f with minute := m }
  | [m, s] => { f with minute := m, second := s }
  | m :: s :: ms :: _ => { f with minute := m, second := s, millisecond := ms }

/-- The chain of four `sscanf` calls on `start_time`.  `some none` is `parsed == 0`,
    `some (some f)` is `parsed == 1` with the variables as they stand after the chain. -/
def parse_start_time (start_time : List Nat) : Option (Option Fields) :=
  match sscanf start_time fmt_hms_dot with
  | none => none
  | some r1 =>
    if r1.length = 4 then some (some (store_hmsm ⟨0, 0, 0, 0⟩ r1))
    else
      match sscanf start_time fmt_ms_dot with
      | none => none
      | some r2 =>
        if r2.length = 3 then
          some (some { store_msm (store_hmsm ⟨0, 0, 0, 0⟩ r1) r2 with hour := 0 })
        else
          match sscanf start_time fmt_hms_comma with
          | none => none
          | some r3 =>
            if r3.length = 4 then
              some (some (store_hmsm (store_msm (store_hmsm ⟨0, 0, 0, 0⟩ r1) r2) r3))
            else
              match sscanf start_time fmt_ms_comma with
              | none => none
              | some r4 =>
                if r4.length = 3 then
                  some (some { store_msm (store_hmsm (store_msm
                    (store_hmsm ⟨0, 0, 0, 0⟩ r1) r2) r3) r4 with hour := 0 })
                else some none

/-- The computation of `total_seconds` and `centiseconds` and the `fprintf` of the tag
    `"[%02d:%02d.%02d]"`; `/` and `%` of C truncate towards zero. -/
def format_tag (f : Fields) : Option (List Nat) :=
  (int_result (f.hour * 3600)).bind fun a =>
  (int_result (f.minute * 60)).bind fun b =>
  (int_result (a + b)).bind fun ab =>
  (int_result (ab + f.second)).bind fun total_seconds =>
  (int_result (f.millisecond + 5)).bind fun ms5 =>
  some ([91] ++ fmt_02d (total_seconds.tdiv 60) ++ [58] ++ fmt_02d (total_seconds.tmod 60)
    ++ [46] ++ fmt_02d (ms5.tdiv 10) ++ [93])

/-- The offset `time_start` after the optional skip of a leading cue number: when the line
    starts with a digit and the run of digits is followed by a space or a tab, the run, that
    byte and the white space after it are skipped. -/
def skip_cue_number (line : List Nat) : Nat :=
  match line with
  | [] => 0
  | c :: _ =>
    if isdigit c then
      let p := (line.takeWhile isdigit).length
      match line.drop p with
      | [] => 0
      | x :: rest =>
        if x = 32 ∨ x = 9 then p + 1 + (rest.takeWhile isspace).length else 0
    else 0

/-- The end of the branch `if (arrow_pos != NULL)`, from the trimmed length `len` on; the
    argument holds the `len` bytes that are copied to `start_time`.  `some none` is a
    `continue` with nothing written, `some (some tag)` is a parsed start time with the tag
    written, `none` is a store past the end of `start_time[64]` (for `len` of 64 or more)
    or an `int` out of range. -/
def start_time_tag (start_time : List Nat) : Option (Option (List Nat)) :=
  if start_time.length = 0 then some none
  else if 64 ≤ start_time.length then none
  else
    match parse_start_time start_time with
    | none => none
    | some none => some none
    | some (some f) =>
      match format_tag f with
      | none => none
      | some tag => some (some tag)

/-- The branch `if (arrow_pos != NULL)`: the optional cue number is skipped, the text up
    to the arrow is trimmed of trailing white space and handed on as `start_time`. -/
def timestamp_rule (line : List Nat) (arrow_pos : Nat) : Option (Option (List Nat)) :=
  let time_start := skip_cue_number line
  if arrow_pos ≤ time_start then some none
  else
    start_time_tag (((line.drop time_start).take (arrow_pos - time_start)).rdropWhile
      (fun c => isspace c))

/-- The branch of the lyric line: the text after the last space is removed together with
    that space when it is a non-empty run of digits; the text and a newline are written.
    The buffer `lyric` has the size of `line`, so `strcpy` fits. -/
def lyric_rule (line : List Nat) : List Nat :=
  let lyric :=
    match strrchr line 32 with
    | none => line
    | some last_space =>
      let p := line.drop (last_space + 1)
      if p.all isdigit && !p.isEmpty then line.take last_space else line
  lyric ++ [10]

/-- The test of the cue number skip: after the leading white space the line is not empty
    and all of it is digits. -/
def is_cue_number (line : List Nat) : Bool :=
  let trimmed := line.dropWhile isspace
  !trimmed.isEmpty && trimmed.all isdigit

/-- The test of the first `if` of the loop body: the header has not been seen yet and the
    line contains `WEBVTT`, is empty, or starts with `\r`. -/
def pre_header_skip (st : State) (line : List Nat) : Bool :=
  st.is_first_webvtt_line &&
    ((strstr line (ascii "WEBVTT")).isSome || line.length == 0 || line.head? == some 13)

/-- The test of the second `if` of the loop body: the line contains `NOTE`, `STYLE` or
    `REGION`, or is empty. -/
def metadata_skip (line : List Nat) : Bool :=
  (strstr line (ascii "NOTE")).isSome || (strstr line (ascii "STYLE")).isSome ||
    (strstr line (ascii "REGION")).isSome || line.length == 0

/-- The `if (arrow_pos != NULL) ... else if (found_first_timestamp && strlen(line) > 0) ...`
    at the end of the loop body: the timestamp rule when the line contains `-->`, else the
    lyric rule when a timestamp has been found and the line is not empty. -/
def timestamp_or_lyric (st : State) (line : List Nat) : Option (State × List Nat) :=
  match strstr line (ascii "-->") with
  | some arrow_pos =>
    match timestamp_rule line arrow_pos with
    | none => none
    | some none => some (st, [])
    | some (some tag) => some ({ st with found_first_timestamp := true }, tag)
  | none =>
    if st.found_first_timestamp && decide (0 < line.length) then some (st, lyric_rule line)
    else some (st, [])

/-- The body of the `while (fgets ...)` loop after `line[strcspn(line, "\r\n")] = 0`:
    the new flags and the bytes written for one line. -/
def process_line (st : State) (line : List Nat) : Option (State × List Nat) :=
  if pre_header_skip st line then
    some ({ st with is_first_webvtt_line :=
      if (strstr line (ascii "WEBVTT")).isSome then false else st.is_first_webvtt_line }, [])
  else if metadata_skip line then some (st, [])
  else if is_cue_number line then some (st, [])
  else timestamp_or_lyric st line

/-- The bytes `fgets` stores before the terminator when `room` bytes are left in the
    buffer, and the unread rest of the file: reading stops after a newline, at the end of
    the file, or when the room is used up. -/
def fgets_read : Nat → List Nat → List Nat × List Nat
  | 0, input => ([], input)
  | _ + 1, [] => ([], [])
  | room + 1, c :: input =>
    if c = 10 then ([c], input)
    else ((fgets_read room input).1.cons c, (fgets_read room input).2)

/-- C `fgets(buf, size, file)` on the unread bytes of a file opened in binary mode: `none`
    at the end of the file, else the bytes stored (at most `size - 1`) and the rest. -/
def fgets (size : Nat) (input : List Nat) : Option (List Nat × List Nat) :=
  match input with
  | [] => none
  | _ :: _ => some (fgets_read (size - 1) input)

/-- The C string in `line` after `line[strcspn(line, "\r\n")] = 0`: the bytes stored by
    `fgets` before the first NUL, `\r` or `\n`. -/
def cut_line (buf : List Nat) : List Nat :=
  buf.takeWhile (fun c => c != 0 && c != 13 && c != 10)

/-- The `while (fgets(line, sizeof(line), vtt_file))` loop: the bytes written from the
    current flags and the unread input on. -/
def convert_loop (st : State) (input : List Nat) : Option (List Nat) :=
  match h : fgets 1024 input with
  | none => some []
  | some (buf, rest) =>
    match process_line st (cut_line buf) with
    | none => none
    | some (st1, out) => (convert_loop st1 rest).map (fun outs => out ++ outs)
termination_by input.length
decreasing_by
  have key : ∀ (l : List Nat) (room : Nat),
      (fgets_read (room + 1) l).2.length < l.length ∨ l = [] := by
    intro l
    induction l with
    | nil => intro _; right; rfl
    | cons c cs ih =>
      intro room
      left
      by_cases hc : c = 10
      · simp [fgets_read, hc]
      · cases room with
        | zero => simp [fgets_read, hc]
        | succ r =>
          rcases ih r with h1 | h1
          · simp only [fgets_read, hc, if_false, List.length_cons]; omega
          · subst h1; simp [fgets_read, hc]
  cases input with
  | nil => simp [fgets] at h
  | cons c cs =>
    simp only [fgets, Option.some.injEq] at h
    have h3 : (fgets_read (1022 + 1) (c :: cs)).2 = rest := by
      have h4 : 1024 - 1 = 1022 + 1 := rfl
      rw [← h4, h]
    rcases key (c :: cs) 1022 with h2 | h2
    · rw [h3] at h2; exact h2
    · simp at h2

/-- The lines the loop body sees for a file: the successive results of `fgets`, each cut at
    its first NUL, `\r` or `\n`. -/
def source_lines (input : List Nat) : List (List Nat) :=
  match h : fgets 1024 input with
  | none => []
  | some (buf, rest) => cut_line buf :: source_lines rest
termination_by input.length
decreasing_by
  have key : ∀ (l : List Nat) (room : Nat),
      (fgets_read (room + 1) l).2.length < l.length ∨ l = [] := by
    intro l
    induction l with
    | nil => intro _; right; rfl
    | cons c cs ih =>
      intro room
      left
      by_cases hc : c = 10
      · simp [fgets_read, hc]
      · cases room with
        | zero => simp [fgets_read, hc]
        | succ r =>
          rcases ih r with h1 | h1
          · simp only [fgets_read, hc, if_false, List.length_cons]; omega
          · subst h1; simp [fgets_read, hc]
  cases input with
  | nil => simp [fgets] at h
  | cons c cs =>
    simp only [fgets, Option.some.injEq] at h
    have h3 : (fgets_read (1022 + 1) (c :: cs)).2 = rest := by
      have h4 : 1024 - 1 = 1022 + 1 := rfl
      rw [← h4, h]
    rcases key (c :: cs) 1022 with h2 | h2
    · rw [h3] at h2; exact h2
    · simp at h2

/-- The function `convert_vtt_to_lrc` once both files are open: from the bytes of the VTT
    file to the bytes written to the LRC file. -/
def convert_vtt_to_lrc (vtt : List Nat) : Option (List Nat) :=
  convert_loop ⟨true, false⟩ vtt

/-- The loop body applied to the lines of a file in turn: the flags after the last line
    and all the bytes written. -/
def run_lines : State → List (List Nat) → Option (State × List Nat)
  | st, [] => some (st, [])
  | st, line :: rest =>
    match process_line st line with
    | none => none
    | some (st1, out) => (run_lines st1 rest).map (fun r => (r.1, out ++ r.2))

/-! ## Batch driver: the loop body of `main` -/

/-- The test `strcasecmp(a, b) == 0`: the strings are equal once both are lower-cased. -/
def strcasecmp_eq (a b : List Nat) : Bool := decide (a.map tolower = b.map tolower)

/-- The test of `main` on a directory entry: `strrchr(d_name, '.')` finds a dot and the text
    from that dot on equals `.vtt` ignoring case. -/
def main_selects (d_name : List Nat) : Bool :=
  match strrchr d_name 46 with
  | none => false
  | some dot => strcasecmp_eq (d_name.drop dot) (ascii ".vtt")

/-- The destination name that `main` builds for a selected entry:
    `remove_audio_extension(d_name, base_name)` and `sprintf(lrc_filename, "%s.lrc", base_name)`.
    `none` is a store past the end of `base_name[512]` (which takes the base name and its
    terminator) or of `lrc_filename[512]` (which takes the base name, `.lrc` and the
    terminator). -/
def lrc_filename (d_name : List Nat) : Option (List Nat) :=
  match remove_audio_extension d_name with
  | none => none
  | some base_name =>
    if 512 < base_name.length + 1 then none
    else if 512 < base_name.length + 5 then none
    else some (base_name ++ ascii ".lrc")

/-! ## Strings that the statements speak of -/

/-- A non-empty string of decimal digits. -/
def digit_run (ds : List Nat) : Prop := ds ≠ [] ∧ ∀ c ∈ ds, isdigit c = true

instance (ds : List Nat) : Decidable (digit_run ds) :=
  inferInstanceAs (Decidable (ds ≠ [] ∧ ∀ c ∈ ds, isdigit c = true))

/-- A string of white space. -/
def space_run (ws : List Nat) : Prop := ∀ c ∈ ws, isspace c = true

instance (ws : List Nat) : Decidable (space_run ws) :=
  inferInstanceAs (Decidable (∀ c ∈ ws, isspace c = true))

/-- A string of exactly `w` decimal digits. -/
def digits_of_width (w : Nat) (ds : List Nat) : Prop :=
  ds.length = w ∧ ∀ c ∈ ds, isdigit c = true

instance (w : Nat) (ds : List Nat) : Decidable (digits_of_width w ds) :=
  inferInstanceAs (Decidable (ds.length = w ∧ ∀ c ∈ ds, isdigit c = true))

/-- A string without NUL, `\r` or `\n`: the text of one line of a file. -/
def plain_line (line : List Nat) : Prop := ∀ c ∈ line, c ≠ 0 ∧ c ≠ 13 ∧ c ≠ 10

instance (line : List Nat) : Decidable (plain_line line) :=
  inferInstanceAs (Decidable (∀ c ∈ line, c ≠ 0 ∧ c ≠ 13 ∧ c ≠ 10))

/-- The cue timing line `HH:MM:SS.mmm --> HH:MM:SS.mmm` written with the given strings for
    the fields of the start time and of the end time. -/
def timing_line (dh dm ds dms eh em es ems : List Nat) : List Nat :=
  dh ++ ascii ":" ++ dm ++ ascii ":" ++ ds ++ ascii "." ++ dms ++ ascii " --> " ++
    eh ++ ascii ":" ++ em ++ ascii ":" ++ es ++ ascii "." ++ ems

/-- A line on which the timestamp rule writes `tag` in the state `st`: no skip rule takes
    the line, it contains `-->`, and the start time is parsed. -/
def parses_as (st : State) (line tag : List Nat) : Prop :=
  pre_header_skip st line = false ∧ metadata_skip line = false ∧
    match strstr line (ascii "-->") with
    | none => False
    | some arrow_pos => timestamp_rule line arrow_pos = some (some tag)

/-- A line that reaches the lyric rule in the state `st`: a timestamp has been found, the
    line is not empty, no skip rule takes it and it does not contain `-->`. -/
def reaches_lyric_rule (st : State) (line : List Nat) : Prop :=
  st.found_first_timestamp = true ∧ line ≠ [] ∧ pre_header_skip st line = false ∧
    metadata_skip line = false ∧ is_cue_number line = false ∧
    strstr line (ascii "-->") = none

instance (st : State) (line : List Nat) : Decidable (reaches_lyric_rule st line) :=
  inferInstanceAs (Decidable (st.found_first_timestamp = true ∧ line ≠ [] ∧
    pre_header_skip st line = false ∧ metadata_skip line = false ∧
    is_cue_number line = false ∧ strstr line (ascii "-->") = none))

/-- A string printed by the format `"[%02d:%02d.%02d]"` for some values of type `int`
    (a negative value is printed with its sign). -/
def is_tag (t : List Nat) : Prop :=
  ∃ a b c : Int,
    t = ascii "[" ++ fmt_02d a ++ ascii ":" ++ fmt_02d b ++ ascii "." ++ fmt_02d c ++ ascii "]"

/-- A timestamp tag `[mm:ss.xx]`: the three fields are strings of decimal digits, at least
    two digits for the minutes and for the centiseconds, exactly two for the seconds. -/
def timestamp_tag (t : List Nat) : Prop :=
  ∃ mm ss xx : List Nat,
    (∀ c ∈ mm, isdigit c = true) ∧ 2 ≤ mm.length ∧
    (∀ c ∈ ss, isdigit c = true) ∧ ss.length = 2 ∧
    (∀ c ∈ xx, isdigit c = true) ∧ 2 ≤ xx.length ∧
    t = ascii "[" ++ mm ++ ascii ":" ++ ss ++ ascii "." ++ xx ++ ascii "]"

/-- A string that begins with a timestamp tag. -/
def begins_with_tag (l : List Nat) : Prop := ∃ t rest, timestamp_tag t ∧ l = t ++ rest

/-- The newline-terminated lines of a text, each without its newline; `cur` is the part of
    the current line that has been read already. -/
def complete_lines : List Nat → List Nat → List (List Nat)
  | _, [] => []
  | cur, c :: cs =>
    if c = 10 then cur :: complete_lines [] cs else complete_lines (cur ++ [c]) cs

/-- Every newline-terminated line of the text begins with a timestamp tag. -/
def every_line_tagged (out : List Nat) : Prop :=
  ∀ l ∈ complete_lines [] out, begins_with_tag l

/-- The start time written with an optional hour field, the minute, second and millisecond
    fields, and the separator `sep` before the milliseconds: `H:MM:SS.mmm`, `MM:SS.mmm`,
    `H:MM:SS,mmm` or `MM:SS,mmm`. -/
def start_field (hour : Option (List Nat)) (dm ds dms : List Nat) (sep : Nat) : List Nat :=
  (match hour with
    | some dh => dh ++ ascii ":"
    | none => []) ++ dm ++ ascii ":" ++ ds ++ [sep] ++ dms

/-- The number of hours of a start time: 0 when the hour field is left out. -/
def hour_value (hour : Option (List Nat)) : Nat :=
  match hour with
  | some dh => digits_value dh
  | none => 0

/-- The seconds of a start time up to the seconds field: `h * 3600 + m * 60 + s`. -/
def total_of (hour : Option (List Nat)) (dm ds : List Nat) : Nat :=
  hour_value hour * 3600 + digits_value dm * 60 + digits_value ds

/-- A well-formed start time: every field is a non-empty string of decimal digits, the
    separator is `.` or `,`, the whole start time is shorter than the 64 bytes of
    `start_time`, and the total of seconds and the milliseconds plus 5 fit a 32-bit `int`. -/
def well_formed_start_time (hour : Option (List Nat)) (dm ds dms : List Nat) (sep : Nat) :
    Prop :=
  (∀ dh ∈ hour, digit_run dh) ∧ digit_run dm ∧ digit_run ds ∧ digit_run dms ∧
    (sep = 46 ∨ sep = 44) ∧ (start_field hour dm ds dms sep).length < 64 ∧
    total_of hour dm ds ≤ 2147483647 ∧ digits_value dms + 5 ≤ 2147483647

instance (hour : Option (List Nat)) (dm ds dms : List Nat) (sep : Nat) :
    Decidable (well_formed_start_time hour dm ds dms sep) :=
  inferInstanceAs (Decidable ((∀ dh ∈ hour, digit_run dh) ∧ digit_run dm ∧ digit_run ds ∧
    digit_run dms ∧ (sep = 46 ∨ sep = 44) ∧ (start_field hour dm ds dms sep).length < 64 ∧
    total_of hour dm ds ≤ 2147483647 ∧ digits_value dms + 5 ≤ 2147483647))

/-- A cue timing line with a well-formed start time: the start time, white space (possibly
    none), `-->` and any text, with none of the words `WEBVTT`, `NOTE`, `STYLE`, `REGION`
    anywhere in the line. -/
def cue_timing_line (line : List Nat) : Prop :=
  strstr line (ascii "WEBVTT") = none ∧ strstr line (ascii "NOTE") = none ∧
    strstr line (ascii "STYLE") = none ∧ strstr line (ascii "REGION") = none ∧
    ∃ (hour : Option (List Nat)) (dm ds dms : List Nat) (sep : Nat) (ws rest : List Nat),
      well_formed_start_time hour dm ds dms sep ∧ space_run ws ∧
      line = start_field hour dm ds dms sep ++ ws ++ ascii "-->" ++ rest

/-- A text line: not empty, without `-->`, without the words `NOTE`, `STYLE`, `REGION`, and
    not a cue number line (white space followed by digits only). -/
def text_line (line : List Nat) : Prop :=
  line ≠ [] ∧ strstr line (ascii "-->") = none ∧ strstr line (ascii "NOTE") = none ∧
    strstr line (ascii "STYLE") = none ∧ strstr line (ascii "REGION") = none ∧
    ¬ digit_run (line.dropWhile isspace)

instance (line : List Nat) : Decidable (text_line line) :=
  inferInstanceAs (Decidable (line ≠ [] ∧ strstr line (ascii "-->") = none ∧
    strstr line (ascii "NOTE") = none ∧ strstr line (ascii "STYLE") = none ∧
    strstr line (ascii "REGION") = none ∧ ¬ digit_run (line.dropWhile isspace)))

/-- The lines of a file are cues with at most one text line each: every line that contains
    `-->` is a cue timing line with a well-formed start time, and at most one text line
    stands between a cue timing line and the next one.  `seen` says that a cue timing line
    has been read, `fresh` that no text line has been read since the last one; the text
    lines before the first cue timing line are not restricted. -/
def one_text_per_cue : Bool → Bool → List (List Nat) → Prop
  | _, _, [] => True
  | seen, fresh, line :: rest =>
    if (strstr line (ascii "-->")).isSome then
      cue_timing_line line ∧ one_text_per_cue true true rest
    else if text_line line then
      (seen = true → fresh = true) ∧ one_text_per_cue seen false rest
    else one_text_per_cue seen fresh rest

/-- The file made of the given lines, each ended by a newline. -/
def file_of_lines : List (List Nat) → List Nat
  | [] => []
  | line :: rest => line ++ 10 :: file_of_lines rest

/-- No line of the list is a successfully parsed cue timing line.  `is_first` is the value
    of `is_first_webvtt_line` when the first line of the list is read; the flag is cleared
    by the first line that contains `WEBVTT`. -/
def no_line_parsed : Bool → List (List Nat) → Prop
  | _, [] => True
  | is_first, line :: rest =>
    (∀ tag, ¬ parses_as ⟨is_first, false⟩ line tag) ∧
      no_line_parsed (is_first && !(strstr line (ascii "WEBVTT")).isSome) rest

/-! ## Lemmas on `strstr` -/

theorem strstr_cons (c : Nat) (cs needle : List Nat) :
    strstr (c :: cs) needle =
      if needle.isPrefixOf (c :: cs) then some 0 else (strstr cs needle).map (· + 1) := rfl

/-- No occurrence starts inside a block that does not contain the first byte of the needle. -/
theorem strstr_append_of_head_not_mem (d : Nat) (ns a b : List Nat) (hd : d ∉ a) :
    strstr (a ++ b) (d :: ns) = (strstr b (d :: ns)).map (· + a.length) := by
  induction a with
  | nil => simp
  | cons c a ih =>
    have hc : ¬ c = d := fun h => hd (by simp [h])
    have ha : d ∉ a := fun h => hd (by simp [h])
    have hp : (d :: ns).isPrefixOf (c :: (a ++ b)) = false := by
      simp [List.isPrefixOf, hc, Ne.symm hc]
    rw [List.cons_append, strstr_cons, hp, ih ha]
    cases strstr b (d :: ns) <;> simp [Nat.add_assoc]

theorem isPrefixOf_append_cons (d : Nat) (b : List Nat) :
    ∀ (a needle : List Nat), needle.isPrefixOf (a ++ d :: b) = true →
      needle.isPrefixOf a = true ∨ d ∈ needle.drop a.length := by
  intro a
  induction a with
  | nil =>
    intro needle h
    cases needle with
    | nil => left; rfl
    | cons n ns =>
      right
      simp [List.isPrefixOf] at h
      simp [h.1]
  | cons c a ih =>
    intro needle h
    cases needle with
    | nil => left; rfl
    | cons n ns =>
      simp only [List.cons_append, List.isPrefixOf, Bool.and_eq_true] at h
      rcases ih ns h.2 with h1 | h1
      · left; simp [List.isPrefixOf, h.1, h1]
      · right; simpa using h1

/-- An occurrence cannot straddle the boundary before a byte that occurs nowhere in the
    needle after its first position. -/
theorem strstr_append_of_none (needle a b : List Nat) (d : Nat) (hd : d ∉ needle.tail)
    (ha : strstr a needle = none) :
    strstr (a ++ d :: b) needle = (strstr (d :: b) needle).map (· + a.length) := by
  induction a with
  | nil => simp
  | cons c a ih =>
    rw [strstr_cons] at ha
    by_cases hp : needle.isPrefixOf (c :: a) = true
    · simp [hp] at ha
    · simp only [hp, Bool.false_eq_true, if_false, Option.map_eq_none'] at ha
      have hp2 : needle.isPrefixOf (c :: (a ++ d :: b)) = false := by
        rw [Bool.eq_false_iff]
        intro hq
        rcases isPrefixOf_append_cons d b (c :: a) needle hq with h1 | h1
        · exact hp h1
        · apply hd
          cases needle with
          | nil => simp at h1
          | cons n ns => 
            simp only [List.length_cons, List.drop_succ_cons] at h1
            exact List.mem_of_mem_drop h1
      rw [List.cons_append, strstr_cons, hp2, ih ha]
      cases strstr (d :: b) needle <;> simp [Nat.add_assoc]

/-! ## Lemmas on `prev_dot_scan` -/

theorem prev_dot_scan_of_not_mem (l : List Nat) (h : 46 ∉ l) :
    ∀ (i : Nat) (acc : Option Nat), prev_dot_scan l i acc = acc := by
  induction l with
  | nil => intro i acc; rfl
  | cons c cs ih =>
    intro i acc
    have hc : ¬ c = 46 := fun e => h (by simp [e])
    have hcs : 46 ∉ cs := fun e => h (by simp [e])
    simp [prev_dot_scan, hc, ih hcs]

theorem prev_dot_scan_append (a b : List Nat) :
    ∀ (i : Nat) (acc : Option Nat),
      prev_dot_scan (a ++ b) i acc = prev_dot_scan b (i + a.length) (prev_dot_scan a i acc) := by
  induction a with
  | nil => intro i acc; simp [prev_dot_scan]
  | cons c cs ih =>
    intro i acc
    have e : i + 1 + cs.length = i + (cs.length + 1) := by omega
    rw [List.cons_append, prev_dot_scan, ih, prev_dot_scan, List.length_cons, e]

theorem prev_dot_scan_last (stem seg : List Nat) (h : 46 ∉ seg) :
    prev_dot_scan (stem ++ 46 :: seg) 0 none = some stem.length := by
  rw [prev_dot_scan_append]
  simp [prev_dot_scan, prev_dot_scan_of_not_mem seg h]

theorem prev_dot_scan_spec (l : List Nat) :
    (46 ∉ l ∧ prev_dot_scan l 0 none = none) ∨
      ∃ stem seg, l = stem ++ 46 :: seg ∧ 46 ∉ seg ∧
        prev_dot_scan l 0 none = some stem.length := by
  induction l using List.reverseRecOn with
  | nil => left; simp [prev_dot_scan]
  | append_singleton cs c ih =>
    by_cases hc : c = 46
    · right
      refine ⟨cs, [], by simp [hc], by simp, ?_⟩
      rw [hc]; exact prev_dot_scan_last cs [] (by simp)
    · rcases ih with ⟨h1, h2⟩ | ⟨stem, seg, h1, h2, _⟩
      · left
        have h3 : 46 ∉ cs ++ [c] := by simp [h1, Ne.symm hc]
        exact ⟨h3, prev_dot_scan_of_not_mem _ h3 0 none⟩
      · right
        have h3 : 46 ∉ seg ++ [c] := by simp [h2, Ne.symm hc]
        refine ⟨stem, seg ++ [c], by simp [h1], h3, ?_⟩
        have h4 : cs ++ [c] = stem ++ 46 :: (seg ++ [c]) := by simp [h1]
        rw [h4]; exact prev_dot_scan_last stem _ h3

theorem ascii_dot : ascii "." = [46] := rfl
theorem ascii_vtt : ascii ".vtt" = [46, 118, 116, 116] := rfl
theorem ascii_VTT : ascii ".VTT" = [46, 86, 84, 84] := rfl

theorem tolower_eq_dot (c : Nat) : tolower c = 46 ↔ c = 46 := by
  unfold tolower
  split <;> omega

theorem audio_extensions_eq : audio_extensions =
    [[46, 119, 97, 118], [46, 109, 112, 51], [46, 102, 108, 97, 99], [46, 111, 103, 103],
     [46, 109, 52, 97], [46, 97, 97, 99], [46, 119, 109, 97]] := rfl

/-- What the membership of the lower-cased `.ext` in the table says about `ext`. -/
theorem audio_ext_facts (ext : List Nat)
    (hext : (ascii "." ++ ext).map tolower ∈ audio_extensions) :
    46 ∉ ext ∧ ext.length ≤ 4 ∧ ∃ c rest, ext = c :: rest ∧ tolower c ≠ 118 := by
  have h46 : tolower 46 = 46 := by decide
  simp only [ascii_dot, List.singleton_append, List.map_cons, h46, audio_extensions_eq,
    List.mem_cons, List.cons.injEq, true_and, List.mem_singleton, List.not_mem_nil, or_false] at hext
  have hlen : (ext.map tolower).length ≤ 4 ∧ 46 ∉ ext.map tolower ∧ (ext.map tolower).head? ≠ some 118
      ∧ ext.map tolower ≠ [] := by
    rcases hext with h | h | h | h | h | h | h <;> rw [h] <;> decide
  obtain ⟨h1, h2, h3, h4⟩ := hlen
  refine ⟨?_, by simpa using h1, ?_⟩
  · intro hm
    apply h2
    rw [List.mem_map]
    exact ⟨46, hm, h46⟩
  · cases ext with
    | nil => simp at h4
    | cons c rest =>
      refine ⟨c, rest, rfl, ?_⟩
      intro hc
      apply h3
      simp [hc]

/-- The marker is found right after `.ext` when no marker occurs in `base`. -/
theorem strstr_marker_after_ext (base ext marker : List Nat) (x y z : Nat)
    (hm : marker = [46, x, y, z]) (hx : x ≠ 46) (hy : y ≠ 46) (hz : z ≠ 46)
    (hx2 : tolower x = 118)
    (hext : (ascii "." ++ ext).map tolower ∈ audio_extensions)
    (hbase : strstr base marker = none) (k : List Nat) :
    strstr (base ++ ascii "." ++ ext ++ k) marker =
      (strstr k marker).map (· + (base.length + 1 + ext.length)) := by
  obtain ⟨h1, _, c, rest, h3, h4⟩ := audio_ext_facts ext hext
  have hd : 46 ∉ marker.tail := by
    rw [hm]; simp [Ne.symm hx, Ne.symm hy, Ne.symm hz]
  rw [ascii_dot, List.append_assoc, List.append_assoc, List.singleton_append,
    strstr_append_of_none marker base (ext ++ k) 46 hd hbase, strstr_cons]
  have hp : marker.isPrefixOf (46 :: (ext ++ k)) = false := by
    rw [hm, h3]
    have : ¬ x = c := by
      intro e; apply h4; rw [← e]; exact hx2
    simp [List.isPrefixOf, this]
  rw [hp, hm, strstr_append_of_head_not_mem 46 [x, y, z] ext k h1]
  cases strstr k [46, x, y, z] with
  | none => simp
  | some v =>
    show some (v + ext.length + 1 + base.length) = some (v + (base.length + 1 + ext.length))
    congr 1; omega

/-- The normalizer once the marker has been located after `base ++ "." ++ ext`. -/
theorem remove_audio_extension_at_marker (base ext k : List Nat)
    (hext : (ascii "." ++ ext).map tolower ∈ audio_extensions)
    (vtt_ext_pos : Option Nat)
    (hpos : vtt_ext_pos = some (base.length + 1 + ext.length)) :
    (match vtt_ext_pos with
      | none => some (base ++ ascii "." ++ ext ++ k)
      | some pos =>
        match prev_dot_scan ((base ++ ascii "." ++ ext ++ k).take pos) 0 none with
        | some dot =>
          if 32 ≤ pos - dot then none
          else
            if audio_extensions.any (fun e => decide
                ((((base ++ ascii "." ++ ext ++ k).drop dot).take (pos - dot)).map tolower = e)) then
              some ((base ++ ascii "." ++ ext ++ k).take dot)
            else some ((base ++ ascii "." ++ ext ++ k).take pos)
        | none => some ((base ++ ascii "." ++ ext ++ k).take pos)) = some base := by
  obtain ⟨h1, h2, _⟩ := audio_ext_facts ext hext
  subst hpos
  have e1 : (base ++ ascii "." ++ ext ++ k).take (base.length + 1 + ext.length)
      = base ++ 46 :: ext := by
    have : base ++ ascii "." ++ ext ++ k = (base ++ 46 :: ext) ++ k := by simp [ascii_dot]
    rw [this, List.take_left']
    simp; omega
  have e2 : ((base ++ ascii "." ++ ext ++ k).drop base.length).take
      (base.length + 1 + ext.length - base.length) = ascii "." ++ ext := by
    have : base ++ ascii "." ++ ext ++ k = base ++ ((ascii "." ++ ext) ++ k) := by simp
    rw [this, List.drop_left, List.take_left']
    simp [ascii_dot]; omega
  have e3 : (base ++ ascii "." ++ ext ++ k).take base.length = base := by
    rw [List.append_assoc, List.append_assoc, List.take_left]
  have e4 : ¬ 32 ≤ base.length + 1 + ext.length - base.length := by omega
  have e5 : audio_extensions.any (fun e => decide ((ascii "." ++ ext).map tolower = e)) = true := by
    rw [List.any_eq_true]
    exact ⟨_, hext, by simp⟩
  simp only [e1, prev_dot_scan_last base ext h1, e4, if_false, e2, e5, if_true, e3]

/-- C4 (amended): for every `base` that contains no `.vtt`, and every audio extension `ext`
    of the table written in any mix of letter cases, `remove_audio_extension` applied to
    `base ++ "." ++ ext ++ ".vtt"` returns exactly `base`; when `base` contains no `.VTT`
    either, the same holds for `base ++ "." ++ ext ++ ".VTT"`. -/
theorem remove_audio_extension_audio_ext (base ext suffix : List Nat)
    (hext : (ascii "." ++ ext).map tolower ∈ audio_extensions)
    (hbase : strstr base (ascii ".vtt") = none)
    (hsuffix : suffix = ascii ".vtt" ∨
      (suffix = ascii ".VTT" ∧ strstr base (ascii ".VTT") = none)) :
    remove_audio_extension (base ++ ascii "." ++ ext ++ suffix) = some base := by
  have hv : ∀ k, strstr (base ++ ascii "." ++ ext ++ k) (ascii ".vtt") =
      (strstr k (ascii ".vtt")).map (· + (base.length + 1 + ext.length)) := fun k =>
    strstr_marker_after_ext base ext (ascii ".vtt") 118 116 116 rfl (by decide) (by decide)
      (by decide) (by decide) hext hbase k
  rcases hsuffix with hs | ⟨hs, hbase2⟩
  · have h1 : strstr (base ++ ascii "." ++ ext ++ ascii ".vtt") (ascii ".vtt") =
        some (base.length + 1 + ext.length) := by
      rw [hv]
      have : strstr (ascii ".vtt") (ascii ".vtt") = some 0 := by decide
      rw [this]; simp
    subst hs
    unfold remove_audio_extension
    rw [h1]
    exact remove_audio_extension_at_marker base ext (ascii ".vtt") hext _ rfl
  · have h1 : strstr (base ++ ascii "." ++ ext ++ ascii ".VTT") (ascii ".vtt") = none := by
      rw [hv]
      have : strstr (ascii ".VTT") (ascii ".vtt") = none := by decide
      rw [this]; rfl
    have h2 : strstr (base ++ ascii "." ++ ext ++ ascii ".VTT") (ascii ".VTT") =
        some (base.length + 1 + ext.length) := by
      rw [strstr_marker_after_ext base ext (ascii ".VTT") 86 84 84 rfl (by decide) (by decide)
        (by decide) (by decide) hext hbase2]
      have : strstr (ascii ".VTT") (ascii ".VTT") = some 0 := by decide
      rw [this]; simp
    subst hs
    unfold remove_audio_extension
    rw [h1, h2]
    exact remove_audio_extension_at_marker base ext (ascii ".VTT") hext _ rfl

theorem remove_audio_extension_audio_ext_witness :
    remove_audio_extension (ascii "track" ++ ascii "." ++ ascii "MP3" ++ ascii ".VTT")
      = some (ascii "track") :=
  remove_audio_extension_audio_ext (ascii "track") (ascii "MP3") (ascii ".VTT") (by decide)
    (by decide) (Or.inr ⟨rfl, by decide⟩)

/-- C4 as stated fails: `a.vtt` is a base, `mp3` an audio extension, and the result for
    `a.vtt.mp3.vtt` is `a`, because the first `.vtt` of the name is taken as the marker. -/
theorem remove_audio_extension_audio_ext_counterexample :
    (ascii "." ++ ascii "mp3").map tolower ∈ audio_extensions ∧
    remove_audio_extension (ascii "a.vtt" ++ ascii "." ++ ascii "mp3" ++ ascii ".vtt")
      = some (ascii "a") ∧
    remove_audio_extension (ascii "a.vtt" ++ ascii "." ++ ascii "mp3" ++ ascii ".vtt")
      ≠ some (ascii "a.vtt") := by
  decide

/-- C5 (amended): for every `base` that contains no `.vtt` and whose text from its last dot
    on, if it has a dot, is shorter than 32 bytes and is not an audio extension of the table
    (ignoring case), `remove_audio_extension` applied to `base ++ ".vtt"` returns exactly
    `base`; a `base` without any dot is a case of this. -/
theorem remove_audio_extension_plain (base : List Nat)
    (hbase : strstr base (ascii ".vtt") = none)
    (hseg : ∀ stem seg, base = stem ++ ascii "." ++ seg → 46 ∉ seg →
      (ascii "." ++ seg).length < 32 ∧ (ascii "." ++ seg).map tolower ∉ audio_extensions) :
    remove_audio_extension (base ++ ascii ".vtt") = some base := by
  have h1 : strstr (base ++ ascii ".vtt") (ascii ".vtt") = some base.length := by
    have e : ascii ".vtt" = 46 :: [118, 116, 116] := rfl
    rw [e, strstr_append_of_none _ base _ 46 (by decide) (by rw [← e]; exact hbase)]
    rw [strstr_cons]
    simp
  have e0 : (base ++ ascii ".vtt").take base.length = base := List.take_left _ _
  unfold remove_audio_extension
  rw [h1]
  simp only [e0]
  rcases prev_dot_scan_spec base with ⟨_, h3⟩ | ⟨stem, seg, h2, h3, h4⟩
  · rw [h3]
  · rw [h4]
    obtain ⟨h5, h6⟩ := hseg stem seg (by simp [h2, ascii_dot]) h3
    have e1 : ¬ 32 ≤ base.length - stem.length := by
      rw [h2]; simp [ascii_dot] at h5 ⊢; omega
    have e2 : ((base ++ ascii ".vtt").drop stem.length).take (base.length - stem.length)
        = ascii "." ++ seg := by
      have : base ++ ascii ".vtt" = stem ++ ((ascii "." ++ seg) ++ ascii ".vtt") := by
        simp [h2, ascii_dot]
      rw [this, List.drop_left, List.take_left']
      rw [h2]; simp [ascii_dot]
    have e3 : audio_extensions.any
        (fun e => decide ((ascii "." ++ seg).map tolower = e)) = false := by
      rw [Bool.eq_false_iff]
      intro h
      rw [List.any_eq_true] at h
      obtain ⟨x, hx1, hx2⟩ := h
      simp only [decide_eq_true_eq] at hx2
      exact h6 (hx2 ▸ hx1)
    simp only [e1, if_false, e2, e3, Bool.false_eq_true]

theorem remove_audio_extension_plain_witness :
    remove_audio_extension (ascii "my.song" ++ ascii ".vtt") = some (ascii "my.song") :=
  remove_audio_extension_plain (ascii "my.song") (by decide) (by
    intro stem seg h hs
    have hp := prev_dot_scan_last stem seg hs
    have h2 : ascii "my.song" = stem ++ 46 :: seg := by rw [h]; simp [ascii_dot]
    rw [← h2] at hp
    have hl : stem.length = 2 := by
      have : prev_dot_scan (ascii "my.song") 0 none = some 2 := by decide
      rw [this] at hp
      exact (Option.some.inj hp).symm
    have h3 : seg = ascii "song" := by
      have hd : List.drop (stem.length + 1) (stem ++ 46 :: seg) = seg := by
        rw [List.drop_append]; rfl
      rw [← hd, ← h2, hl]; decide
    subst h3
    decide)

/-- C5 as stated fails.  `a.vtt.b` does not end with an audio extension, and the result
    for `a.vtt.b.vtt` is `a`, because the first `.vtt` of the name is taken as the marker.
    And for a base that ends with a dot and 31 more bytes, `ext_len` is 32 and the
    terminator is stored past the end of `potential_ext[32]`. -/
theorem remove_audio_extension_plain_counterexample :
    (remove_audio_extension (ascii "a.vtt.b" ++ ascii ".vtt") = some (ascii "a") ∧
     remove_audio_extension (ascii "a.vtt.b" ++ ascii ".vtt") ≠ some (ascii "a.vtt.b")) ∧
    (remove_audio_extension (ascii "a." ++ List.replicate 31 98 ++ ascii ".vtt") = none ∧
     remove_audio_extension (ascii "a." ++ List.replicate 31 98 ++ ascii ".vtt") ≠
       some (ascii "a." ++ List.replicate 31 98)) := by
  decide

theorem isdigit_not_isspace (c : Nat) (h : isdigit c = true) : isspace c = false := by
  simp only [isdigit, isspace, Bool.and_eq_true, decide_eq_true_eq] at *
  simp only [Bool.or_eq_false_iff, beq_eq_false_iff_ne, Bool.and_eq_false_iff, decide_eq_false_iff_not]
  omega

theorem takeWhile_append_of_all (p : Nat → Bool) (ds rest : List Nat)
    (hd : ∀ c ∈ ds, p c = true) (hr : ∀ c ∈ rest.head?, p c = false) :
    (ds ++ rest).takeWhile p = ds := by
  induction ds with
  | nil =>
    cases rest with
    | nil => rfl
    | cons r rs => simp [List.takeWhile, hr r (by simp)]
  | cons d ds ih =>
    rw [List.cons_append, List.takeWhile_cons, hd d (by simp), if_pos rfl,
      ih (fun c hc => hd c (by simp [hc]))]

theorem dropWhile_append_of_all (p : Nat → Bool) (ds rest : List Nat)
    (hd : ∀ c ∈ ds, p c = true) (hr : ∀ c ∈ rest.head?, p c = false) :
    (ds ++ rest).dropWhile p = rest := by
  induction ds with
  | nil =>
    cases rest with
    | nil => rfl
    | cons r rs => simp [List.dropWhile, hr r (by simp)]
  | cons d ds ih =>
    rw [List.cons_append, List.dropWhile_cons, hd d (by simp), if_pos rfl,
      ih (fun c hc => hd c (by simp [hc]))]

/-- The `%d` conversion on a run of digits followed by something that is not a digit. -/
theorem scan_int_digit_run (ds rest : List Nat) (hd : digit_run ds)
    (hr : ∀ c ∈ rest.head?, isdigit c = false) :
    scan_int (ds ++ rest) =
      if (digits_value ds : Int) ≤ INT_MAX then some (some ((digits_value ds : Int), rest))
      else none := by
  obtain ⟨hne, hall⟩ := hd
  obtain ⟨d, ds', rfl⟩ := List.exists_cons_of_ne_nil hne
  have hdd : isdigit d = true := hall d (by simp)
  have hsp : isspace d = false := isdigit_not_isspace d hdd
  have h45 : d ≠ 45 ∧ d ≠ 43 := by
    simp only [isdigit, Bool.and_eq_true, decide_eq_true_eq] at hdd; omega
  have e1 : ((d :: ds') ++ rest).dropWhile isspace = (d :: ds') ++ rest := by
    simp [List.dropWhile, hsp]
  have e2 : ((d :: ds') ++ rest).takeWhile isdigit = d :: ds' :=
    takeWhile_append_of_all isdigit _ _ hall hr
  have e3 : ((d :: ds') ++ rest).dropWhile isdigit = rest :=
    dropWhile_append_of_all isdigit _ _ hall hr
  unfold scan_int
  simp only [e1]
  have e4 : ((d :: ds') ++ rest).head? = some d := rfl
  simp only [e4, Option.some.injEq, h45.1, h45.2, or_self, if_false, e2, e3]
  simp only [int_result, INT_MIN]
  have : (-2147483648 : Int) ≤ (digits_value (d :: ds') : Int) := by
    have : (0 : Int) ≤ (digits_value (d :: ds') : Int) := Int.ofNat_nonneg _
    omega
  by_cases hle : (digits_value (d :: ds') : Int) ≤ INT_MAX
  · simp [hle, this]
  · simp [hle]

theorem sscanf_d (ds rest : List Nat) (fmt : List Directive) (hd : digit_run ds)
    (hr : ∀ c ∈ rest.head?, isdigit c = false) :
    sscanf (ds ++ rest) (Directive.d :: fmt) =
      if (digits_value ds : Int) ≤ INT_MAX then
        (sscanf rest fmt).map (fun vs => (digits_value ds : Int) :: vs)
      else none := by
  rw [sscanf, scan_int_digit_run ds rest hd hr]
  by_cases hle : (digits_value ds : Int) ≤ INT_MAX
  · simp [hle]
  · simp [hle]

theorem sscanf_lit (c x : Nat) (t : List Nat) (fmt : List Directive) :
    sscanf (c :: t) (Directive.lit x :: fmt) = if c = x then sscanf t fmt else some [] := by
  rw [sscanf]

theorem sscanf_lit_nil (x : Nat) (fmt : List Directive) :
    sscanf [] (Directive.lit x :: fmt) = some [] := by
  rw [sscanf]

theorem sscanf_nil_fmt (s : List Nat) : sscanf s [] = some [] := by
  cases s <;> rw [sscanf]

theorem sscanf_d_cons (ds : List Nat) (x : Nat) (t : List Nat) (fmt : List Directive)
    (hd : digit_run ds) (hx : isdigit x = false) :
    sscanf (ds ++ x :: t) (Directive.d :: fmt) =
      if (digits_value ds : Int) ≤ INT_MAX then
        (sscanf (x :: t) fmt).map (fun vs => (digits_value ds : Int) :: vs)
      else none :=
  sscanf_d ds (x :: t) fmt hd (by simpa using hx)

theorem sscanf_d_end (ds : List Nat) (hd : digit_run ds) :
    sscanf ds [Directive.d] =
      if (digits_value ds : Int) ≤ INT_MAX then some [(digits_value ds : Int)] else none := by
  have h := sscanf_d ds [] [] hd (by simp)
  rw [List.append_nil] at h
  rw [h, sscanf_nil_fmt]
  rfl

/-- The four-field formats on `h:m:s<sep>ms`. -/
theorem sscanf_hms_on_hms (dh dm ds dms : List Nat) (sep x : Nat)
    (hh : digit_run dh) (hm : digit_run dm) (hs : digit_run ds) (hms : digit_run dms)
    (hsep : isdigit sep = false) :
    sscanf (dh ++ 58 :: (dm ++ 58 :: (ds ++ sep :: dms)))
        [Directive.d, Directive.lit 58, Directive.d, Directive.lit 58, Directive.d,
          Directive.lit x, Directive.d] =
      if (digits_value dh : Int) ≤ INT_MAX then
        if (digits_value dm : Int) ≤ INT_MAX then
          if (digits_value ds : Int) ≤ INT_MAX then
            if sep = x then
              if (digits_value dms : Int) ≤ INT_MAX then
                some [(digits_value dh : Int), (digits_value dm : Int), (digits_value ds : Int),
                  (digits_value dms : Int)]
              else none
            else some [(digits_value dh : Int), (digits_value dm : Int), (digits_value ds : Int)]
          else none
        else none
      else none := by
  rw [sscanf_d_cons dh 58 _ _ hh (by decide), sscanf_lit, if_pos rfl,
    sscanf_d_cons dm 58 _ _ hm (by decide), sscanf_lit, if_pos rfl,
    sscanf_d_cons ds sep _ _ hs hsep, sscanf_lit, sscanf_d_end dms hms]
  split_ifs <;> rfl

/-- The three-field formats on `h:m:s<sep>ms`: the second `:` stops the scan. -/
theorem sscanf_ms_on_hms (dh dm ds dms : List Nat) (sep x : Nat)
    (hh : digit_run dh) (hm : digit_run dm) (hx : x ≠ 58) :
    sscanf (dh ++ 58 :: (dm ++ 58 :: (ds ++ sep :: dms)))
        [Directive.d, Directive.lit 58, Directive.d, Directive.lit x, Directive.d] =
      if (digits_value dh : Int) ≤ INT_MAX then
        if (digits_value dm : Int) ≤ INT_MAX then
          some [(digits_value dh : Int), (digits_value dm : Int)]
        else none
      else none := by
  rw [sscanf_d_cons dh 58 _ _ hh (by decide), sscanf_lit, if_pos rfl,
    sscanf_d_cons dm 58 _ _ hm (by decide), sscanf_lit, if_neg (Ne.symm hx)]
  split_ifs <;> rfl

/-- The four-field formats on `m:s<sep>ms`: the separator stops the scan. -/
theorem sscanf_hms_on_ms (dm ds dms : List Nat) (sep x : Nat)
    (hm : digit_run dm) (hs : digit_run ds) (hsep : isdigit sep = false) (hsep2 : sep ≠ 58) :
    sscanf (dm ++ 58 :: (ds ++ sep :: dms))
        [Directive.d, Directive.lit 58, Directive.d, Directive.lit 58, Directive.d,
          Directive.lit x, Directive.d] =
      if (digits_value dm : Int) ≤ INT_MAX then
        if (digits_value ds : Int) ≤ INT_MAX then
          some [(digits_value dm : Int), (digits_value ds : Int)]
        else none
      else none := by
  rw [sscanf_d_cons dm 58 _ _ hm (by decide), sscanf_lit, if_pos rfl,
    sscanf_d_cons ds sep _ _ hs hsep, sscanf_lit, if_neg hsep2]
  split_ifs <;> rfl

/-- The three-field formats on `m:s<sep>ms`. -/
theorem sscanf_ms_on_ms (dm ds dms : List Nat) (sep x : Nat)
    (hm : digit_run dm) (hs : digit_run ds) (hms : digit_run dms)
    (hsep : isdigit sep = false) :
    sscanf (dm ++ 58 :: (ds ++ sep :: dms))
        [Directive.d, Directive.lit 58, Directive.d, Directive.lit x, Directive.d] =
      if (digits_value dm : Int) ≤ INT_MAX then
        if (digits_value ds : Int) ≤ INT_MAX then
          if sep = x then
            if (digits_value dms : Int) ≤ INT_MAX then
              some [(digits_value dm : Int), (digits_value ds : Int), (digits_value dms : Int)]
            else none
          else some [(digits_value dm : Int), (digits_value ds : Int)]
        else none
      else none := by
  rw [sscanf_d_cons dm 58 _ _ hm (by decide), sscanf_lit, if_pos rfl,
    sscanf_d_cons ds sep _ _ hs hsep, sscanf_lit, sscanf_d_end dms hms]
  split_ifs <;> rfl

/-- The chain of `sscanf` calls on `h:m:s.ms` and on `h:m:s,ms`. -/
theorem parse_start_time_hms (dh dm ds dms : List Nat) (sep : Nat)
    (hh : digit_run dh) (hm : digit_run dm) (hs : digit_run ds) (hms : digit_run dms)
    (hsep : sep = 46 ∨ sep = 44) :
    parse_start_time (dh ++ 58 :: (dm ++ 58 :: (ds ++ sep :: dms))) =
      if (digits_value dh : Int) ≤ INT_MAX ∧ (digits_value dm : Int) ≤ INT_MAX ∧
          (digits_value ds : Int) ≤ INT_MAX ∧ (digits_value dms : Int) ≤ INT_MAX then
        some (some ⟨digits_value dh, digits_value dm, digits_value ds, digits_value dms⟩)
      else none := by
  have hsd : isdigit sep = false := by rcases hsep with h | h <;> rw [h] <;> decide
  unfold parse_start_time
  simp only [fmt_hms_dot, fmt_ms_dot, fmt_hms_comma, fmt_ms_comma]
  rw [sscanf_hms_on_hms dh dm ds dms sep 46 hh hm hs hms hsd,
    sscanf_hms_on_hms dh dm ds dms sep 44 hh hm hs hms hsd,
    sscanf_ms_on_hms dh dm ds dms sep 46 hh hm (by decide),
    sscanf_ms_on_hms dh dm ds dms sep 44 hh hm (by decide)]
  by_cases h1 : (digits_value dh : Int) ≤ INT_MAX <;>
  by_cases h2 : (digits_value dm : Int) ≤ INT_MAX <;>
  by_cases h3 : (digits_value ds : Int) ≤ INT_MAX <;>
  by_cases h4 : (digits_value dms : Int) ≤ INT_MAX <;>
  rcases hsep with h | h <;> subst h <;>
  simp [h1, h2, h3, h4, store_hmsm, store_msm]

/-- The chain of `sscanf` calls on `m:s.ms` and on `m:s,ms`. -/
theorem parse_start_time_ms (dm ds dms : List Nat) (sep : Nat)
    (hm : digit_run dm) (hs : digit_run ds) (hms : digit_run dms)
    (hsep : sep = 46 ∨ sep = 44) :
    parse_start_time (dm ++ 58 :: (ds ++ sep :: dms)) =
      if (digits_value dm : Int) ≤ INT_MAX ∧
          (digits_value ds : Int) ≤ INT_MAX ∧ (digits_value dms : Int) ≤ INT_MAX then
        some (some ⟨0, digits_value dm, digits_value ds, digits_value dms⟩)
      else none := by
  have hsd : isdigit sep = false := by rcases hsep with h | h <;> rw [h] <;> decide
  have hs58 : sep ≠ 58 := by rcases hsep with h | h <;> rw [h] <;> decide
  unfold parse_start_time
  simp only [fmt_hms_dot, fmt_ms_dot, fmt_hms_comma, fmt_ms_comma]
  rw [sscanf_hms_on_ms dm ds dms sep 46 hm hs hsd hs58,
    sscanf_hms_on_ms dm ds dms sep 44 hm hs hsd hs58,
    sscanf_ms_on_ms dm ds dms sep 46 hm hs hms hsd,
    sscanf_ms_on_ms dm ds dms sep 44 hm hs hms hsd]
  by_cases h2 : (digits_value dm : Int) ≤ INT_MAX <;>
  by_cases h3 : (digits_value ds : Int) ≤ INT_MAX <;>
  by_cases h4 : (digits_value dms : Int) ≤ INT_MAX <;>
  rcases hsep with h | h <;> subst h <;>
  simp [h2, h3, h4, store_hmsm, store_msm]

/-! ## Lemmas on the timestamp rule -/

theorem ascii_arrow : ascii "-->" = [45, 45, 62] := rfl

/-- The arrow is found at the end of a block that has no `-`. -/
theorem strstr_arrow (a rest : List Nat) (ha : 45 ∉ a) :
    strstr (a ++ ascii "-->" ++ rest) (ascii "-->") = some a.length := by
  rw [List.append_assoc, ascii_arrow, strstr_append_of_head_not_mem 45 [45, 62] a _ ha]
  simp [strstr_cons, List.isPrefixOf]

theorem digit_run_not_mem (ds : List Nat) (hd : digit_run ds) (x : Nat)
    (hx : isdigit x = false) : x ∉ ds := by
  intro h
  rw [hd.2 x h] at hx
  exact Bool.noConfusion hx

theorem space_run_not_mem (ws : List Nat) (hw : space_run ws) (x : Nat)
    (hx : isspace x = false) : x ∉ ws := by
  intro h
  rw [hw x h] at hx
  exact Bool.noConfusion hx

/-- No cue number is skipped when the leading run of digits is not followed by a space or
    a tab. -/
theorem skip_cue_number_digits (d : List Nat) (x : Nat) (r : List Nat) (hd : digit_run d)
    (hx : isdigit x = false) (hx2 : x ≠ 32 ∧ x ≠ 9) :
    skip_cue_number (d ++ x :: r) = 0 := by
  obtain ⟨c, cs, rfl⟩ := List.exists_cons_of_ne_nil hd.1
  have hc : isdigit c = true := hd.2 c (by simp)
  have e1 : ((c :: cs) ++ x :: r).takeWhile isdigit = c :: cs :=
    takeWhile_append_of_all isdigit _ _ hd.2 (by simpa using hx)
  simp only [skip_cue_number, List.cons_append, hc, if_true]
  rw [← List.cons_append, e1, List.drop_left']
  · simp [hx2.1, hx2.2]
  · rfl

/-- A leading cue number, the space or tab after it and the white space that follows are
    skipped. -/
theorem skip_cue_number_inlined (n : List Nat) (sep : Nat) (ws t : List Nat)
    (hn : digit_run n) (hsep : sep = 32 ∨ sep = 9) (hws : space_run ws)
    (ht : ∀ c ∈ t.head?, isspace c = false) :
    skip_cue_number (n ++ sep :: ws ++ t) = (n ++ sep :: ws).length := by
  obtain ⟨c, cs, rfl⟩ := List.exists_cons_of_ne_nil hn.1
  have hc : isdigit c = true := hn.2 c (by simp)
  have hsd : isdigit sep = false := by rcases hsep with h | h <;> rw [h] <;> decide
  have e0 : (c :: cs) ++ sep :: ws ++ t = (c :: cs) ++ sep :: (ws ++ t) := by simp
  have e1 : ((c :: cs) ++ sep :: (ws ++ t)).takeWhile isdigit = c :: cs :=
    takeWhile_append_of_all isdigit _ _ hn.2 (by simpa using hsd)
  have e2 : (ws ++ t).takeWhile isspace = ws := takeWhile_append_of_all isspace _ _ hws ht
  rw [e0]
  simp only [skip_cue_number, List.cons_append, hc, if_true]
  rw [← List.cons_append, e1, List.drop_left']
  · simp only [hsep, if_true, e2, List.length_append, List.length_cons]
    omega
  · rfl

/-- The timestamp rule only looks at the text between `time_start` and the arrow. -/
theorem timestamp_rule_eq (line : List Nat) (k i : Nat) (hk : skip_cue_number line = k) :
    timestamp_rule line (k + i) =
      start_time_tag (((line.drop k).take i).rdropWhile (fun c => isspace c)) := by
  unfold timestamp_rule
  simp only [hk]
  by_cases hi : i = 0
  · subst hi
    simp [start_time_tag]
  · have h1 : ¬ (k + i ≤ k) := by omega
    simp only [h1, if_false, Nat.add_sub_cancel_left]

/-- Trailing white space is trimmed up to the last digit. -/
theorem rdropWhile_space_run (a ds ws : List Nat) (hd : digit_run ds) (hws : space_run ws) :
    (a ++ ds ++ ws).rdropWhile (fun c => isspace c) = a ++ ds := by
  induction ws using List.reverseRecOn with
  | nil =>
    rw [List.append_nil]
    obtain ⟨c, cs, hcs⟩ := List.exists_cons_of_ne_nil (List.reverse_ne_nil_iff.mpr hd.1)
    have hds : ds = cs.reverse ++ [c] := by
      have := congrArg List.reverse hcs
      simpa using this
    have hc : isdigit c = true := hd.2 c (by rw [hds]; simp)
    rw [hds, ← List.append_assoc]
    apply List.rdropWhile_concat_neg
    simp [isdigit_not_isspace c hc]
  | append_singleton ws w ih =>
    have hw : isspace w = true := hws w (by simp)
    rw [← List.append_assoc, List.rdropWhile_concat_pos _ _ _ hw]
    exact ih (fun c hc => hws c (by simp [hc]))

/-- A line that starts with a run of digits followed by a byte that is neither a digit nor
    white space is not a cue number line. -/
theorem is_cue_number_digits (d : List Nat) (x : Nat) (r : List Nat) (hd : digit_run d)
    (hx : isdigit x = false) : is_cue_number (d ++ x :: r) = false := by
  obtain ⟨c, cs, rfl⟩ := List.exists_cons_of_ne_nil hd.1
  have hc : isdigit c = true := hd.2 c (by simp)
  have e1 : ((c :: cs) ++ x :: r).dropWhile isspace = (c :: cs) ++ x :: r := by
    simp [List.dropWhile, isdigit_not_isspace c hc]
  unfold is_cue_number
  simp only [e1]
  simp [hx]

/-- The end of the loop body on a line `field ws --> rest`, where `field` starts with a run
    of digits and a `:`, ends with a run of digits and has no `-`. -/
theorem timestamp_or_lyric_timing (st : State) (d mid dl ws rest : List Nat)
    (hd : digit_run d) (hdl : digit_run dl) (hmid : 45 ∉ mid) (hws : space_run ws) :
    timestamp_or_lyric st (d ++ 58 :: mid ++ dl ++ ws ++ ascii "-->" ++ rest) =
      match start_time_tag (d ++ 58 :: mid ++ dl) with
      | none => none
      | some none => some (st, [])
      | some (some tag) => some ({ st with found_first_timestamp := true }, tag) := by
  have e0 : d ++ 58 :: mid ++ dl ++ ws ++ ascii "-->" ++ rest =
      d ++ 58 :: (mid ++ dl ++ ws ++ ascii "-->" ++ rest) := by simp
  have h45 : 45 ∉ d ++ 58 :: mid ++ dl ++ ws := by
    have a1 := digit_run_not_mem d hd 45 (by decide)
    have a2 := digit_run_not_mem dl hdl 45 (by decide)
    have a3 := space_run_not_mem ws hws 45 (by decide)
    simp [a1, a2, a3, hmid]
  have h4 : strstr (d ++ 58 :: mid ++ dl ++ ws ++ ascii "-->" ++ rest) (ascii "-->") =
      some (0 + (d ++ 58 :: mid ++ dl ++ ws).length) := by
    rw [strstr_arrow _ rest h45, Nat.zero_add]
  have h5 : skip_cue_number (d ++ 58 :: mid ++ dl ++ ws ++ ascii "-->" ++ rest) = 0 := by
    rw [e0]; exact skip_cue_number_digits d 58 _ hd (by decide) (by decide)
  have h6 : ((d ++ 58 :: mid ++ dl ++ ws ++ ascii "-->" ++ rest).drop 0).take
      (d ++ 58 :: mid ++ dl ++ ws).length = d ++ 58 :: mid ++ dl ++ ws := by
    rw [List.drop_zero, List.append_assoc (d ++ 58 :: mid ++ dl ++ ws), List.take_left]
  unfold timestamp_or_lyric
  simp only [h4]
  rw [timestamp_rule_eq _ 0 _ h5, h6, rdropWhile_space_run _ dl ws hdl hws]

/-- The loop body on a line that no skip rule takes. -/
theorem process_line_of_not_skipped (st : State) (line : List Nat)
    (h1 : pre_header_skip st line = false) (h2 : metadata_skip line = false)
    (h3 : is_cue_number line = false) :
    process_line st line = timestamp_or_lyric st line := by
  unfold process_line
  simp only [h1, h2, h3, Bool.false_eq_true, if_false]

/-- The loop body on a line `field ws --> rest` that is not taken by a skip rule, where
    `field` starts with a run of digits and a `:`, ends with a run of digits and has
    no `-`. -/
theorem process_line_timing (st : State) (d mid dl ws rest : List Nat)
    (hd : digit_run d) (hdl : digit_run dl) (hmid : 45 ∉ mid) (hws : space_run ws)
    (h1 : pre_header_skip st (d ++ 58 :: mid ++ dl ++ ws ++ ascii "-->" ++ rest) = false)
    (h2 : metadata_skip (d ++ 58 :: mid ++ dl ++ ws ++ ascii "-->" ++ rest) = false) :
    process_line st (d ++ 58 :: mid ++ dl ++ ws ++ ascii "-->" ++ rest) =
      match start_time_tag (d ++ 58 :: mid ++ dl) with
      | none => none
      | some none => some (st, [])
      | some (some tag) => some ({ st with found_first_timestamp := true }, tag) := by
  have e0 : d ++ 58 :: mid ++ dl ++ ws ++ ascii "-->" ++ rest =
      d ++ 58 :: (mid ++ dl ++ ws ++ ascii "-->" ++ rest) := by simp
  have h3 : is_cue_number (d ++ 58 :: mid ++ dl ++ ws ++ ascii "-->" ++ rest) = false := by
    rw [e0]; exact is_cue_number_digits d 58 _ hd (by decide)
  rw [process_line_of_not_skipped st _ h1 h2 h3,
    timestamp_or_lyric_timing st d mid dl ws rest hd hdl hmid hws]

theorem ascii_colon : ascii ":" = [58] := rfl
theorem ascii_comma : ascii "," = [44] := rfl

theorem int_result_nat (n : Nat) (hn : n ≤ 2147483647) : int_result (n : Int) = some (n : Int) := by
  unfold int_result INT_MIN INT_MAX
  have h1 : (-2147483648 : Int) ≤ (n : Int) := by omega
  have h2 : (n : Int) ≤ 2147483647 := by omega
  simp [h1, h2]

/-- The tag written for non-negative fields whose total fits an `int`. -/
theorem format_tag_nat (h m s ms : Nat) (hfit : h * 3600 + m * 60 + s ≤ 2147483647)
    (hfit2 : ms + 5 ≤ 2147483647) :
    format_tag ⟨h, m, s, ms⟩ =
      some (ascii "[" ++ fmt_02d (((h * 3600 + m * 60 + s) / 60 : Nat) : Int) ++ ascii ":" ++
        fmt_02d (((h * 3600 + m * 60 + s) % 60 : Nat) : Int) ++ ascii "." ++
        fmt_02d (((ms + 5) / 10 : Nat) : Int) ++ ascii "]") := by
  have e1 : ((h : Int) * 3600) = ((h * 3600 : Nat) : Int) := by push_cast; rfl
  have e2 : ((m : Int) * 60) = ((m * 60 : Nat) : Int) := by push_cast; rfl
  have e3 : ((h * 3600 : Nat) : Int) + ((m * 60 : Nat) : Int) = ((h * 3600 + m * 60 : Nat) : Int) := by
    push_cast; rfl
  have e4 : ((h * 3600 + m * 60 : Nat) : Int) + (s : Int) = ((h * 3600 + m * 60 + s : Nat) : Int) := by
    push_cast; rfl
  have e5 : (ms : Int) + 5 = ((ms + 5 : Nat) : Int) := by push_cast; rfl
  unfold format_tag
  simp only [e1, e2, int_result_nat (h * 3600) (by omega), int_result_nat (m * 60) (by omega),
    Option.bind_some, Option.some_bind, e3, int_result_nat (h * 3600 + m * 60) (by omega), e4,
    int_result_nat (h * 3600 + m * 60 + s) hfit, e5, int_result_nat (ms + 5) hfit2]
  rfl

/-- C2 (amended): for every cue timing line that is not taken by a skip rule and whose start
    field is `H:MM:SS.mmm` with decimal fields h, m, s, ms, where the field is shorter
    than 64 bytes and `h*3600 + m*60 + s` and `ms + 5` fit a 32-bit `int`, the loop body
    sets `found_first_timestamp` and writes exactly `[MM:SS.CC]` and no newline, with
    `MM = total / 60`, `SS = total % 60`, `CC = (ms + 5) / 10`, each printed by `%02d`:
    in decimal, padded to at least two digits, never clamped. -/
theorem timestamp_tag_hms (st : State) (dh dm ds dms ws rest : List Nat)
    (hh : digit_run dh) (hm : digit_run dm) (hs : digit_run ds) (hms : digit_run dms)
    (hws : space_run ws)
    (h1 : pre_header_skip st (dh ++ ascii ":" ++ dm ++ ascii ":" ++ ds ++ ascii "." ++ dms ++
      ws ++ ascii "-->" ++ rest) = false)
    (h2 : metadata_skip (dh ++ ascii ":" ++ dm ++ ascii ":" ++ ds ++ ascii "." ++ dms ++
      ws ++ ascii "-->" ++ rest) = false)
    (hlen : (dh ++ ascii ":" ++ dm ++ ascii ":" ++ ds ++ ascii "." ++ dms).length < 64)
    (hfit : digits_value dh * 3600 + digits_value dm * 60 + digits_value ds ≤ 2147483647)
    (hfit2 : digits_value dms + 5 ≤ 2147483647) :
    process_line st (dh ++ ascii ":" ++ dm ++ ascii ":" ++ ds ++ ascii "." ++ dms ++
      ws ++ ascii "-->" ++ rest) =
      some ({ st with found_first_timestamp := true },
        ascii "[" ++
        fmt_02d (((digits_value dh * 3600 + digits_value dm * 60 + digits_value ds) / 60 : Nat) : Int)
        ++ ascii ":" ++
        fmt_02d (((digits_value dh * 3600 + digits_value dm * 60 + digits_value ds) % 60 : Nat) : Int)
        ++ ascii "." ++
        fmt_02d (((digits_value dms + 5) / 10 : Nat) : Int) ++ ascii "]") := by
  have e0 : dh ++ ascii ":" ++ dm ++ ascii ":" ++ ds ++ ascii "." ++ dms ++ ws ++ ascii "-->" ++ rest
      = dh ++ 58 :: (dm ++ 58 :: ds ++ [46]) ++ dms ++ ws ++ ascii "-->" ++ rest := by
    simp [ascii_colon, ascii_dot]
  have e1 : dh ++ 58 :: (dm ++ 58 :: ds ++ [46]) ++ dms
      = dh ++ 58 :: (dm ++ 58 :: (ds ++ 46 :: dms)) := by simp
  have e2 : dh ++ ascii ":" ++ dm ++ ascii ":" ++ ds ++ ascii "." ++ dms
      = dh ++ 58 :: (dm ++ 58 :: (ds ++ 46 :: dms)) := by simp [ascii_colon, ascii_dot]
  have hmid : 45 ∉ dm ++ 58 :: ds ++ [46] := by
    have a1 := digit_run_not_mem dm hm 45 (by decide)
    have a2 := digit_run_not_mem ds hs 45 (by decide)
    simp [a1, a2]
  rw [e0] at h1 h2 ⊢
  rw [e2] at hlen
  rw [process_line_timing st dh _ dms ws rest hh hms hmid hws h1 h2, e1]
  have hne : (dh ++ 58 :: (dm ++ 58 :: (ds ++ 46 :: dms))).length ≠ 0 := by simp
  have h64 : ¬ 64 ≤ (dh ++ 58 :: (dm ++ 58 :: (ds ++ 46 :: dms))).length := by omega
  have hr : ((digits_value dh : Int) ≤ INT_MAX ∧ (digits_value dm : Int) ≤ INT_MAX ∧
      (digits_value ds : Int) ≤ INT_MAX ∧ (digits_value dms : Int) ≤ INT_MAX) := by
    unfold INT_MAX; omega
  unfold start_time_tag
  simp only [hne, h64, if_false, parse_start_time_hms dh dm ds dms 46 hh hm hs hms (Or.inl rfl),
    hr, and_self, if_true, format_tag_nat _ _ _ _ hfit hfit2]

theorem timestamp_tag_hms_witness :
    process_line ⟨true, false⟩ (ascii "00:01:02.340 --> 00:01:05.000") =
      some (⟨true, true⟩, ascii "[01:02.34]") ∧
    process_line ⟨false, true⟩ (ascii "2:00:00.128 --> 2:00:05.000") =
      some (⟨false, true⟩, ascii "[120:00.13]") :=
  ⟨timestamp_tag_hms ⟨true, false⟩ (ascii "00") (ascii "01") (ascii "02") (ascii "340")
    (ascii " ") (ascii " 00:01:05.000") (by decide) (by decide) (by decide) (by decide)
    (by decide) (by decide) (by decide) (by decide) (by decide) (by decide),
   timestamp_tag_hms ⟨false, true⟩ (ascii "2") (ascii "00") (ascii "00") (ascii "128")
    (ascii " ") (ascii " 2:00:05.000") (by decide) (by decide) (by decide) (by decide)
    (by decide) (by decide) (by decide) (by decide) (by decide) (by decide)⟩

/-- C2 as stated fails.  In `1193047:00:00.000 --> 1193047:00:05.000` the fields are
    non-negative decimal numbers, and the claim asks for the tag `[71582820:00.00]`; but
    `hour * 3600` is 4294969200, which no 32-bit `int` holds, so that tag is not written.
    In the second line the hour is written with 54 digits `0`: the start field has 64 bytes,
    which with the terminator do not fit `start_time[64]`, and the tag `[00:00.00]` that the
    claim asks for is not what the model gives. -/
theorem timestamp_tag_hms_counterexample :
    (digit_run (ascii "1193047") ∧
     (1193047 * 3600 + 0 * 60 + 0) / 60 = 71582820 ∧
     process_line ⟨false, false⟩ (ascii "1193047:00:00.000 --> 1193047:00:05.000") ≠
       some (⟨false, true⟩, ascii "[71582820:00.00]") ∧
     process_line ⟨false, false⟩ (ascii "1193047:00:00.000 --> 1193047:00:05.000") = none) ∧
    (digit_run (List.replicate 54 48) ∧ digits_value (List.replicate 54 48) = 0 ∧
     process_line ⟨false, false⟩
       (List.replicate 54 48 ++ ascii ":00:00.000 --> 00:00:05.000") ≠
       some (⟨false, true⟩, ascii "[00:00.00]") ∧
     process_line ⟨false, false⟩
       (List.replicate 54 48 ++ ascii ":00:00.000 --> 00:00:05.000") = none) := by
  decide

theorem isPrefixOf_append_of_not_mem (needle a : List Nat) (c : Nat) (b : List Nat)
    (hc : c ∉ needle) : needle.isPrefixOf (a ++ c :: b) = needle.isPrefixOf a := by
  by_cases h : needle.isPrefixOf a = true
  · rw [h]
    rw [List.isPrefixOf_iff_prefix] at h ⊢
    exact h.trans (List.prefix_append a _)
  · have h2 : needle.isPrefixOf (a ++ c :: b) ≠ true := by
      intro hq
      rcases isPrefixOf_append_cons c b a needle hq with h1 | h1
      · exact h h1
      · exact hc (List.mem_of_mem_drop h1)
    rw [Bool.not_eq_true] at h
    rw [ne_eq, Bool.not_eq_true] at h2
    rw [h, h2]

/-- Replacing a byte that is not in the needle by another such byte moves no occurrence. -/
theorem strstr_replace_byte (needle a b : List Nat) (c c' : Nat)
    (hc : c ∉ needle) (hc' : c' ∉ needle) :
    strstr (a ++ c :: b) needle = strstr (a ++ c' :: b) needle := by
  induction a with
  | nil =>
    have e1 := isPrefixOf_append_of_not_mem needle [] c b hc
    have e2 := isPrefixOf_append_of_not_mem needle [] c' b hc'
    simp only [List.nil_append] at e1 e2 ⊢
    rw [strstr_cons, strstr_cons, e1, e2]
  | cons x a ih =>
    have e1 := isPrefixOf_append_of_not_mem needle (x :: a) c b hc
    have e2 := isPrefixOf_append_of_not_mem needle (x :: a) c' b hc'
    simp only [List.cons_append] at e1 e2 ⊢
    rw [strstr_cons, strstr_cons, e1, e2, ih]

/-- A prefix without the first byte of the needle does not change whether it occurs. -/
theorem strstr_isSome_append (d : Nat) (ns a b : List Nat) (hd : d ∉ a) :
    (strstr (a ++ b) (d :: ns)).isSome = (strstr b (d :: ns)).isSome := by
  rw [strstr_append_of_head_not_mem d ns a b hd]
  cases strstr b (d :: ns) <;> rfl

/-- Two lines on which all the tests of the skip rules agree are processed alike when the
    end of the loop body treats them alike. -/
theorem process_line_congr (st : State) (l1 l2 : List Nat)
    (hW : (strstr l1 (ascii "WEBVTT")).isSome = (strstr l2 (ascii "WEBVTT")).isSome)
    (hN : (strstr l1 (ascii "NOTE")).isSome = (strstr l2 (ascii "NOTE")).isSome)
    (hS : (strstr l1 (ascii "STYLE")).isSome = (strstr l2 (ascii "STYLE")).isSome)
    (hR : (strstr l1 (ascii "REGION")).isSome = (strstr l2 (ascii "REGION")).isSome)
    (hlen : (l1.length == 0) = (l2.length == 0))
    (h13 : (l1.head? == some 13) = (l2.head? == some 13))
    (hcue : is_cue_number l1 = is_cue_number l2)
    (hT : timestamp_or_lyric st l1 = timestamp_or_lyric st l2) :
    process_line st l1 = process_line st l2 := by
  unfold process_line pre_header_skip metadata_skip
  rw [hW, hN, hS, hR, hlen, h13, hcue, hT]

theorem ascii_WEBVTT : ascii "WEBVTT" = 87 :: [69, 66, 86, 84, 84] := rfl
theorem ascii_NOTE : ascii "NOTE" = 78 :: [79, 84, 69] := rfl
theorem ascii_STYLE : ascii "STYLE" = 83 :: [84, 89, 76, 69] := rfl
theorem ascii_REGION : ascii "REGION" = 82 :: [69, 71, 73, 79, 78] := rfl

/-- The start time `m:s<sep>ms` and the start time `00:m:s<sep>ms` give the same variables. -/
theorem parse_start_time_zero_hour (dm ds dms : List Nat) (sep : Nat)
    (hm : digit_run dm) (hs : digit_run ds) (hms : digit_run dms) (hsep : sep = 46 ∨ sep = 44) :
    parse_start_time (dm ++ 58 :: (ds ++ sep :: dms)) =
      parse_start_time ([48, 48] ++ 58 :: (dm ++ 58 :: (ds ++ sep :: dms))) := by
  rw [parse_start_time_ms dm ds dms sep hm hs hms hsep,
    parse_start_time_hms [48, 48] dm ds dms sep (by decide) hm hs hms hsep]
  have e0 : digits_value [48, 48] = 0 := rfl
  have e1 : ((0 : Nat) : Int) ≤ INT_MAX := by decide
  simp only [e0, e1, true_and]
  rfl

/-- C6: for every state and every cue timing line whose start field is the two-field form
    `MM:SS.mmm`, the loop body gives the same flags and writes the same bytes as for the
    line with the start field `00:MM:SS.mmm`, and the chain of `sscanf` calls leaves the
    same `hour` (0), `minute`, `second` and `millisecond`.  The fields may have any number
    of digits as long as the longer start field fits `start_time` (fewer than 64 bytes),
    which holds for two-digit minutes and seconds and three-digit milliseconds. -/
theorem two_field_start_time (st : State) (dm ds dms ws rest : List Nat)
    (hm : digit_run dm) (hs : digit_run ds) (hms : digit_run dms) (hws : space_run ws)
    (hlen : (ascii "00:" ++ dm ++ ascii ":" ++ ds ++ ascii "." ++ dms).length < 64) :
    process_line st (dm ++ ascii ":" ++ ds ++ ascii "." ++ dms ++ ws ++ ascii "-->" ++ rest) =
      process_line st
        (ascii "00:" ++ dm ++ ascii ":" ++ ds ++ ascii "." ++ dms ++ ws ++ ascii "-->" ++ rest) ∧
    parse_start_time (dm ++ ascii ":" ++ ds ++ ascii "." ++ dms) =
      parse_start_time (ascii "00:" ++ dm ++ ascii ":" ++ ds ++ ascii "." ++ dms) := by
  have hz : ascii "00:" = [48, 48, 58] := rfl
  have e1 : dm ++ ascii ":" ++ ds ++ ascii "." ++ dms ++ ws ++ ascii "-->" ++ rest =
      dm ++ 58 :: (ds ++ [46]) ++ dms ++ ws ++ ascii "-->" ++ rest := by
    simp [ascii_colon, ascii_dot]
  have e2 : ascii "00:" ++ dm ++ ascii ":" ++ ds ++ ascii "." ++ dms ++ ws ++ ascii "-->" ++ rest =
      [48, 48] ++ 58 :: (dm ++ 58 :: ds ++ [46]) ++ dms ++ ws ++ ascii "-->" ++ rest := by
    simp [ascii_colon, ascii_dot, hz]
  have e3 : [48, 48] ++ 58 :: (dm ++ 58 :: ds ++ [46]) ++ dms ++ ws ++ ascii "-->" ++ rest =
      [48, 48, 58] ++ (dm ++ 58 :: (ds ++ [46]) ++ dms ++ ws ++ ascii "-->" ++ rest) := by
    simp
  have f1 : dm ++ 58 :: (ds ++ [46]) ++ dms = dm ++ 58 :: (ds ++ 46 :: dms) := by simp
  have f2 : [48, 48] ++ 58 :: (dm ++ 58 :: ds ++ [46]) ++ dms =
      [48, 48] ++ 58 :: (dm ++ 58 :: (ds ++ 46 :: dms)) := by simp
  have hp := parse_start_time_zero_hour dm ds dms 46 hm hs hms (Or.inl rfl)
  have p1 : dm ++ ascii ":" ++ ds ++ ascii "." ++ dms = dm ++ 58 :: (ds ++ 46 :: dms) := by
    simp [ascii_colon, ascii_dot]
  have p2 : ascii "00:" ++ dm ++ ascii ":" ++ ds ++ ascii "." ++ dms =
      [48, 48] ++ 58 :: (dm ++ 58 :: (ds ++ 46 :: dms)) := by
    simp [ascii_colon, ascii_dot, hz]
  refine ⟨?_, by rw [p1, p2]; exact hp⟩
  have a1 := digit_run_not_mem dm hm 45 (by decide)
  have a2 := digit_run_not_mem ds hs 45 (by decide)
  obtain ⟨c, cs, hc⟩ := List.exists_cons_of_ne_nil hm.1
  have hcd : isdigit c = true := hm.2 c (by rw [hc]; simp)
  rw [e1, e2]
  apply process_line_congr
  · rw [e3, ascii_WEBVTT, strstr_isSome_append 87 _ [48, 48, 58] _ (by decide)]
  · rw [e3, ascii_NOTE, strstr_isSome_append 78 _ [48, 48, 58] _ (by decide)]
  · rw [e3, ascii_STYLE, strstr_isSome_append 83 _ [48, 48, 58] _ (by decide)]
  · rw [e3, ascii_REGION, strstr_isSome_append 82 _ [48, 48, 58] _ (by decide)]
  · rw [hc]; rfl
  · rw [hc]
    have : c ≠ 13 := by
      simp only [isdigit, Bool.and_eq_true, decide_eq_true_eq] at hcd; omega
    simp [this]
  · have g1 : dm ++ 58 :: (ds ++ [46]) ++ dms ++ ws ++ ascii "-->" ++ rest =
        dm ++ 58 :: (ds ++ [46] ++ dms ++ ws ++ ascii "-->" ++ rest) := by simp
    have g2 : [48, 48] ++ 58 :: (dm ++ 58 :: ds ++ [46]) ++ dms ++ ws ++ ascii "-->" ++ rest =
        [48, 48] ++ 58 :: (dm ++ 58 :: ds ++ [46] ++ dms ++ ws ++ ascii "-->" ++ rest) := by simp
    rw [g1, is_cue_number_digits dm 58 _ hm (by decide), g2,
      is_cue_number_digits [48, 48] 58 _ (by decide) (by decide)]
  · rw [timestamp_or_lyric_timing st dm _ dms ws rest hm hms (by simp [a2]) hws,
      timestamp_or_lyric_timing st [48, 48] _ dms ws rest (by decide) hms (by simp [a1, a2]) hws,
      f1, f2]
    rw [p2] at hlen
    have h64 : ¬ 64 ≤ ([48, 48] ++ 58 :: (dm ++ 58 :: (ds ++ 46 :: dms))).length := by omega
    have h64b : ¬ 64 ≤ (dm ++ 58 :: (ds ++ 46 :: dms)).length := by
      simp only [List.length_append, List.length_cons] at h64 ⊢; omega
    unfold start_time_tag
    simp only [h64, h64b, if_false, ← hp]
    simp

theorem two_field_start_time_witness :
    process_line ⟨false, false⟩ (ascii "01:02.340 --> 01:05.000") =
      process_line ⟨false, false⟩ (ascii "00:01:02.340 --> 01:05.000") ∧
    process_line ⟨false, false⟩ (ascii "01:02.340 --> 01:05.000") =
      some (⟨false, true⟩, ascii "[01:02.34]") :=
  ⟨(two_field_start_time ⟨false, false⟩ (ascii "01") (ascii "02") (ascii "340") (ascii " ")
    (ascii " 01:05.000") (by decide) (by decide) (by decide) (by decide) (by decide)).1,
   by decide⟩

/-- The loop body on two timing lines that differ in the byte before the last field,
    `,` in one and `.` in the other, when `start_time_tag` agrees on the two start times. -/
theorem process_line_separator (st : State) (d a dms ws rest : List Nat)
    (hd : digit_run d) (ha : 45 ∉ a) (hms : digit_run dms) (hws : space_run ws)
    (htag : start_time_tag (d ++ 58 :: (a ++ [44]) ++ dms) =
      start_time_tag (d ++ 58 :: (a ++ [46]) ++ dms)) :
    process_line st (d ++ 58 :: (a ++ [44]) ++ dms ++ ws ++ ascii "-->" ++ rest) =
      process_line st (d ++ 58 :: (a ++ [46]) ++ dms ++ ws ++ ascii "-->" ++ rest) := by
  have e : ∀ x : Nat, d ++ 58 :: (a ++ [x]) ++ dms ++ ws ++ ascii "-->" ++ rest =
      (d ++ 58 :: a) ++ x :: (dms ++ ws ++ ascii "-->" ++ rest) := by
    intro x; simp
  have g : ∀ x : Nat, d ++ 58 :: (a ++ [x]) ++ dms ++ ws ++ ascii "-->" ++ rest =
      d ++ 58 :: (a ++ [x] ++ dms ++ ws ++ ascii "-->" ++ rest) := by
    intro x; simp
  obtain ⟨c, cs, hc⟩ := List.exists_cons_of_ne_nil hd.1
  apply process_line_congr
  · rw [e 44, e 46]
    exact congrArg Option.isSome (strstr_replace_byte _ _ _ 44 46 (by decide) (by decide))
  · rw [e 44, e 46]
    exact congrArg Option.isSome (strstr_replace_byte _ _ _ 44 46 (by decide) (by decide))
  · rw [e 44, e 46]
    exact congrArg Option.isSome (strstr_replace_byte _ _ _ 44 46 (by decide) (by decide))
  · rw [e 44, e 46]
    exact congrArg Option.isSome (strstr_replace_byte _ _ _ 44 46 (by decide) (by decide))
  · rw [hc]; rfl
  · rw [hc]; rfl
  · rw [g 44, g 46, is_cue_number_digits d 58 _ hd (by decide),
      is_cue_number_digits d 58 _ hd (by decide)]
  · rw [timestamp_or_lyric_timing st d _ dms ws rest hd hms (by simp [ha]) hws,
      timestamp_or_lyric_timing st d _ dms ws rest hd hms (by simp [ha]) hws, htag]

/-- C7: for every state and every cue timing line whose start time is written `H:MM:SS.mmm`
    or `MM:SS.mmm`, writing `,` for the `.` before the milliseconds changes neither the
    flags nor the bytes written by the loop body, and the chain of `sscanf` calls leaves
    the same `hour`, `minute`, `second` and `millisecond`.  (A start time that overruns
    `start_time` or an `int` does so with either separator.) -/
theorem comma_separator (st : State) (dh dm ds dms ws rest : List Nat)
    (hh : digit_run dh) (hm : digit_run dm) (hs : digit_run ds) (hms : digit_run dms)
    (hws : space_run ws) :
    process_line st
        (dh ++ ascii ":" ++ dm ++ ascii ":" ++ ds ++ ascii "," ++ dms ++ ws ++ ascii "-->" ++ rest) =
      process_line st
        (dh ++ ascii ":" ++ dm ++ ascii ":" ++ ds ++ ascii "." ++ dms ++ ws ++ ascii "-->" ++ rest) ∧
    process_line st (dm ++ ascii ":" ++ ds ++ ascii "," ++ dms ++ ws ++ ascii "-->" ++ rest) =
      process_line st (dm ++ ascii ":" ++ ds ++ ascii "." ++ dms ++ ws ++ ascii "-->" ++ rest) ∧
    parse_start_time (dh ++ ascii ":" ++ dm ++ ascii ":" ++ ds ++ ascii "," ++ dms) =
      parse_start_time (dh ++ ascii ":" ++ dm ++ ascii ":" ++ ds ++ ascii "." ++ dms) ∧
    parse_start_time (dm ++ ascii ":" ++ ds ++ ascii "," ++ dms) =
      parse_start_time (dm ++ ascii ":" ++ ds ++ ascii "." ++ dms) := by
  have a1 := digit_run_not_mem dm hm 45 (by decide)
  have a2 := digit_run_not_mem ds hs 45 (by decide)
  have p3 : parse_start_time (dh ++ 58 :: (dm ++ 58 :: (ds ++ 44 :: dms))) =
      parse_start_time (dh ++ 58 :: (dm ++ 58 :: (ds ++ 46 :: dms))) := by
    rw [parse_start_time_hms dh dm ds dms 44 hh hm hs hms (Or.inr rfl),
      parse_start_time_hms dh dm ds dms 46 hh hm hs hms (Or.inl rfl)]
  have p2 : parse_start_time (dm ++ 58 :: (ds ++ 44 :: dms)) =
      parse_start_time (dm ++ 58 :: (ds ++ 46 :: dms)) := by
    rw [parse_start_time_ms dm ds dms 44 hm hs hms (Or.inr rfl),
      parse_start_time_ms dm ds dms 46 hm hs hms (Or.inl rfl)]
  have t3 : start_time_tag (dh ++ 58 :: ((dm ++ 58 :: ds) ++ [44]) ++ dms) =
      start_time_tag (dh ++ 58 :: ((dm ++ 58 :: ds) ++ [46]) ++ dms) := by
    have f : ∀ x : Nat, dh ++ 58 :: ((dm ++ 58 :: ds) ++ [x]) ++ dms =
        dh ++ 58 :: (dm ++ 58 :: (ds ++ x :: dms)) := by intro x; simp
    rw [f 44, f 46]
    unfold start_time_tag
    rw [p3]
    simp only [List.length_append, List.length_cons]
  have t2 : start_time_tag (dm ++ 58 :: (ds ++ [44]) ++ dms) =
      start_time_tag (dm ++ 58 :: (ds ++ [46]) ++ dms) := by
    have f : ∀ x : Nat, dm ++ 58 :: (ds ++ [x]) ++ dms = dm ++ 58 :: (ds ++ x :: dms) := by
      intro x; simp
    rw [f 44, f 46]
    unfold start_time_tag
    rw [p2]
    simp only [List.length_append, List.length_cons]
  have l3 := process_line_separator st dh (dm ++ 58 :: ds) dms ws rest hh (by simp [a1, a2]) hms
    hws t3
  have l2 := process_line_separator st dm ds dms ws rest hm a2 hms hws t2
  simp only [ascii_colon, ascii_dot, ascii_comma]
  refine ⟨?_, ?_, ?_, ?_⟩
  · convert l3 using 2 <;> simp
  · convert l2 using 2 <;> simp
  · convert p3 using 2 <;> simp
  · convert p2 using 2 <;> simp

theorem comma_separator_witness :
    process_line ⟨false, false⟩ (ascii "1:02:03,456 --> 1:02:05,000") =
      process_line ⟨false, false⟩ (ascii "1:02:03.456 --> 1:02:05,000") ∧
    process_line ⟨false, false⟩ (ascii "01:02,340 --> 01:05,000") =
      process_line ⟨false, false⟩ (ascii "01:02.340 --> 01:05,000") ∧
    process_line ⟨false, false⟩ (ascii "01:02,340 --> 01:05,000") =
      some (⟨false, true⟩, ascii "[01:02.34]") :=
  ⟨(comma_separator ⟨false, false⟩ (ascii "1") (ascii "02") (ascii "03") (ascii "456")
      (ascii " ") (ascii " 1:02:05,000") (by decide) (by decide) (by decide) (by decide)
      (by decide)).1,
   (comma_separator ⟨false, false⟩ (ascii "1") (ascii "01") (ascii "02") (ascii "340")
      (ascii " ") (ascii " 01:05,000") (by decide) (by decide) (by decide) (by decide)
      (by decide)).2.1,
   by decide⟩

/-- C8: for every state, every non-empty string of digits `n`, every separator `sep` that is
    a space or a tab, every string of white space `ws0`, and every line `t` that contains
    `-->` and starts with a run of digits followed by `:` (as every well-formed start time
    does), the loop body gives the same flags and writes the same bytes for the line
    `n sep ws0 t` as for `t` alone.  (The cue number is skipped before the start time is
    copied, so a start time overruns `start_time` or an `int` in both lines or in none.) -/
theorem inlined_cue_number (st : State) (n ws0 d r : List Nat) (sep : Nat)
    (hn : digit_run n) (hsep : sep = 32 ∨ sep = 9) (hws0 : space_run ws0) (hd : digit_run d)
    (harrow : (strstr (d ++ ascii ":" ++ r) (ascii "-->")).isSome = true) :
    process_line st (n ++ sep :: ws0 ++ (d ++ ascii ":" ++ r)) =
      process_line st (d ++ ascii ":" ++ r) := by
  have hsd : isdigit sep = false := by rcases hsep with h | h <;> rw [h] <;> decide
  have hnot : ∀ x : Nat, isdigit x = false → isspace x = false → x ∉ n ++ sep :: ws0 := by
    intro x h1 h2
    have b1 := digit_run_not_mem n hn x h1
    have b2 := space_run_not_mem ws0 hws0 x h2
    have b3 : ¬ x = sep := by
      intro e; rw [e] at h2
      rcases hsep with h | h <;> rw [h] at h2 <;> exact absurd h2 (by decide)
    simp [b1, b2, b3]
  obtain ⟨c, cs, hc⟩ := List.exists_cons_of_ne_nil hn.1
  obtain ⟨c2, cs2, hc2⟩ := List.exists_cons_of_ne_nil hd.1
  have hcd : isdigit c2 = true := hd.2 c2 (by rw [hc2]; simp)
  have e1 : d ++ ascii ":" ++ r = d ++ 58 :: r := by simp [ascii_colon]
  have e2 : n ++ sep :: ws0 ++ (d ++ 58 :: r) = n ++ sep :: (ws0 ++ (d ++ 58 :: r)) := by simp
  rw [e1] at harrow ⊢
  apply process_line_congr
  · rw [ascii_WEBVTT, strstr_isSome_append 87 _ _ _ (hnot 87 (by decide) (by decide))]
  · rw [ascii_NOTE, strstr_isSome_append 78 _ _ _ (hnot 78 (by decide) (by decide))]
  · rw [ascii_STYLE, strstr_isSome_append 83 _ _ _ (hnot 83 (by decide) (by decide))]
  · rw [ascii_REGION, strstr_isSome_append 82 _ _ _ (hnot 82 (by decide) (by decide))]
  · rw [hc, hc2]; rfl
  · rw [hc, hc2]
    have h1 : c ≠ 13 := by
      have := hn.2 c (by rw [hc]; simp)
      simp only [isdigit, Bool.and_eq_true, decide_eq_true_eq] at this; omega
    have h2 : c2 ≠ 13 := by
      simp only [isdigit, Bool.and_eq_true, decide_eq_true_eq] at hcd; omega
    simp [h1, h2]
  · rw [e2, is_cue_number_digits n sep _ hn hsd, is_cue_number_digits d 58 _ hd (by decide)]
  · obtain ⟨i, hi⟩ := Option.isSome_iff_exists.mp harrow
    have s1 : strstr (n ++ sep :: ws0 ++ (d ++ 58 :: r)) (ascii "-->") =
        some ((n ++ sep :: ws0).length + i) := by
      rw [ascii_arrow, strstr_append_of_head_not_mem 45 _ _ _ (hnot 45 (by decide) (by decide)),
        ← ascii_arrow, hi]
      simp [Nat.add_comm]
    have s2 : strstr (d ++ 58 :: r) (ascii "-->") = some (0 + i) := by rw [hi, Nat.zero_add]
    have k1 : skip_cue_number (n ++ sep :: ws0 ++ (d ++ 58 :: r)) = (n ++ sep :: ws0).length :=
      skip_cue_number_inlined n sep ws0 _ hn hsep hws0 (by
        rw [hc2]; simpa using isdigit_not_isspace c2 hcd)
    have k2 : skip_cue_number (d ++ 58 :: r) = 0 :=
      skip_cue_number_digits d 58 r hd (by decide) (by decide)
    unfold timestamp_or_lyric
    rw [s1, s2]
    simp only [timestamp_rule_eq _ _ i k1, timestamp_rule_eq _ _ i k2, List.drop_left,
      List.drop_zero]

theorem inlined_cue_number_witness :
    process_line ⟨false, false⟩ (ascii "5 00:00:04.128 --> 00:00:06.000") =
      process_line ⟨false, false⟩ (ascii "00:00:04.128 --> 00:00:06.000") ∧
    process_line ⟨false, false⟩ (ascii "5 00:00:04.128 --> 00:00:06.000") =
      some (⟨false, true⟩, ascii "[00:04.13]") :=
  ⟨inlined_cue_number ⟨false, false⟩ (ascii "5") [] (ascii "00") (ascii "00:04.128 --> 00:00:06.000")
    32 (by decide) (by decide) (by decide) (by decide) (by decide), by decide⟩

/-! ## Lemmas on the lyric rule -/

theorem ascii_space : ascii " " = [32] := rfl
theorem ascii_newline : ascii "\n" = [10] := rfl

theorem strrchr_of_not_mem (s : List Nat) (c : Nat) (h : c ∉ s) : strrchr s c = none := by
  induction s with
  | nil => rfl
  | cons x xs ih =>
    have h1 : ¬ x = c := fun e => h (by simp [e])
    have h2 : c ∉ xs := fun e => h (by simp [e])
    simp [strrchr, ih h2, h1]

theorem strrchr_last (a b : List Nat) (c : Nat) (h : c ∉ b) :
    strrchr (a ++ c :: b) c = some a.length := by
  induction a with
  | nil => simp [strrchr, strrchr_of_not_mem b c h]
  | cons x xs ih => simp [strrchr, ih]

theorem lyric_rule_no_space (line : List Nat) (h : 32 ∉ line) :
    lyric_rule line = line ++ [10] := by
  unfold lyric_rule
  rw [strrchr_of_not_mem line 32 h]

theorem lyric_rule_last_space (before after : List Nat) (h : 32 ∉ after) :
    lyric_rule (before ++ 32 :: after) =
      (if digit_run after then before else before ++ 32 :: after) ++ [10] := by
  have e1 : (before ++ 32 :: after).drop (before.length + 1) = after := by
    rw [List.drop_append]; rfl
  have e2 : (before ++ 32 :: after).take before.length = before := List.take_left _ _
  unfold lyric_rule
  rw [strrchr_last before after 32 h]
  simp only [e1, e2]
  by_cases hd : digit_run after
  · have : (after.all isdigit && !after.isEmpty) = true := by
      obtain ⟨h1, h2⟩ := hd
      simp only [Bool.and_eq_true, List.all_eq_true, Bool.not_eq_true', List.isEmpty_eq_false]
      exact ⟨h2, h1⟩
    simp only [this, if_true, hd]
  · have : (after.all isdigit && !after.isEmpty) = false := by
      rw [Bool.eq_false_iff]
      intro h3
      simp only [Bool.and_eq_true, List.all_eq_true, Bool.not_eq_true', List.isEmpty_eq_false] at h3
      exact hd ⟨h3.2, h3.1⟩
    simp only [this, hd, if_false, Bool.false_eq_true]

/-- The loop body on a line that reaches the lyric rule. -/
theorem process_line_lyric (st : State) (line : List Nat)
    (hfound : st.found_first_timestamp = true) (hne : line ≠ [])
    (h1 : pre_header_skip st line = false) (h2 : metadata_skip line = false)
    (h3 : is_cue_number line = false) (h4 : strstr line (ascii "-->") = none) :
    process_line st line = some (st, lyric_rule line) := by
  rw [process_line_of_not_skipped st line h1 h2 h3]
  unfold timestamp_or_lyric
  have hl : 0 < line.length := List.length_pos.mpr hne
  simp [h4, hfound, hl]

/-- C3: for every line that reaches the lyric rule (a timestamp has been found, the line is
    not empty, no skip rule takes it and it has no `-->`), the loop body leaves the flags
    unchanged and writes the stripped line and one newline: a line without any space is
    written unchanged; a line `before ++ " " ++ after` whose `after` has no space is written
    as `before` when `after` is a non-empty run of digits, and unchanged otherwise. -/
theorem lyric_line_strip (st : State) (line : List Nat)
    (hfound : st.found_first_timestamp = true) (hne : line ≠ [])
    (h1 : pre_header_skip st line = false) (h2 : metadata_skip line = false)
    (h3 : is_cue_number line = false) (h4 : strstr line (ascii "-->") = none) :
    (32 ∉ line → process_line st line = some (st, line ++ ascii "\n")) ∧
    (∀ before after : List Nat, line = before ++ ascii " " ++ after → 32 ∉ after →
      process_line st line =
        some (st, (if digit_run after then before else line) ++ ascii "\n")) := by
  have hp := process_line_lyric st line hfound hne h1 h2 h3 h4
  constructor
  · intro hs
    rw [hp, lyric_rule_no_space line hs, ascii_newline]
  · intro before after hl hs
    have e : line = before ++ 32 :: after := by rw [hl]; simp [ascii_space]
    rw [hp, ascii_newline]
    conv => lhs; rw [e]
    rw [lyric_rule_last_space before after hs]
    by_cases hd : digit_run after
    · simp only [hd, if_true]
    · simp only [hd, if_false, e]

theorem lyric_line_strip_witness :
    process_line ⟨false, true⟩ (ascii "Hello world 7") = some (⟨false, true⟩, ascii "Hello world\n") ∧
    process_line ⟨false, true⟩ (ascii "Track 7") = some (⟨false, true⟩, ascii "Track\n") ∧
    process_line ⟨false, true⟩ (ascii "Hello world") = some (⟨false, true⟩, ascii "Hello world\n") ∧
    process_line ⟨false, true⟩ (ascii "NoSpace") = some (⟨false, true⟩, ascii "NoSpace\n") :=
  ⟨(lyric_line_strip ⟨false, true⟩ (ascii "Hello world 7") rfl (by decide) (by decide)
      (by decide) (by decide) (by decide)).2 (ascii "Hello world") (ascii "7") (by decide)
      (by decide),
   (lyric_line_strip ⟨false, true⟩ (ascii "Track 7") rfl (by decide) (by decide)
      (by decide) (by decide) (by decide)).2 (ascii "Track") (ascii "7") (by decide)
      (by decide),
   (lyric_line_strip ⟨false, true⟩ (ascii "Hello world") rfl (by decide) (by decide)
      (by decide) (by decide) (by decide)).2 (ascii "Hello") (ascii "world") (by decide)
      (by decide),
   (lyric_line_strip ⟨false, true⟩ (ascii "NoSpace") rfl (by decide) (by decide)
      (by decide) (by decide) (by decide)).1 (by decide)⟩

/-! ## The cue number skip -/

theorem strstr_of_head_not_mem (d : Nat) (ns line : List Nat) (h : d ∉ line) :
    strstr line (d :: ns) = none := by
  have := strstr_append_of_head_not_mem d ns line [] h
  rw [List.append_nil] at this
  rw [this]
  rfl

theorem is_cue_number_space_digits (ws ds : List Nat) (hws : space_run ws)
    (hds : digit_run ds) : is_cue_number (ws ++ ds) = true := by
  obtain ⟨c, cs, hc⟩ := List.exists_cons_of_ne_nil hds.1
  have hcd : isdigit c = true := hds.2 c (by rw [hc]; simp)
  have e1 : (ws ++ ds).dropWhile isspace = ds :=
    dropWhile_append_of_all isspace ws ds hws (by
      rw [hc]; simpa using isdigit_not_isspace c hcd)
  unfold is_cue_number
  simp only [e1, Bool.and_eq_true, Bool.not_eq_true', List.isEmpty_eq_false, List.all_eq_true]
  exact ⟨hds.1, hds.2⟩

/-- C9: for every state and every line (the string in `line` that the loop body works on)
    made of optional leading white space followed by one or more decimal digits and nothing
    else, the loop body writes nothing and leaves both flags unchanged. -/
theorem cue_number_line_skipped (st : State) (ws ds : List Nat) (hws : space_run ws)
    (hds : digit_run ds) : process_line st (ws ++ ds) = some (st, []) := by
  have h87 : 87 ∉ ws ++ ds := by
    have a1 := space_run_not_mem ws hws 87 (by decide)
    have a2 := digit_run_not_mem ds hds 87 (by decide)
    simp [a1, a2]
  have hW : strstr (ws ++ ds) (ascii "WEBVTT") = none := by
    rw [ascii_WEBVTT]; exact strstr_of_head_not_mem 87 _ _ h87
  have hc := is_cue_number_space_digits ws ds hws hds
  unfold process_line
  simp only [hW, Option.isSome_none, Bool.false_eq_true, if_false, hc, if_true]
  by_cases h1 : pre_header_skip st (ws ++ ds) = true
  · simp only [h1, if_true]
  · simp only [h1, Bool.false_eq_true, if_false]
    by_cases h2 : metadata_skip (ws ++ ds) = true
    · simp only [h2, if_true]
    · simp only [h2, Bool.false_eq_true, if_false]

theorem cue_number_line_skipped_witness :
    process_line ⟨true, false⟩ (ascii "42") = some (⟨true, false⟩, []) ∧
    process_line ⟨false, true⟩ (ascii "  42") = some (⟨false, true⟩, []) :=
  ⟨cue_number_line_skipped ⟨true, false⟩ [] (ascii "42") (by decide) (by decide),
   cue_number_line_skipped ⟨false, true⟩ (ascii "  ") (ascii "42") (by decide) (by decide)⟩

/-! ## Lemmas on `fgets` and on the conversion loop -/

theorem fgets_read_line (line rest : List Nat) (h : 10 ∉ line) :
    ∀ room : Nat, line.length < room →
      fgets_read room (line ++ 10 :: rest) = (line ++ [10], rest) := by
  induction line with
  | nil =>
    intro room hr
    obtain ⟨k, rfl⟩ : ∃ k, room = k + 1 := ⟨room - 1, by simp at hr; omega⟩
    simp [fgets_read]
  | cons c cs ih =>
    intro room hr
    have hc : ¬ c = 10 := fun e => h (by simp [e])
    have hcs : 10 ∉ cs := fun e => h (by simp [e])
    obtain ⟨k, rfl⟩ : ∃ k, room = k + 1 := ⟨room - 1, by simp at hr; omega⟩
    have hk : cs.length < k := by simp at hr; omega
    simp [fgets_read, hc, ih hcs k hk]

theorem fgets_read_full (line rest : List Nat) (h : 10 ∉ line) :
    fgets_read line.length (line ++ rest) = (line, rest) := by
  induction line with
  | nil => simp [fgets_read]
  | cons c cs ih =>
    have hc : ¬ c = 10 := fun e => h (by simp [e])
    have hcs : 10 ∉ cs := fun e => h (by simp [e])
    simp [fgets_read, hc, ih hcs]

/-- A line shorter than the buffer is read with its newline. -/
theorem fgets_line (line rest : List Nat) (h : 10 ∉ line) (hlen : line.length ≤ 1022) :
    fgets 1024 (line ++ 10 :: rest) = some (line ++ [10], rest) := by
  have e := fgets_read_line line rest h 1023 (by omega)
  cases hl : line ++ 10 :: rest with
  | nil => simp at hl
  | cons x xs =>
    rw [hl] at e
    simp only [fgets, Nat.add_one_sub_one, e, Nat.reduceSub]

/-- A text of 1023 bytes without newline fills the buffer; what follows stays unread. -/
theorem fgets_full (line rest : List Nat) (h : 10 ∉ line) (hlen : line.length = 1023) :
    fgets 1024 (line ++ rest) = some (line, rest) := by
  have e := fgets_read_full line rest h
  rw [hlen] at e
  cases hl : line ++ rest with
  | nil =>
    have := congrArg List.length hl
    rw [List.length_append, hlen] at this
    simp at this
  | cons x xs =>
    rw [hl] at e
    simp only [fgets, Nat.add_one_sub_one, e, Nat.reduceSub]

theorem fgets_length (input buf rest : List Nat) (h : fgets 1024 input = some (buf, rest)) :
    rest.length < input.length := by
  have key : ∀ (l : List Nat) (room : Nat),
      (fgets_read (room + 1) l).2.length < l.length ∨ l = [] := by
    intro l
    induction l with
    | nil => intro _; right; rfl
    | cons c cs ih =>
      intro room
      left
      by_cases hc : c = 10
      · simp [fgets_read, hc]
      · cases room with
        | zero => simp [fgets_read, hc]
        | succ r =>
          rcases ih r with h1 | h1
          · simp only [fgets_read, hc, if_false, List.length_cons]; omega
          · subst h1; simp [fgets_read, hc]
  cases input with
  | nil => simp [fgets] at h
  | cons c cs =>
    simp only [fgets, Option.some.injEq] at h
    have h3 : (fgets_read (1022 + 1) (c :: cs)).2 = rest := by
      have h4 : 1024 - 1 = 1022 + 1 := rfl
      rw [← h4, h]
    rcases key (c :: cs) 1022 with h2 | h2
    · rw [h3] at h2; exact h2
    · simp at h2

theorem cut_line_plain (line : List Nat) (h : plain_line line) : cut_line line = line := by
  have := takeWhile_append_of_all (fun c => c != 0 && c != 13 && c != 10) line []
    (by intro c hc; have := h c hc; simp [this]) (by simp)
  rw [List.append_nil] at this
  exact this

theorem cut_line_newline (line rest : List Nat) (h : plain_line line) :
    cut_line (line ++ 10 :: rest) = line :=
  takeWhile_append_of_all (fun c => c != 0 && c != 13 && c != 10) line (10 :: rest)
    (by intro c hc; have := h c hc; simp [this]) (by simp)

theorem convert_loop_nil (st : State) : convert_loop st [] = some [] := by
  rw [convert_loop]
  simp [fgets]

/-- One turn of the loop. -/
theorem convert_loop_step (st st1 : State) (input buf rest out : List Nat)
    (h1 : fgets 1024 input = some (buf, rest))
    (h2 : process_line st (cut_line buf) = some (st1, out)) :
    convert_loop st input = (convert_loop st1 rest).map (fun outs => out ++ outs) := by
  rw [convert_loop]
  split
  · rename_i h
    rw [h1] at h
    exact absurd h (by simp)
  · rename_i b r h
    rw [h1] at h
    simp only [Option.some.injEq, Prod.mk.injEq] at h
    obtain ⟨hb, hr⟩ := h
    subst hb; subst hr
    simp only [h2]

/-- A turn of the loop in which the loop body has undefined behaviour. -/
theorem convert_loop_undefined (st : State) (input buf rest : List Nat)
    (h1 : fgets 1024 input = some (buf, rest))
    (h2 : process_line st (cut_line buf) = none) :
    convert_loop st input = none := by
  rw [convert_loop]
  split
  · rename_i h
    rw [h1] at h
    exact absurd h (by simp)
  · rename_i b r h
    rw [h1] at h
    simp only [Option.some.injEq, Prod.mk.injEq] at h
    obtain ⟨hb, hr⟩ := h
    subst hb; subst hr
    simp only [h2]

/-! ## A file with one cue -/

theorem fmt_02d_length (n : Nat) (h : n < 100) : (fmt_02d (n : Int)).length = 2 := by
  interval_cases n <;> rfl

theorem digit_run_of_width (w : Nat) (ds : List Nat) (h : digits_of_width (w + 1) ds) :
    digit_run ds :=
  ⟨fun e => by have := h.1; rw [e] at this; simp at this, h.2⟩

theorem not_mem_timing_line (dh dm ds dms eh em es ems : List Nat)
    (hh : digit_run dh) (hm : digit_run dm) (hs : digit_run ds) (hms : digit_run dms)
    (gh : digit_run eh) (gm : digit_run em) (gs : digit_run es) (gms : digit_run ems)
    (x : Nat) (hx : isdigit x = false)
    (hx2 : x ≠ 58 ∧ x ≠ 46 ∧ x ≠ 32 ∧ x ≠ 45 ∧ x ≠ 62) :
    x ∉ timing_line dh dm ds dms eh em es ems := by
  have a1 := digit_run_not_mem dh hh x hx
  have a2 := digit_run_not_mem dm hm x hx
  have a3 := digit_run_not_mem ds hs x hx
  have a4 := digit_run_not_mem dms hms x hx
  have a5 := digit_run_not_mem eh gh x hx
  have a6 := digit_run_not_mem em gm x hx
  have a7 := digit_run_not_mem es gs x hx
  have a8 := digit_run_not_mem ems gms x hx
  obtain ⟨b1, b2, b3, b4, b5⟩ := hx2
  have e : ascii " --> " = [32, 45, 45, 62, 32] := rfl
  simp [timing_line, ascii_colon, ascii_dot, e, a1, a2, a3, a4, a5, a6, a7, a8, b1, b2, b3, b4, b5]

/-- The tag of a start time `h:m:s.ms` that fits `start_time` and `int`. -/
theorem start_time_tag_hms (dh dm ds dms : List Nat)
    (hh : digit_run dh) (hm : digit_run dm) (hs : digit_run ds) (hms : digit_run dms)
    (hlen : (dh ++ 58 :: (dm ++ 58 :: (ds ++ 46 :: dms))).length < 64)
    (hfit : digits_value dh * 3600 + digits_value dm * 60 + digits_value ds ≤ 2147483647)
    (hfit2 : digits_value dms + 5 ≤ 2147483647) :
    start_time_tag (dh ++ 58 :: (dm ++ 58 :: (ds ++ 46 :: dms))) =
      some (some (ascii "[" ++
        fmt_02d (((digits_value dh * 3600 + digits_value dm * 60 + digits_value ds) / 60 : Nat) : Int)
        ++ ascii ":" ++
        fmt_02d (((digits_value dh * 3600 + digits_value dm * 60 + digits_value ds) % 60 : Nat) : Int)
        ++ ascii "." ++
        fmt_02d (((digits_value dms + 5) / 10 : Nat) : Int) ++ ascii "]")) := by
  have hne : (dh ++ 58 :: (dm ++ 58 :: (ds ++ 46 :: dms))).length ≠ 0 := by simp
  have h64 : ¬ 64 ≤ (dh ++ 58 :: (dm ++ 58 :: (ds ++ 46 :: dms))).length := by omega
  have hr : ((digits_value dh : Int) ≤ INT_MAX ∧ (digits_value dm : Int) ≤ INT_MAX ∧
      (digits_value ds : Int) ≤ INT_MAX ∧ (digits_value dms : Int) ≤ INT_MAX) := by
    unfold INT_MAX; omega
  unfold start_time_tag
  simp only [hne, h64, if_false, parse_start_time_hms dh dm ds dms 46 hh hm hs hms (Or.inl rfl),
    hr, and_self, if_true, format_tag_nat _ _ _ _ hfit hfit2]

theorem digits_value_width_two (ds : List Nat) (h : digits_of_width 2 ds) :
    digits_value ds ≤ 99 := by
  obtain ⟨hl, hd⟩ := h
  obtain ⟨a, b, rfl⟩ := List.length_eq_two.mp hl
  have ha := hd a (by simp)
  have hb := hd b (by simp)
  simp only [isdigit, Bool.and_eq_true, decide_eq_true_eq] at ha hb
  simp only [digits_value, List.foldl]
  omega

theorem digits_value_width_three (ds : List Nat) (h : digits_of_width 3 ds) :
    digits_value ds ≤ 999 := by
  obtain ⟨hl, hd⟩ := h
  obtain ⟨a, b, c, rfl⟩ := List.length_eq_three.mp hl
  have ha := hd a (by simp)
  have hb := hd b (by simp)
  have hc := hd c (by simp)
  simp only [isdigit, Bool.and_eq_true, decide_eq_true_eq] at ha hb hc
  simp only [digits_value, List.foldl]
  omega

/-- The loop body on the cue timing line `HH:MM:SS.mmm --> HH:MM:SS.mmm` once the header
    has been seen. -/
theorem process_line_timing_line (found : Bool) (dh dm ds dms eh em es ems : List Nat)
    (hh : digits_of_width 2 dh) (hm : digits_of_width 2 dm) (hs : digits_of_width 2 ds)
    (hms : digits_of_width 3 dms) (gh : digits_of_width 2 eh) (gm : digits_of_width 2 em)
    (gs : digits_of_width 2 es) (gms : digits_of_width 3 ems) :
    process_line ⟨false, found⟩ (timing_line dh dm ds dms eh em es ems) =
      some (⟨false, true⟩, ascii "[" ++
        fmt_02d (((digits_value dh * 3600 + digits_value dm * 60 + digits_value ds) / 60 : Nat) : Int)
        ++ ascii ":" ++
        fmt_02d (((digits_value dh * 3600 + digits_value dm * 60 + digits_value ds) % 60 : Nat) : Int)
        ++ ascii "." ++
        fmt_02d (((digits_value dms + 5) / 10 : Nat) : Int) ++ ascii "]") := by
  have rh := digit_run_of_width 1 dh hh
  have rm := digit_run_of_width 1 dm hm
  have rs := digit_run_of_width 1 ds hs
  have rms := digit_run_of_width 2 dms hms
  have qh := digit_run_of_width 1 eh gh
  have qm := digit_run_of_width 1 em gm
  have qs := digit_run_of_width 1 es gs
  have qms := digit_run_of_width 2 ems gms
  have nm := not_mem_timing_line dh dm ds dms eh em es ems rh rm rs rms qh qm qs qms
  have b1 := digits_value_width_two dh hh
  have b2 := digits_value_width_two dm hm
  have b3 := digits_value_width_two ds hs
  have b4 := digits_value_width_three dms hms
  have e0 : timing_line dh dm ds dms eh em es ems =
      dh ++ 58 :: (dm ++ 58 :: ds ++ [46]) ++ dms ++ [32] ++ ascii "-->" ++
        (32 :: (eh ++ ascii ":" ++ em ++ ascii ":" ++ es ++ ascii "." ++ ems)) := by
    have e : ascii " --> " = [32] ++ ascii "-->" ++ [32] := rfl
    simp [timing_line, ascii_colon, ascii_dot, e]
  have e1 : dh ++ 58 :: (dm ++ 58 :: ds ++ [46]) ++ dms
      = dh ++ 58 :: (dm ++ 58 :: (ds ++ 46 :: dms)) := by simp
  have hmid : 45 ∉ dm ++ 58 :: ds ++ [46] := by
    have a1 := digit_run_not_mem dm rm 45 (by decide)
    have a2 := digit_run_not_mem ds rs 45 (by decide)
    simp [a1, a2]
  have h1 : pre_header_skip ⟨false, found⟩ (timing_line dh dm ds dms eh em es ems) = false := by
    simp [pre_header_skip]
  have hne : (timing_line dh dm ds dms eh em es ems).length ≠ 0 := by
    rw [e0]; simp
  have h2 : metadata_skip (timing_line dh dm ds dms eh em es ems) = false := by
    unfold metadata_skip
    rw [ascii_NOTE, ascii_STYLE, ascii_REGION,
      strstr_of_head_not_mem 78 _ _ (nm 78 (by decide) (by decide)),
      strstr_of_head_not_mem 83 _ _ (nm 83 (by decide) (by decide)),
      strstr_of_head_not_mem 82 _ _ (nm 82 (by decide) (by decide))]
    simp [hne]
  rw [e0] at h1 h2 ⊢
  rw [process_line_timing ⟨false, found⟩ dh _ dms [32] _ rh rms hmid (by decide) h1 h2, e1,
    start_time_tag_hms dh dm ds dms rh rm rs rms
      (by simp only [List.length_append, List.length_cons, hh.1, hm.1, hs.1, hms.1]; omega)
      (by omega) (by omega)]

theorem timing_line_plain (dh dm ds dms eh em es ems : List Nat)
    (hh : digits_of_width 2 dh) (hm : digits_of_width 2 dm) (hs : digits_of_width 2 ds)
    (hms : digits_of_width 3 dms) (gh : digits_of_width 2 eh) (gm : digits_of_width 2 em)
    (gs : digits_of_width 2 es) (gms : digits_of_width 3 ems) :
    plain_line (timing_line dh dm ds dms eh em es ems) ∧
    (timing_line dh dm ds dms eh em es ems).length = 29 := by
  have nm := not_mem_timing_line dh dm ds dms eh em es ems (digit_run_of_width 1 dh hh)
    (digit_run_of_width 1 dm hm) (digit_run_of_width 1 ds hs) (digit_run_of_width 2 dms hms)
    (digit_run_of_width 1 eh gh) (digit_run_of_width 1 em gm) (digit_run_of_width 1 es gs)
    (digit_run_of_width 2 ems gms)
  constructor
  · intro c hc
    refine ⟨?_, ?_, ?_⟩
    · intro e; rw [e] at hc; exact nm 0 (by decide) (by decide) hc
    · intro e; rw [e] at hc; exact nm 13 (by decide) (by decide) hc
    · intro e; rw [e] at hc; exact nm 10 (by decide) (by decide) hc
  · have e : ascii " --> " = [32, 45, 45, 62, 32] := rfl
    simp only [timing_line, ascii_colon, ascii_dot, e, List.length_append, List.length_cons,
      List.length_nil, hh.1, hm.1, hs.1, hms.1, gh.1, gm.1, gs.1, gms.1]

/-- The conversion of a file that starts with the header line, a blank line and one cue
    timing line: the tag is written and the loop goes on with the rest of the file. -/
theorem convert_header_and_cue (dh dm ds dms eh em es ems rest : List Nat)
    (hh : digits_of_width 2 dh) (hm : digits_of_width 2 dm) (hs : digits_of_width 2 ds)
    (hms : digits_of_width 3 dms) (gh : digits_of_width 2 eh) (gm : digits_of_width 2 em)
    (gs : digits_of_width 2 es) (gms : digits_of_width 3 ems) :
    convert_vtt_to_lrc (ascii "WEBVTT\n\n" ++ timing_line dh dm ds dms eh em es ems ++
        ascii "\n" ++ rest) =
      (convert_loop ⟨false, true⟩ rest).map (fun outs =>
        (ascii "[" ++
        fmt_02d (((digits_value dh * 3600 + digits_value dm * 60 + digits_value ds) / 60 : Nat) : Int)
        ++ ascii ":" ++
        fmt_02d (((digits_value dh * 3600 + digits_value dm * 60 + digits_value ds) % 60 : Nat) : Int)
        ++ ascii "." ++
        fmt_02d (((digits_value dms + 5) / 10 : Nat) : Int) ++ ascii "]") ++ outs) := by
  obtain ⟨hp, hl⟩ := timing_line_plain dh dm ds dms eh em es ems hh hm hs hms gh gm gs gms
  have e0 : ascii "WEBVTT\n\n" ++ timing_line dh dm ds dms eh em es ems ++ ascii "\n" ++ rest =
      ascii "WEBVTT" ++ 10 :: ([] ++ 10 :: (timing_line dh dm ds dms eh em es ems ++ 10 :: rest)) := by
    have e : ascii "WEBVTT\n\n" = ascii "WEBVTT" ++ [10, 10] := rfl
    simp [e, ascii_newline]
  unfold convert_vtt_to_lrc
  rw [e0]
  rw [convert_loop_step ⟨true, false⟩ ⟨false, false⟩ _ _ _ []
    (fgets_line (ascii "WEBVTT") _ (by decide) (by decide))
    (by rw [cut_line_newline _ _ (by decide)]; decide)]
  rw [convert_loop_step ⟨false, false⟩ ⟨false, false⟩ _ _ _ []
    (fgets_line [] _ (by decide) (by decide))
    (by rw [cut_line_newline _ _ (by decide)]; decide)]
  rw [convert_loop_step ⟨false, false⟩ ⟨false, true⟩ _ _ _ _
    (fgets_line (timing_line dh dm ds dms eh em es ems) _ (fun h => (hp 10 h).2.2 rfl)
      (by omega))
    (by rw [cut_line_newline _ _ hp]
        exact process_line_timing_line false dh dm ds dms eh em es ems hh hm hs hms gh gm gs gms)]
  cases convert_loop ⟨false, true⟩ rest <;> simp

/-- The loop on a last lyric line without space, followed by a newline. -/
theorem convert_loop_last_lyric (L : List Nat)
    (hne : L ≠ []) (hsp : 32 ∉ L) (hplain : plain_line L) (hlen : L.length ≤ 1023)
    (hN : strstr L (ascii "NOTE") = none) (hS : strstr L (ascii "STYLE") = none)
    (hR : strstr L (ascii "REGION") = none) (hA : strstr L (ascii "-->") = none)
    (hcue : is_cue_number L = false) :
    convert_loop ⟨false, true⟩ (L ++ ascii "\n") = some (L ++ ascii "\n") := by
  have h10 : 10 ∉ L := fun h => (hplain 10 h).2.2 rfl
  have hl : (L.length == 0) = false := by
    cases L with
    | nil => exact absurd rfl hne
    | cons x xs => rfl
  have hp : process_line ⟨false, true⟩ L = some (⟨false, true⟩, L ++ [10]) := by
    rw [process_line_lyric ⟨false, true⟩ L rfl hne (by simp [pre_header_skip])
      (by simp [metadata_skip, hN, hS, hR, hl]) hcue hA, lyric_rule_no_space L hsp]
  rw [ascii_newline]
  by_cases h : L.length ≤ 1022
  · rw [convert_loop_step ⟨false, true⟩ ⟨false, true⟩ _ _ _ _ (fgets_line L [] h10 h)
      (by rw [cut_line_newline L [] hplain]; exact hp), convert_loop_nil]
    simp
  · have h2 : L.length = 1023 := by omega
    rw [convert_loop_step ⟨false, true⟩ ⟨false, true⟩ _ _ _ _ (fgets_full L [10] h10 h2)
      (by rw [cut_line_plain L hplain]; exact hp)]
    rw [convert_loop_step ⟨false, true⟩ ⟨false, true⟩ [10] [10] [] [] (by decide) (by decide),
      convert_loop_nil]
    simp

/-- C1 (amended): for every input made of the header line `WEBVTT`, a blank line, one cue
    timing line `HH:MM:SS.mmm --> HH:MM:SS.mmm` (two-digit fields, three-digit
    milliseconds, total under 100 minutes, milliseconds at most 994) and one lyric line `L`,
    each ended by a newline, where `L` is not empty, has at most 1023 bytes, none of them a
    NUL, `\r`, `\n` or space, contains none of `NOTE`, `STYLE`, `REGION`, `-->`, and is not
    a cue number line (white space followed by digits only), `convert_vtt_to_lrc` writes
    exactly a 10-byte tag `[mm:ss.xx]`, then `L`, then one newline. -/
theorem one_cue_file (dh dm ds dms eh em es ems L : List Nat)
    (hh : digits_of_width 2 dh) (hm : digits_of_width 2 dm) (hs : digits_of_width 2 ds)
    (hms : digits_of_width 3 dms) (gh : digits_of_width 2 eh) (gm : digits_of_width 2 em)
    (gs : digits_of_width 2 es) (gms : digits_of_width 3 ems)
    (htotal : digits_value dh * 3600 + digits_value dm * 60 + digits_value ds < 6000)
    (h994 : digits_value dms ≤ 994)
    (hne : L ≠ []) (hsp : 32 ∉ L) (hplain : plain_line L) (hlen : L.length ≤ 1023)
    (hN : strstr L (ascii "NOTE") = none) (hS : strstr L (ascii "STYLE") = none)
    (hR : strstr L (ascii "REGION") = none) (hA : strstr L (ascii "-->") = none)
    (hcue : is_cue_number L = false) :
    convert_vtt_to_lrc (ascii "WEBVTT\n\n" ++ timing_line dh dm ds dms eh em es ems ++
        ascii "\n" ++ L ++ ascii "\n") =
      some ((ascii "[" ++
        fmt_02d (((digits_value dh * 3600 + digits_value dm * 60 + digits_value ds) / 60 : Nat) : Int)
        ++ ascii ":" ++
        fmt_02d (((digits_value dh * 3600 + digits_value dm * 60 + digits_value ds) % 60 : Nat) : Int)
        ++ ascii "." ++
        fmt_02d (((digits_value dms + 5) / 10 : Nat) : Int) ++ ascii "]") ++ L ++ ascii "\n") ∧
    (ascii "[" ++
        fmt_02d (((digits_value dh * 3600 + digits_value dm * 60 + digits_value ds) / 60 : Nat) : Int)
        ++ ascii ":" ++
        fmt_02d (((digits_value dh * 3600 + digits_value dm * 60 + digits_value ds) % 60 : Nat) : Int)
        ++ ascii "." ++
        fmt_02d (((digits_value dms + 5) / 10 : Nat) : Int) ++ ascii "]").length = 10 := by
  constructor
  · rw [List.append_assoc _ L, convert_header_and_cue dh dm ds dms eh em es ems _ hh hm hs hms
      gh gm gs gms, convert_loop_last_lyric L hne hsp hplain hlen hN hS hR hA hcue]
    simp
  · have l1 := fmt_02d_length
      ((digits_value dh * 3600 + digits_value dm * 60 + digits_value ds) / 60) (by omega)
    have l2 := fmt_02d_length
      ((digits_value dh * 3600 + digits_value dm * 60 + digits_value ds) % 60) (by omega)
    have l3 := fmt_02d_length ((digits_value dms + 5) / 10) (by omega)
    simp only [List.length_append, l1, l2, l3]
    rfl

theorem one_cue_file_witness :
    convert_vtt_to_lrc (ascii "WEBVTT\n\n00:01:02.340 --> 00:01:05.000\nhello\n") =
      some (ascii "[01:02.34]hello\n") :=
  (one_cue_file (ascii "00") (ascii "01") (ascii "02") (ascii "340") (ascii "00") (ascii "01")
    (ascii "05") (ascii "000") (ascii "hello") (by decide) (by decide) (by decide) (by decide)
    (by decide) (by decide) (by decide) (by decide) (by decide) (by decide) (by decide)
    (by decide) (by decide) (by decide) (by decide) (by decide) (by decide) (by decide)
    (by decide)).1

/-- The conversion of a one-cue file whose lyric line is `A` followed by one more `a`,
    where `A` is 1023 bytes `a`: `fgets` fills the buffer with `A`, and the last byte comes
    with the newline in the next turn of the loop. -/
theorem convert_long_lyric (A : List Nat) (hlen : A.length = 1023) (hall : ∀ c ∈ A, c = 97) :
    convert_vtt_to_lrc (ascii "WEBVTT\n\n" ++
        timing_line (ascii "00") (ascii "00") (ascii "01") (ascii "000")
          (ascii "00") (ascii "00") (ascii "02") (ascii "000") ++
        ascii "\n" ++ (A ++ ascii "a") ++ ascii "\n") =
      some (ascii "[00:01.00]" ++ A ++ ascii "\n" ++ ascii "a\n") := by
  have hmem : ∀ x : Nat, x ≠ 97 → x ∉ A := fun x hx h => hx (hall x h)
  have hplain : plain_line A := by
    intro c hc
    rw [hall c hc]
    decide
  obtain ⟨x, t, hxt⟩ : ∃ x t, A = x :: t := by
    cases A with
    | nil => simp at hlen
    | cons x t => exact ⟨x, t, rfl⟩
  have hx : x = 97 := hall x (by rw [hxt]; simp)
  have hcue : is_cue_number A = false := by
    rw [hxt, hx]
    simp [is_cue_number, List.dropWhile, isspace, isdigit]
  have hp : process_line ⟨false, true⟩ A = some (⟨false, true⟩, A ++ [10]) := by
    rw [process_line_lyric ⟨false, true⟩ _ rfl (by rw [hxt]; simp) (by simp [pre_header_skip])
      (by
        unfold metadata_skip
        rw [ascii_NOTE, ascii_STYLE, ascii_REGION,
          strstr_of_head_not_mem 78 _ _ (hmem 78 (by decide)),
          strstr_of_head_not_mem 83 _ _ (hmem 83 (by decide)),
          strstr_of_head_not_mem 82 _ _ (hmem 82 (by decide))]
        rw [hxt]; simp)
      hcue
      (by rw [ascii_arrow]; exact strstr_of_head_not_mem 45 _ _ (hmem 45 (by decide))),
      lyric_rule_no_space _ (hmem 32 (by decide))]
  have e1 : (A ++ ascii "a") ++ ascii "\n" = A ++ [97, 10] := by
    have u : ascii "a" = [97] := rfl
    rw [ascii_newline, u]; simp
  have t : ascii "[" ++
      fmt_02d (((digits_value (ascii "00") * 3600 + digits_value (ascii "00") * 60 +
        digits_value (ascii "01")) / 60 : Nat) : Int) ++ ascii ":" ++
      fmt_02d (((digits_value (ascii "00") * 3600 + digits_value (ascii "00") * 60 +
        digits_value (ascii "01")) % 60 : Nat) : Int) ++ ascii "." ++
      fmt_02d (((digits_value (ascii "000") + 5) / 10 : Nat) : Int) ++ ascii "]" =
      ascii "[00:01.00]" := by decide
  rw [List.append_assoc _ (A ++ ascii "a"),
    convert_header_and_cue _ _ _ _ _ _ _ _ _ (by decide) (by decide) (by decide) (by decide)
      (by decide) (by decide) (by decide) (by decide), e1,
    convert_loop_step ⟨false, true⟩ ⟨false, true⟩ _ _ _ _
      (fgets_full A [97, 10] (hmem 10 (by decide)) hlen)
      (by rw [cut_line_plain _ hplain]; exact hp),
    convert_loop_step ⟨false, true⟩ ⟨false, true⟩ [97, 10] [97, 10] [] [97, 10] (by decide)
      (by decide),
    convert_loop_nil, t]
  have u : ascii "a\n" = [97, 10] := rfl
  simp [ascii_newline, u]

/-- C1 as stated fails.  A lyric line of 1024 bytes `a` is not empty, has no space and matches
    no skip rule, but `fgets` hands it over in two pieces (1023 bytes, then the last byte with
    the newline) and each piece is written as a line of its own.  The lyric line made of a tab
    and the digit `5` has no space, no skip word and is not all digits, but the cue number
    skip takes it, so that only the tag is written. -/
theorem one_cue_file_counterexample :
    (convert_vtt_to_lrc (ascii "WEBVTT\n\n" ++
        timing_line (ascii "00") (ascii "00") (ascii "01") (ascii "000")
          (ascii "00") (ascii "00") (ascii "02") (ascii "000") ++
        ascii "\n" ++ (List.replicate 1023 97 ++ ascii "a") ++ ascii "\n") =
      some (ascii "[00:01.00]" ++ List.replicate 1023 97 ++ ascii "\n" ++ ascii "a\n") ∧
     convert_vtt_to_lrc (ascii "WEBVTT\n\n" ++
        timing_line (ascii "00") (ascii "00") (ascii "01") (ascii "000")
          (ascii "00") (ascii "00") (ascii "02") (ascii "000") ++
        ascii "\n" ++ (List.replicate 1023 97 ++ ascii "a") ++ ascii "\n") ≠
      some (ascii "[00:01.00]" ++ (List.replicate 1023 97 ++ ascii "a") ++ ascii "\n")) ∧
    (convert_vtt_to_lrc (ascii "WEBVTT\n\n" ++
        timing_line (ascii "00") (ascii "00") (ascii "01") (ascii "000")
          (ascii "00") (ascii "00") (ascii "02") (ascii "000") ++
        ascii "\n" ++ ascii "\t5" ++ ascii "\n") = some (ascii "[00:01.00]") ∧
     convert_vtt_to_lrc (ascii "WEBVTT\n\n" ++
        timing_line (ascii "00") (ascii "00") (ascii "01") (ascii "000")
          (ascii "00") (ascii "00") (ascii "02") (ascii "000") ++
        ascii "\n" ++ ascii "\t5" ++ ascii "\n") ≠
      some (ascii "[00:01.00]" ++ ascii "\t5" ++ ascii "\n")) := by
  have ha := convert_long_lyric (List.replicate 1023 97) (List.length_replicate 1023 97)
    (fun c hc => List.eq_of_mem_replicate hc)
  have hb : convert_vtt_to_lrc (ascii "WEBVTT\n\n" ++
        timing_line (ascii "00") (ascii "00") (ascii "01") (ascii "000")
          (ascii "00") (ascii "00") (ascii "02") (ascii "000") ++
        ascii "\n" ++ ascii "\t5" ++ ascii "\n") = some (ascii "[00:01.00]") := by
    rw [List.append_assoc _ (ascii "\t5"),
      convert_header_and_cue _ _ _ _ _ _ _ _ _ (by decide) (by decide) (by decide) (by decide)
        (by decide) (by decide) (by decide) (by decide),
      convert_loop_step ⟨false, true⟩ ⟨false, true⟩ (ascii "\t5" ++ ascii "\n")
        (ascii "\t5\n") [] [] (by decide) (by decide),
      convert_loop_nil]
    decide
  have l1 : (ascii "[00:01.00]").length = 10 := rfl
  have l2 : (ascii "\n").length = 1 := rfl
  have l3 : (ascii "a\n").length = 2 := rfl
  have l4 : (ascii "a").length = 1 := rfl
  refine ⟨⟨ha, ?_⟩, ⟨hb, ?_⟩⟩
  · rw [ha]
    intro h
    have := congrArg List.length (Option.some.inj h)
    simp only [List.length_append, List.length_replicate, l1, l2, l3, l4] at this
    omega
  · rw [hb]
    decide

/-! ## Files without a parsed timestamp -/

theorem source_lines_nil : source_lines [] = [] := by
  rw [source_lines]
  simp [fgets]

theorem source_lines_step (input buf rest : List Nat)
    (h1 : fgets 1024 input = some (buf, rest)) :
    source_lines input = cut_line buf :: source_lines rest := by
  rw [source_lines]
  split
  · rename_i h
    rw [h1] at h
    exact absurd h (by simp)
  · rename_i b r h
    rw [h1] at h
    simp only [Option.some.injEq, Prod.mk.injEq] at h
    obtain ⟨hb, hr⟩ := h
    subst hb; subst hr
    rfl

/-- Before the first parsed timestamp, a line on which the timestamp rule parses nothing
    (if it applies at all) is dropped, and no timestamp has been found after it. -/
theorem process_line_before_timestamp (st : State) (line : List Nat)
    (hf : st.found_first_timestamp = false)
    (hts : ∀ p, strstr line (ascii "-->") = some p → timestamp_rule line p = some none) :
    ∃ st1, process_line st line = some (st1, []) ∧ st1.found_first_timestamp = false := by
  unfold process_line
  by_cases h1 : pre_header_skip st line = true
  · simp only [h1, if_true]
    exact ⟨_, rfl, hf⟩
  · simp only [h1, Bool.false_eq_true, if_false]
    by_cases h2 : metadata_skip line = true
    · simp only [h2, if_true]
      exact ⟨_, rfl, hf⟩
    · simp only [h2, Bool.false_eq_true, if_false]
      by_cases h3 : is_cue_number line = true
      · simp only [h3, if_true]
        exact ⟨_, rfl, hf⟩
      · simp only [h3, Bool.false_eq_true, if_false]
        unfold timestamp_or_lyric
        cases hs : strstr line (ascii "-->") with
        | none =>
          simp only [hf, Bool.false_and, Bool.false_eq_true, if_false]
          exact ⟨_, rfl, hf⟩
        | some p =>
          simp only [hts p hs]
          exact ⟨_, rfl, hf⟩

/-- As long as no line of the rest of the file has a start time parsed, the loop writes
    nothing. -/
theorem convert_loop_no_timestamp (input : List Nat) :
    ∀ st : State, st.found_first_timestamp = false →
      (∀ line ∈ source_lines input, ∀ p, strstr line (ascii "-->") = some p →
        timestamp_rule line p = some none) →
      convert_loop st input = some [] := by
  suffices H : ∀ (n : Nat) (input : List Nat), input.length = n →
      ∀ st : State, st.found_first_timestamp = false →
        (∀ line ∈ source_lines input, ∀ p, strstr line (ascii "-->") = some p →
          timestamp_rule line p = some none) →
        convert_loop st input = some [] from H input.length input rfl
  intro n
  induction n using Nat.strong_induction_on with
  | _ n ih =>
    intro input hn st hf hlines
    cases hg : fgets 1024 input with
    | none =>
      cases input with
      | nil => exact convert_loop_nil st
      | cons c cs => simp [fgets] at hg
    | some br =>
      obtain ⟨buf, rest⟩ := br
      rw [source_lines_step input buf rest hg] at hlines
      obtain ⟨st1, hp, hf1⟩ := process_line_before_timestamp st (cut_line buf) hf
        (hlines (cut_line buf) (by simp))
      have hlt := fgets_length input buf rest hg
      rw [convert_loop_step st st1 input buf rest [] hg hp,
        ih rest.length (by omega) rest rfl st1 hf1
          (fun line hl => hlines line (by simp [hl]))]
      rfl

/-- Nothing is written before the first parsed timestamp, within the bounds of the buffers:
    for every input in which every line that contains `-->` is rejected by the timestamp
    rule without overrunning `start_time[64]` or an `int` (no start time is parsed), in
    particular for every input without any `-->`, `convert_vtt_to_lrc` writes nothing. -/
theorem convert_no_timestamp (input : List Nat)
    (h : ∀ line ∈ source_lines input, ∀ p, strstr line (ascii "-->") = some p →
      timestamp_rule line p = some none) :
    convert_vtt_to_lrc input = some [] :=
  convert_loop_no_timestamp input ⟨true, false⟩ rfl h

theorem convert_no_timestamp_witness :
    convert_vtt_to_lrc (ascii "hello\n-->\nTrack 7\n") = some [] :=
  convert_no_timestamp (ascii "hello\n-->\nTrack 7\n") (by
    have e : source_lines (ascii "hello\n-->\nTrack 7\n") =
        [ascii "hello", ascii "-->", ascii "Track 7"] := by
      rw [source_lines_step _ (ascii "hello\n") (ascii "-->\nTrack 7\n") (by decide),
        source_lines_step _ (ascii "-->\n") (ascii "Track 7\n") (by decide),
        source_lines_step _ (ascii "Track 7\n") [] (by decide), source_lines_nil]
      decide
    rw [e]
    decide)

/-! ## The batch driver and the normalizer -/

/-- C20: `remove_audio_extension` is not injective on the names that `main` selects:
    `song.mp3.vtt`, `song.vtt` and `song.wav.vtt` are three different selected names, all
    three get the base `song`, and so all three conversions go to the same destination
    `song.lrc`. -/
theorem remove_audio_extension_not_injective :
    main_selects (ascii "song.mp3.vtt") = true ∧ main_selects (ascii "song.vtt") = true ∧
    main_selects (ascii "song.wav.vtt") = true ∧
    ascii "song.mp3.vtt" ≠ ascii "song.vtt" ∧ ascii "song.mp3.vtt" ≠ ascii "song.wav.vtt" ∧
    remove_audio_extension (ascii "song.mp3.vtt") = some (ascii "song") ∧
    remove_audio_extension (ascii "song.vtt") = some (ascii "song") ∧
    remove_audio_extension (ascii "song.wav.vtt") = some (ascii "song") ∧
    lrc_filename (ascii "song.mp3.vtt") = some (ascii "song.lrc") ∧
    lrc_filename (ascii "song.vtt") = some (ascii "song.lrc") ∧
    lrc_filename (ascii "song.wav.vtt") = some (ascii "song.lrc") ∧
    ¬ Function.Injective (fun d_name : { n : List Nat // main_selects n = true } =>
      remove_audio_extension d_name.val) := by
  refine ⟨by decide, by decide, by decide, by decide, by decide, by decide, by decide,
    by decide, by decide, by decide, by decide, ?_⟩
  intro hinj
  have h := @hinj ⟨ascii "song.mp3.vtt", by decide⟩ ⟨ascii "song.vtt", by decide⟩ (by decide)
  have h2 := congrArg Subtype.val h
  exact absurd h2 (by decide)

/-- C12, the code at a failing input: `main` selects `song.Vtt` (the text from its last dot
    equals `.vtt` ignoring case), but `remove_audio_extension` looks for `.vtt` and `.VTT`
    only, finds no marker, and returns the name unchanged, not a proper prefix of it; the
    destination becomes `song.Vtt.lrc`. -/
theorem remove_audio_extension_mixed_case :
    main_selects (ascii "song.Vtt") = true ∧
    strstr (ascii "song.Vtt") (ascii ".vtt") = none ∧
    strstr (ascii "song.Vtt") (ascii ".VTT") = none ∧
    remove_audio_extension (ascii "song.Vtt") = some (ascii "song.Vtt") ∧
    lrc_filename (ascii "song.Vtt") = some (ascii "song.Vtt.lrc") := by
  decide

/-! ## The loop as a run over the lines of the file -/

/-- The conversion loop writes what the loop body writes on the lines of the file. -/
theorem convert_loop_eq_run_lines (input : List Nat) :
    ∀ st : State, convert_loop st input =
      (run_lines st (source_lines input)).map (fun r => r.2) := by
  suffices H : ∀ (n : Nat) (input : List Nat), input.length = n →
      ∀ st : State, convert_loop st input =
        (run_lines st (source_lines input)).map (fun r => r.2) from H input.length input rfl
  intro n
  induction n using Nat.strong_induction_on with
  | _ n ih =>
    intro input hn st
    cases hg : fgets 1024 input with
    | none =>
      cases input with
      | nil => rw [convert_loop_nil, source_lines_nil]; rfl
      | cons c cs => simp [fgets] at hg
    | some br =>
      obtain ⟨buf, rest⟩ := br
      have hlt := fgets_length input buf rest hg
      rw [source_lines_step input buf rest hg]
      cases hp : process_line st (cut_line buf) with
      | none =>
        rw [convert_loop_undefined st input buf rest hg hp]
        simp [run_lines, hp]
      | some r =>
        obtain ⟨st1, out⟩ := r
        rw [convert_loop_step st st1 input buf rest out hg hp,
          ih rest.length (by omega) rest rfl st1]
        simp only [run_lines, hp]
        cases run_lines st1 (source_lines rest) <;> rfl

theorem run_lines_append (l1 l2 : List (List Nat)) :
    ∀ st : State, run_lines st (l1 ++ l2) =
      match run_lines st l1 with
      | none => none
      | some (st1, out1) => (run_lines st1 l2).map (fun r => (r.1, out1 ++ r.2)) := by
  induction l1 with
  | nil =>
    intro st
    simp only [List.nil_append, run_lines]
    cases run_lines st l2 <;> simp
  | cons line rest ih =>
    intro st
    have e1 : run_lines st (line :: rest ++ l2) =
        (match process_line st line with
          | none => none
          | some (st1, out) =>
            (run_lines st1 (rest ++ l2)).map (fun r => (r.1, out ++ r.2))) := rfl
    have e2 : run_lines st (line :: rest) =
        (match process_line st line with
          | none => none
          | some (st1, out) => (run_lines st1 rest).map (fun r => (r.1, out ++ r.2))) := rfl
    rw [e1, e2]
    cases hp : process_line st line with
    | none => rfl
    | some r =>
      obtain ⟨st1, out⟩ := r
      simp only []
      rw [ih st1]
      cases h1 : run_lines st1 rest with
      | none => rfl
      | some r1 =>
        obtain ⟨st2, out1⟩ := r1
        simp only [Option.map_some']
        cases run_lines st2 l2 <;> simp

/-! ## The skip rules and the header flag -/

/-- C16: for every state and every line that contains `NOTE`, `STYLE` or `REGION`, or is
    empty, the loop body writes nothing and leaves `found_first_timestamp` as it is, whatever
    else the line holds (a cue timing, a lyric such as `NOTEBOOK`); of the flags only
    `is_first_webvtt_line` can change, when the line also contains `WEBVTT`. -/
theorem metadata_line_skipped (st : State) (line : List Nat)
    (h : (strstr line (ascii "NOTE")).isSome = true ∨ (strstr line (ascii "STYLE")).isSome = true ∨
      (strstr line (ascii "REGION")).isSome = true ∨ line = []) :
    process_line st line =
      some (⟨st.is_first_webvtt_line && !(strstr line (ascii "WEBVTT")).isSome,
        st.found_first_timestamp⟩, []) := by
  have hm : metadata_skip line = true := by
    unfold metadata_skip
    rcases h with h | h | h | h
    · simp [h]
    · simp [h]
    · simp [h]
    · simp [h]
  unfold process_line
  by_cases h1 : pre_header_skip st line = true
  · have hf : st.is_first_webvtt_line = true := by
      unfold pre_header_skip at h1
      simp only [Bool.and_eq_true] at h1
      exact h1.1
    simp only [h1, if_true, hf, Bool.true_and]
    cases (strstr line (ascii "WEBVTT")).isSome <;> rfl
  · simp only [h1, Bool.false_eq_true, if_false, hm, if_true]
    have e : (st.is_first_webvtt_line && !(strstr line (ascii "WEBVTT")).isSome) =
        st.is_first_webvtt_line := by
      unfold pre_header_skip at h1
      cases hf : st.is_first_webvtt_line with
      | false => rfl
      | true =>
        cases hw : (strstr line (ascii "WEBVTT")).isSome with
        | false => rfl
        | true => simp [hf, hw] at h1
    rw [e]

theorem metadata_line_skipped_witness :
    process_line ⟨false, true⟩ (ascii "NOTEBOOK") = some (⟨false, true⟩, []) ∧
    process_line ⟨false, false⟩ (ascii "00:00:01.000 --> 00:00:02.000 STYLE") =
      some (⟨false, false⟩, []) ∧
    process_line ⟨true, true⟩ [] = some (⟨true, true⟩, []) :=
  ⟨metadata_line_skipped ⟨false, true⟩ (ascii "NOTEBOOK") (Or.inl (by decide)),
   metadata_line_skipped ⟨false, false⟩ (ascii "00:00:01.000 --> 00:00:02.000 STYLE")
     (Or.inr (Or.inl (by decide))),
   metadata_line_skipped ⟨true, true⟩ [] (Or.inr (Or.inr (Or.inr rfl)))⟩

/-- The flag `is_first_webvtt_line` after the loop body: it is cleared by a line that
    contains `WEBVTT`, and otherwise left as it is. -/
theorem process_line_is_first (st st1 : State) (line out : List Nat)
    (h : process_line st line = some (st1, out)) :
    st1.is_first_webvtt_line =
      (st.is_first_webvtt_line && !(strstr line (ascii "WEBVTT")).isSome) := by
  unfold process_line at h
  by_cases h1 : pre_header_skip st line = true
  · have hf : st.is_first_webvtt_line = true := by
      unfold pre_header_skip at h1
      simp only [Bool.and_eq_true] at h1
      exact h1.1
    simp only [h1, if_true, Option.some.injEq, Prod.mk.injEq] at h
    rw [← h.1, hf]
    cases (strstr line (ascii "WEBVTT")).isSome <;> rfl
  · have e : (st.is_first_webvtt_line && !(strstr line (ascii "WEBVTT")).isSome) =
        st.is_first_webvtt_line := by
      unfold pre_header_skip at h1
      cases hf : st.is_first_webvtt_line with
      | false => rfl
      | true =>
        cases hw : (strstr line (ascii "WEBVTT")).isSome with
        | false => rfl
        | true => simp [hf, hw] at h1
    rw [e]
    simp only [h1, Bool.false_eq_true, if_false] at h
    by_cases h2 : metadata_skip line = true
    · simp only [h2, if_true, Option.some.injEq, Prod.mk.injEq] at h
      rw [← h.1]
    · simp only [h2, Bool.false_eq_true, if_false] at h
      by_cases h3 : is_cue_number line = true
      · simp only [h3, if_true, Option.some.injEq, Prod.mk.injEq] at h
        rw [← h.1]
      · simp only [h3, Bool.false_eq_true, if_false] at h
        unfold timestamp_or_lyric at h
        cases hs : strstr line (ascii "-->") with
        | none =>
          simp only [hs] at h
          split at h
          · simp only [Option.some.injEq, Prod.mk.injEq] at h
            rw [← h.1]
          · simp only [Option.some.injEq, Prod.mk.injEq] at h
            rw [← h.1]
        | some p =>
          simp only [hs] at h
          rcases ht : timestamp_rule line p with _ | _ | tag
          · simp [ht] at h
          · simp only [ht, Option.some.injEq, Prod.mk.injEq] at h
            rw [← h.1]
          · simp only [ht, Option.some.injEq, Prod.mk.injEq] at h
            rw [← h.1]

/-- Over the lines of a file the flag `is_first_webvtt_line`, once cleared, stays cleared. -/
theorem run_lines_is_first (lines : List (List Nat)) :
    ∀ (st st1 : State) (out : List Nat), st.is_first_webvtt_line = false →
      run_lines st lines = some (st1, out) → st1.is_first_webvtt_line = false := by
  induction lines with
  | nil =>
    intro st st1 out hf h
    simp only [run_lines, Option.some.injEq, Prod.mk.injEq] at h
    rw [← h.1]; exact hf
  | cons line rest ih =>
    intro st st1 out hf h
    simp only [run_lines] at h
    cases hp : process_line st line with
    | none => simp [hp] at h
    | some r =>
      obtain ⟨st2, out2⟩ := r
      have h2 := process_line_is_first st st2 line out2 hp
      rw [hf, Bool.false_and] at h2
      simp only [hp] at h
      cases hr : run_lines st2 rest with
      | none => simp [hr] at h
      | some r2 =>
        obtain ⟨st3, out3⟩ := r2
        simp only [hr, Option.map_some', Option.some.injEq, Prod.mk.injEq] at h
        rw [← h.1]
        exact ih st2 st3 out3 h2 hr

/-- C17: once a line that contains `WEBVTT` has been processed (or the flag is cleared
    already), `is_first_webvtt_line` is cleared, and it stays cleared over all the further
    lines of the file; in every state reached, the pre-header test fails on every line, so
    that a line is handled by the metadata skip, the cue number skip, the timestamp rule and
    the lyric rule alone, whether it contains `WEBVTT` or not. -/
theorem header_seen_stays (st st1 : State) (line out : List Nat)
    (h : st.is_first_webvtt_line = false ∨ (strstr line (ascii "WEBVTT")).isSome = true)
    (hp : process_line st line = some (st1, out)) :
    st1.is_first_webvtt_line = false ∧
    ∀ (lines : List (List Nat)) (st2 : State) (out2 : List Nat),
      run_lines st1 lines = some (st2, out2) →
        st2.is_first_webvtt_line = false ∧
        ∀ l : List Nat, pre_header_skip st2 l = false ∧
          process_line st2 l =
            if metadata_skip l then some (st2, [])
            else if is_cue_number l then some (st2, [])
            else timestamp_or_lyric st2 l := by
  have h1 : st1.is_first_webvtt_line = false := by
    rw [process_line_is_first st st1 line out hp]
    rcases h with h | h
    · rw [h]; rfl
    · rw [h]; simp
  refine ⟨h1, ?_⟩
  intro lines st2 out2 hr
  have h2 := run_lines_is_first lines st1 st2 out2 h1 hr
  refine ⟨h2, ?_⟩
  intro l
  have h3 : pre_header_skip st2 l = false := by
    unfold pre_header_skip
    rw [h2]; rfl
  refine ⟨h3, ?_⟩
  unfold process_line
  simp only [h3, Bool.false_eq_true, if_false]

theorem header_seen_stays_witness :
    pre_header_skip ⟨false, true⟩ (ascii "WEBVTT rocks") = false ∧
    process_line ⟨false, true⟩ (ascii "WEBVTT rocks") =
      some (⟨false, true⟩, ascii "WEBVTT rocks\n") ∧
    convert_vtt_to_lrc (ascii "WEBVTT\n\n00:00:01.000 --> 00:00:02.000\nWEBVTT rocks\n") =
      some (ascii "[00:01.00]WEBVTT rocks\n") :=
  ⟨(((header_seen_stays ⟨true, false⟩ ⟨false, false⟩ (ascii "WEBVTT") [] (Or.inr (by decide))
      (by decide)).2 [[], ascii "00:00:01.000 --> 00:00:02.000"] ⟨false, true⟩
      (ascii "[00:01.00]") (by decide)).2 (ascii "WEBVTT rocks")).1,
   by decide,
   by
    have e : ascii "WEBVTT\n\n00:00:01.000 --> 00:00:02.000\nWEBVTT rocks\n" =
        ascii "WEBVTT\n\n" ++ timing_line (ascii "00") (ascii "00") (ascii "01") (ascii "000")
          (ascii "00") (ascii "00") (ascii "02") (ascii "000") ++ ascii "\n" ++
          ascii "WEBVTT rocks\n" := by decide
    rw [e, convert_header_and_cue _ _ _ _ _ _ _ _ _ (by decide) (by decide) (by decide)
        (by decide) (by decide) (by decide) (by decide) (by decide),
      convert_loop_step ⟨false, true⟩ ⟨false, true⟩ (ascii "WEBVTT rocks\n")
        (ascii "WEBVTT rocks\n") [] (ascii "WEBVTT rocks\n") (by decide) (by decide),
      convert_loop_nil]
    decide⟩

/-! ## The lyric rule writes no empty text -/

theorem exists_last_occurrence (c : Nat) (l : List Nat) (h : c ∈ l) :
    ∃ a b, l = a ++ c :: b ∧ c ∉ b := by
  induction l using List.reverseRecOn with
  | nil => simp at h
  | append_singleton xs x ih =>
    by_cases hx : x = c
    · exact ⟨xs, [], by simp [hx], by simp⟩
    · have hm : c ∈ xs := by
        rcases List.mem_append.mp h with h1 | h1
        · exact h1
        · simp at h1; exact absurd h1.symm hx
      obtain ⟨a, b, hab, hb⟩ := ih hm
      refine ⟨a, b ++ [x], by simp [hab], ?_⟩
      simp [hb, Ne.symm hx]

/-- The text that the lyric rule writes before the newline is a non-empty beginning of the
    line, for every non-empty line that the cue number skip does not take. -/
theorem lyric_rule_nonempty (line : List Nat) (hne : line ≠ [])
    (hcue : is_cue_number line = false) :
    ∃ s, s ≠ [] ∧ s <+: line ∧ lyric_rule line = s ++ [10] := by
  by_cases hs : 32 ∈ line
  · obtain ⟨before, after, hl, ha⟩ := exists_last_occurrence 32 line hs
    rw [hl, lyric_rule_last_space before after ha]
    by_cases hd : digit_run after
    · simp only [hd, if_true]
      refine ⟨before, ?_, List.prefix_append _ _, rfl⟩
      intro hb
      rw [hb, List.nil_append] at hl
      have := is_cue_number_space_digits [32] after (by decide) hd
      rw [hl] at hcue
      rw [List.singleton_append, hcue] at this
      exact Bool.noConfusion this
    · simp only [hd, if_false]
      exact ⟨before ++ 32 :: after, by simp, List.prefix_refl _, rfl⟩
  · rw [lyric_rule_no_space line hs]
    exact ⟨line, hne, List.prefix_refl _, rfl⟩

/-- C19: for every state and every line without `-->` (the lines that the lyric rule can be
    applied to), the loop body either writes nothing or writes a non-empty beginning of the
    line followed by one newline: the lyric rule never writes an empty text, for a line
    that the removal of the digits after its last space would leave empty is a space
    followed by digits only, which the cue number skip takes. -/
theorem lyric_never_empty (st : State) (line : List Nat)
    (h : strstr line (ascii "-->") = none) :
    ∃ st1 out, process_line st line = some (st1, out) ∧
      (out = [] ∨ ∃ s, s ≠ [] ∧ s <+: line ∧ out = s ++ ascii "\n") := by
  unfold process_line
  by_cases h1 : pre_header_skip st line = true
  · simp only [h1, if_true]
    exact ⟨_, _, rfl, Or.inl rfl⟩
  · simp only [h1, Bool.false_eq_true, if_false]
    by_cases h2 : metadata_skip line = true
    · simp only [h2, if_true]
      exact ⟨_, _, rfl, Or.inl rfl⟩
    · simp only [h2, Bool.false_eq_true, if_false]
      by_cases h3 : is_cue_number line = true
      · simp only [h3, if_true]
        exact ⟨_, _, rfl, Or.inl rfl⟩
      · simp only [h3, Bool.false_eq_true, if_false]
        unfold timestamp_or_lyric
        simp only [h]
        by_cases h4 : (st.found_first_timestamp && decide (0 < line.length)) = true
        · simp only [h4, if_true]
          have hne : line ≠ [] := by
            simp only [Bool.and_eq_true, decide_eq_true_eq] at h4
            exact List.length_pos.mp h4.2
          obtain ⟨s, hs1, hs2, hs3⟩ := lyric_rule_nonempty line hne (by simpa using h3)
          exact ⟨_, _, rfl, Or.inr ⟨s, hs1, hs2, by rw [hs3]; rfl⟩⟩
        · simp only [h4, Bool.false_eq_true, if_false]
          exact ⟨_, _, rfl, Or.inl rfl⟩

theorem lyric_never_empty_witness :
    (∃ st1 out, process_line ⟨false, true⟩ (ascii "a 7") = some (st1, out) ∧
      (out = [] ∨ ∃ s, s ≠ [] ∧ s <+: ascii "a 7" ∧ out = s ++ ascii "\n")) ∧
    process_line ⟨false, true⟩ (ascii "a 7") = some (⟨false, true⟩, ascii "a\n") ∧
    process_line ⟨false, true⟩ (ascii " 7") = some (⟨false, true⟩, []) :=
  ⟨lyric_never_empty ⟨false, true⟩ (ascii "a 7") (by decide), by decide, by decide⟩

/-! ## The tag of a well-formed start time -/

/-- The tag that the timestamp rule writes for a well-formed start time. -/
theorem start_time_tag_well_formed (hour : Option (List Nat)) (dm ds dms : List Nat) (sep : Nat)
    (h : well_formed_start_time hour dm ds dms sep) :
    start_time_tag (start_field hour dm ds dms sep) =
      some (some (ascii "[" ++ fmt_02d ((total_of hour dm ds / 60 : Nat) : Int) ++ ascii ":" ++
        fmt_02d ((total_of hour dm ds % 60 : Nat) : Int) ++ ascii "." ++
        fmt_02d (((digits_value dms + 5) / 10 : Nat) : Int) ++ ascii "]")) := by
  obtain ⟨hh, hm, hs, hms, hsep, hlen, hfit, hfit2⟩ := h
  have hne : (start_field hour dm ds dms sep).length ≠ 0 := by
    obtain ⟨c, cs, hc⟩ := List.exists_cons_of_ne_nil hms.1
    simp [start_field, hc]
  have h64 : ¬ 64 ≤ (start_field hour dm ds dms sep).length := by omega
  unfold start_time_tag
  simp only [hne, h64, if_false]
  cases hour with
  | some dh =>
    have hd : digit_run dh := hh dh rfl
    have e : start_field (some dh) dm ds dms sep = dh ++ 58 :: (dm ++ 58 :: (ds ++ sep :: dms)) := by
      simp [start_field, ascii_colon]
    simp only [total_of, hour_value] at hfit ⊢
    have hr : ((digits_value dh : Int) ≤ INT_MAX ∧ (digits_value dm : Int) ≤ INT_MAX ∧
        (digits_value ds : Int) ≤ INT_MAX ∧ (digits_value dms : Int) ≤ INT_MAX) := by
      unfold INT_MAX; omega
    rw [e]
    simp only [parse_start_time_hms dh dm ds dms sep hd hm hs hms hsep, hr, and_self, if_true,
      format_tag_nat _ _ _ _ hfit hfit2]
  | none =>
    have e : start_field none dm ds dms sep = dm ++ 58 :: (ds ++ sep :: dms) := by
      simp [start_field, ascii_colon]
    simp only [total_of, hour_value, Nat.zero_mul, Nat.zero_add] at hfit ⊢
    have hr : ((digits_value dm : Int) ≤ INT_MAX ∧
        (digits_value ds : Int) ≤ INT_MAX ∧ (digits_value dms : Int) ≤ INT_MAX) := by
      unfold INT_MAX; omega
    have hfit0 : 0 * 3600 + digits_value dm * 60 + digits_value ds ≤ 2147483647 := by omega
    have ft := format_tag_nat 0 (digits_value dm) (digits_value ds) (digits_value dms) hfit0 hfit2
    simp only [Nat.zero_mul, Nat.zero_add] at ft
    rw [e]
    simp only [parse_start_time_ms dm ds dms sep hm hs hms hsep, hr, and_self, if_true]
    have e0 : ((0 : Nat) : Int) = 0 := rfl
    rw [e0] at ft
    simp only [ft]

/-- C13: for every well-formed start time (with or without hour field, with `.` or `,`)
    whose millisecond field has a value from 995 to 999, the centiseconds `(ms + 5) / 10`
    are 100, they are printed as the three digits `100`, and nothing is carried into the
    seconds: the minutes and seconds of the tag are those of `h * 3600 + m * 60 + s`. -/
theorem centiseconds_not_carried (hour : Option (List Nat)) (dm ds dms : List Nat) (sep : Nat)
    (h : well_formed_start_time hour dm ds dms sep)
    (hms : 995 ≤ digits_value dms ∧ digits_value dms ≤ 999) :
    (digits_value dms + 5) / 10 = 100 ∧
    fmt_02d (((digits_value dms + 5) / 10 : Nat) : Int) = ascii "100" ∧
    start_time_tag (start_field hour dm ds dms sep) =
      some (some (ascii "[" ++ fmt_02d ((total_of hour dm ds / 60 : Nat) : Int) ++ ascii ":" ++
        fmt_02d ((total_of hour dm ds % 60 : Nat) : Int) ++ ascii "." ++ ascii "100" ++
        ascii "]")) := by
  have e : (digits_value dms + 5) / 10 = 100 := by omega
  have e2 : fmt_02d (((digits_value dms + 5) / 10 : Nat) : Int) = ascii "100" := by
    rw [e]; decide
  refine ⟨e, e2, ?_⟩
  rw [start_time_tag_well_formed hour dm ds dms sep h, e2]

theorem centiseconds_not_carried_witness :
    start_time_tag (ascii "00:00:01.999") = some (some (ascii "[00:01.100]")) ∧
    start_time_tag (ascii "00:59,995") = some (some (ascii "[00:59.100]")) ∧
    process_line ⟨false, false⟩ (ascii "00:00:01.999 --> 00:00:03.000") =
      some (⟨false, true⟩, ascii "[00:01.100]") :=
  ⟨(centiseconds_not_carried (some (ascii "00")) (ascii "00") (ascii "01") (ascii "999") 46
      (by decide) (by decide)).2.2,
   (centiseconds_not_carried none (ascii "00") (ascii "59") (ascii "995") 44
      (by decide) (by decide)).2.2,
   by decide⟩

/-! ## What follows the arrow -/

theorem strstr_some_le (needle : List Nat) :
    ∀ (hay : List Nat) (i : Nat), strstr hay needle = some i → i + needle.length ≤ hay.length := by
  intro hay
  induction hay with
  | nil =>
    intro i h
    simp only [strstr] at h
    by_cases hn : needle = []
    · simp only [hn, if_true, Option.some.injEq] at h
      rw [← h, hn]; simp
    · simp [hn] at h
  | cons c cs ih =>
    intro i h
    rw [strstr_cons] at h
    by_cases hp : needle.isPrefixOf (c :: cs) = true
    · simp only [hp, if_true, Option.some.injEq] at h
      rw [← h, Nat.zero_add]
      exact (List.isPrefixOf_iff_prefix.mp hp).length_le
    · simp only [hp, Bool.false_eq_true, if_false] at h
      cases hs : strstr cs needle with
      | none => simp [hs] at h
      | some j =>
        simp only [hs, Option.map_some', Option.some.injEq] at h
        have := ih j hs
        simp only [List.length_cons]
        omega

theorem isPrefixOf_append_of_length_le (needle a b : List Nat) (h : needle.length ≤ a.length) :
    needle.isPrefixOf (a ++ b) = needle.isPrefixOf a := by
  induction needle generalizing a with
  | nil => cases a <;> simp [List.isPrefixOf]
  | cons n ns ih =>
    cases a with
    | nil => simp at h
    | cons x xs =>
      have e := ih xs (by simpa using h)
      simp only [List.cons_append, List.isPrefixOf]
      show (n == x && ns.isPrefixOf (xs ++ b)) = _
      rw [e]

/-- The first occurrence in a text stays the first occurrence when the text is extended. -/
theorem strstr_append_of_some (needle b : List Nat) :
    ∀ (a : List Nat) (i : Nat), strstr a needle = some i → strstr (a ++ b) needle = some i := by
  intro a
  induction a with
  | nil =>
    intro i h
    simp only [strstr] at h
    by_cases hn : needle = []
    · simp only [hn, if_true, Option.some.injEq] at h
      rw [← h, hn, List.nil_append]
      cases b <;> simp [strstr, List.isPrefixOf]
    · simp [hn] at h
  | cons c cs ih =>
    intro i h
    have hle := strstr_some_le needle (c :: cs) i h
    rw [strstr_cons] at h
    rw [List.cons_append, strstr_cons, ← List.cons_append,
      isPrefixOf_append_of_length_le needle (c :: cs) b (by omega)]
    by_cases hp : needle.isPrefixOf (c :: cs) = true
    · simp only [hp, if_true] at h ⊢
      exact h
    · simp only [hp, Bool.false_eq_true, if_false] at h ⊢
      cases hs : strstr cs needle with
      | none => simp [hs] at h
      | some j =>
        simp only [hs, Option.map_some', Option.some.injEq] at h
        rw [ih j hs]
        simp [h]

theorem takeWhile_append_cons_of_false (p : Nat → Bool) (a : List Nat) (z : Nat) (x : List Nat)
    (hz : p z = false) : (a ++ z :: x).takeWhile p = a.takeWhile p := by
  induction a with
  | nil => simp [List.takeWhile, hz]
  | cons c cs ih =>
    rw [List.cons_append, List.takeWhile_cons, List.takeWhile_cons, ih]

/-- The skip of a leading cue number is decided before the first `-`. -/
theorem skip_cue_number_before_dash (a x : List Nat) :
    skip_cue_number (a ++ 45 :: x) = skip_cue_number (a ++ [45]) := by
  cases a with
  | nil => simp [skip_cue_number, isdigit]
  | cons c cs =>
    have key : ∀ y : List Nat, skip_cue_number (c :: cs ++ 45 :: y) =
        if isdigit c then
          match (c :: cs).drop ((c :: cs).takeWhile isdigit).length with
          | [] => 0
          | z :: rest =>
            if z = 32 ∨ z = 9 then
              ((c :: cs).takeWhile isdigit).length + 1 + (rest.takeWhile isspace).length
            else 0
        else 0 := by
      intro y
      have e1 : ((c :: cs) ++ 45 :: y).takeWhile isdigit = (c :: cs).takeWhile isdigit :=
        takeWhile_append_cons_of_false isdigit (c :: cs) 45 y (by decide)
      have hk : ((c :: cs).takeWhile isdigit).length ≤ (c :: cs).length :=
        (List.takeWhile_prefix isdigit).length_le
      have e2 : ((c :: cs) ++ 45 :: y).drop ((c :: cs).takeWhile isdigit).length =
          (c :: cs).drop ((c :: cs).takeWhile isdigit).length ++ 45 :: y :=
        List.drop_append_of_le_length hk
      show skip_cue_number ((c :: cs) ++ 45 :: y) = _
      by_cases hc : isdigit c = true
      · simp only [skip_cue_number, List.cons_append, hc, if_true]
        rw [← List.cons_append, e1, e2]
        cases hd : (c :: cs).drop ((c :: cs).takeWhile isdigit).length with
        | nil => simp
        | cons z rest =>
          simp only [List.cons_append]
          by_cases hz : z = 32 ∨ z = 9
          · simp only [hz, if_true]
            rw [takeWhile_append_cons_of_false isspace rest 45 y (by decide)]
          · simp only [hz, if_false]
      · simp [skip_cue_number, hc]
    rw [key x, key []]

theorem mem_dropWhile_of_false (p : Nat → Bool) (z : Nat) (hz : p z = false) :
    ∀ l : List Nat, z ∈ l → z ∈ l.dropWhile p := by
  intro l
  induction l with
  | nil => intro h; exact h
  | cons c cs ih =>
    intro h
    rw [List.dropWhile_cons]
    by_cases hc : p c = true
    · simp only [hc, if_true]
      rcases List.mem_cons.mp h with h1 | h1
      · rw [← h1, hz] at hc; exact Bool.noConfusion hc
      · exact ih h1
    · simp only [hc, Bool.false_eq_true, if_false]
      exact h

/-- A line with a byte that is neither white space nor a digit is not a cue number line. -/
theorem is_cue_number_of_mem (line : List Nat) (z : Nat) (hz : z ∈ line)
    (h1 : isspace z = false) (h2 : isdigit z = false) : is_cue_number line = false := by
  have hm := mem_dropWhile_of_false isspace z h1 line hz
  unfold is_cue_number
  simp only [Bool.and_eq_false_iff, Bool.not_eq_false', List.isEmpty_iff]
  right
  rw [Bool.eq_false_iff]
  intro hall
  rw [List.all_eq_true] at hall
  rw [hall z hm] at h2
  exact Bool.noConfusion h2

/-- The end of the loop body does not look beyond the first arrow. -/
theorem timestamp_or_lyric_up_to_arrow (st : State) (pre r1 r2 : List Nat)
    (hfirst : strstr (pre ++ ascii "-->") (ascii "-->") = some pre.length) :
    timestamp_or_lyric st (pre ++ ascii "-->" ++ r1) =
      timestamp_or_lyric st (pre ++ ascii "-->" ++ r2) := by
  have hs : ∀ r, strstr (pre ++ ascii "-->" ++ r) (ascii "-->") = some pre.length :=
    fun r => strstr_append_of_some _ r _ _ hfirst
  have hk : ∀ r, skip_cue_number (pre ++ ascii "-->" ++ r) = skip_cue_number (pre ++ [45]) := by
    intro r
    have e : pre ++ ascii "-->" ++ r = pre ++ 45 :: ([45, 62] ++ r) := by simp [ascii_arrow]
    rw [e, skip_cue_number_before_dash]
  have ht : ∀ r, timestamp_rule (pre ++ ascii "-->" ++ r) pre.length =
      if pre.length ≤ skip_cue_number (pre ++ [45]) then some none
      else start_time_tag ((pre.drop (skip_cue_number (pre ++ [45]))).rdropWhile
        (fun c => isspace c)) := by
    intro r
    unfold timestamp_rule
    simp only [hk r]
    have e : ((pre ++ ascii "-->" ++ r).drop (skip_cue_number (pre ++ [45]))).take
        (pre.length - skip_cue_number (pre ++ [45])) =
        pre.drop (skip_cue_number (pre ++ [45])) := by
      rw [← List.drop_take, List.append_assoc, List.take_left]
    rw [e]
  unfold timestamp_or_lyric
  simp only [hs r1, hs r2, ht r1, ht r2]

theorem strstr_self (n : List Nat) : strstr n n = some 0 := by
  cases n with
  | nil => simp [strstr]
  | cons c cs =>
    rw [strstr_cons]
    simp [List.isPrefixOf_iff_prefix]

/-- The first occurrence is still the first one in the text cut right after it. -/
theorem strstr_take (needle : List Nat) :
    ∀ (hay : List Nat) (i : Nat), strstr hay needle = some i →
      strstr (hay.take (i + needle.length)) needle = some i ∧
      hay = hay.take i ++ needle ++ hay.drop (i + needle.length) := by
  intro hay
  induction hay with
  | nil =>
    intro i h
    simp only [strstr] at h
    by_cases hn : needle = []
    · simp only [hn, if_true, Option.some.injEq] at h
      rw [← h, hn]; simp [strstr]
    · simp [hn] at h
  | cons c cs ih =>
    intro i h
    rw [strstr_cons] at h
    by_cases hp : needle.isPrefixOf (c :: cs) = true
    · simp only [hp, if_true, Option.some.injEq] at h
      obtain ⟨t, ht⟩ := List.isPrefixOf_iff_prefix.mp hp
      rw [← h, Nat.zero_add, ← ht]
      simp [strstr_self]
    · simp only [hp, Bool.false_eq_true, if_false] at h
      cases hs : strstr cs needle with
      | none => simp [hs] at h
      | some j =>
        simp only [hs, Option.map_some', Option.some.injEq] at h
        obtain ⟨ih1, ih2⟩ := ih j hs
        have e : (c :: cs).take (i + needle.length) = c :: cs.take (j + needle.length) := by
          rw [← h, show j + 1 + needle.length = (j + needle.length) + 1 by omega, List.take_succ_cons]
        have hnp : needle.isPrefixOf (c :: cs.take (j + needle.length)) = false := by
          rw [Bool.eq_false_iff]
          intro hq
          apply hp
          rw [List.isPrefixOf_iff_prefix] at hq ⊢
          exact hq.trans ((List.prefix_cons_inj c).mpr (List.take_prefix _ cs))
        constructor
        · rw [e, strstr_cons, hnp, ih1]
          simp [h]
        · rw [← h, show j + 1 + needle.length = (j + needle.length) + 1 by omega,
            List.take_succ_cons, List.drop_succ_cons, List.cons_append, List.cons_append, ← ih2]

/-- C15 as stated fails: the two lines `00:00:01.000 --> 00:00:02.000` and
    `00:00:01.000 --> NOTE` are identical up to and including their first `-->`, yet after
    the header the first one writes the tag `[00:01.00]` and sets the timestamp flag while
    the second one is skipped by the metadata rule, which searches the whole line. -/
theorem end_time_not_read_counterexample :
    strstr (ascii "00:00:01.000 --> 00:00:02.000") (ascii "-->") = some 13 ∧
    strstr (ascii "00:00:01.000 --> NOTE") (ascii "-->") = some 13 ∧
    (ascii "00:00:01.000 --> 00:00:02.000").take 16 = (ascii "00:00:01.000 --> NOTE").take 16 ∧
    process_line ⟨false, false⟩ (ascii "00:00:01.000 --> 00:00:02.000") =
      some (⟨false, true⟩, ascii "[00:01.00]") ∧
    process_line ⟨false, false⟩ (ascii "00:00:01.000 --> NOTE") = some (⟨false, false⟩, []) ∧
    process_line ⟨false, false⟩ (ascii "00:00:01.000 --> 00:00:02.000") ≠
      process_line ⟨false, false⟩ (ascii "00:00:01.000 --> NOTE") := by
  refine ⟨by decide, by decide, by decide, by decide, by decide, by decide⟩

/-- C15 (amended): for every parser state and every two lines that both contain `-->`,
    are identical up to and including the first `-->` (at index `p` in both) and agree on
    whether a skip keyword occurs in them (`WEBVTT` while the header has not been seen;
    `NOTE`, `STYLE` or `REGION` in any state), processing either line gives the same
    result: the same output and the same resulting state, or undefined behaviour for
    both, whatever text follows the `-->`. -/
theorem end_time_not_read (st : State) (l1 l2 : List Nat) (p : Nat)
    (h1 : strstr l1 (ascii "-->") = some p) (h2 : strstr l2 (ascii "-->") = some p)
    (heq : l1.take (p + 3) = l2.take (p + 3))
    (hW : st.is_first_webvtt_line = true →
      (strstr l1 (ascii "WEBVTT")).isSome = (strstr l2 (ascii "WEBVTT")).isSome)
    (hM : metadata_skip l1 = metadata_skip l2) :
    process_line st l1 = process_line st l2 := by
  have hl : (ascii "-->").length = 3 := rfl
  obtain ⟨a1, b1⟩ := strstr_take (ascii "-->") l1 p h1
  obtain ⟨a2, b2⟩ := strstr_take (ascii "-->") l2 p h2
  rw [hl] at a1 b1 a2 b2
  have hle : p + 3 ≤ l1.length := by
    have := strstr_some_le (ascii "-->") l1 p h1
    rwa [hl] at this
  have hpre : l2.take p = l1.take p := by
    have := congrArg (List.take p) heq
    rw [List.take_take, List.take_take, Nat.min_eq_left (by omega)] at this
    exact this.symm
  rw [hpre] at b2
  have hplen : (l1.take p).length = p := by
    rw [List.length_take]; omega
  have hfirst : strstr (l1.take p ++ ascii "-->") (ascii "-->") = some (l1.take p).length := by
    have e : l1.take (p + 3) = l1.take p ++ ascii "-->" := by
      conv_lhs => rw [b1]
      rw [List.append_assoc, List.take_append_eq_append_take, List.take_of_length_le (by omega),
        hplen, List.take_append_eq_append_take]
      simp [hl]
    rw [← e, hplen]
    exact a1
  have hT := timestamp_or_lyric_up_to_arrow st (l1.take p) (l1.drop (p + 3)) (l2.drop (p + 3)) hfirst
  rw [← b1, ← b2] at hT
  have hm1 : (45 : Nat) ∈ l1 := by
    rw [b1]; simp [ascii_arrow]
  have hm2 : (45 : Nat) ∈ l2 := by
    rw [b2]; simp [ascii_arrow]
  have hc1 := is_cue_number_of_mem l1 45 hm1 (by decide) (by decide)
  have hc2 := is_cue_number_of_mem l2 45 hm2 (by decide) (by decide)
  have hhead : l1.head? = l2.head? := by
    have := congrArg List.head? heq
    rwa [List.head?_take, List.head?_take, if_neg (by omega), if_neg (by omega)] at this
  have hlen2 : p + 3 ≤ l2.length := by
    have := strstr_some_le (ascii "-->") l2 p h2
    rwa [hl] at this
  have hP : pre_header_skip st l1 = pre_header_skip st l2 := by
    unfold pre_header_skip
    cases hf : st.is_first_webvtt_line with
    | false => rfl
    | true => rw [hW hf, hhead, show (l1.length == 0) = (l2.length == 0) by
        rw [beq_eq_false_iff_ne.mpr (by omega), beq_eq_false_iff_ne.mpr (by omega)]]
  unfold process_line
  rw [← hP, ← hM, hc1, hc2, hT]
  by_cases hs : pre_header_skip st l1 = true
  · have hf : st.is_first_webvtt_line = true := by
      unfold pre_header_skip at hs
      simp only [Bool.and_eq_true] at hs
      exact hs.1
    simp only [hs, if_true, hW hf]
  · simp only [hs, Bool.false_eq_true, if_false]

theorem end_time_not_read_witness :
    process_line ⟨true, false⟩ (ascii "7 00:01:02.345 --> 00:00:09.000 align:start") =
      process_line ⟨true, false⟩ (ascii "7 00:01:02.345 -->") :=
  end_time_not_read ⟨true, false⟩ (ascii "7 00:01:02.345 --> 00:00:09.000 align:start")
    (ascii "7 00:01:02.345 -->") 15 (by decide) (by decide) (by decide)
    (fun _ => by decide) (by decide)

/-! ## The bytes of a tag -/

theorem isdigit_digitChar (d : Nat) (h : d < 10) : isdigit (Nat.digitChar d).toNat = true := by
  interval_cases d <;> decide

theorem isdigit_toDigitsCore (fuel : Nat) :
    ∀ (n : Nat) (ds : List Char), (∀ c ∈ ds, isdigit c.toNat = true) →
      ∀ c ∈ Nat.toDigitsCore 10 fuel n ds, isdigit c.toNat = true := by
  induction fuel with
  | zero =>
    intro n ds h c hc
    exact h c hc
  | succ fuel ih =>
    intro n ds h c hc
    have hd := isdigit_digitChar (n % 10) (Nat.mod_lt _ (by decide))
    have hds : ∀ c ∈ Nat.digitChar (n % 10) :: ds, isdigit c.toNat = true := by
      intro c hc
      rcases List.mem_cons.mp hc with h1 | h1
      · rw [h1]; exact hd
      · exact h c h1
    simp only [Nat.toDigitsCore] at hc
    by_cases h0 : n / 10 = 0
    · simp only [h0, if_true] at hc
      exact hds c hc
    · simp only [h0, if_false] at hc
      exact ih _ _ hds c hc

theorem isdigit_decimal (n : Nat) : ∀ c ∈ decimal n, isdigit c = true := by
  intro c hc
  unfold decimal at hc
  obtain ⟨ch, h1, h2⟩ := List.mem_map.mp hc
  rw [← h2]
  exact isdigit_toDigitsCore _ n [] (by simp) ch h1

/-- The conversion `%02d` prints digits and, for a negative value, a sign. -/
theorem fmt_02d_bytes (v : Int) : ∀ c ∈ fmt_02d v, c = 45 ∨ isdigit c = true := by
  intro c hc
  unfold fmt_02d at hc
  split at hc
  · rcases List.mem_cons.mp hc with h | h
    · exact Or.inl h
    · exact Or.inr (isdigit_decimal _ c h)
  · split at hc
    · rcases List.mem_cons.mp hc with h | h
      · right; rw [h]; decide
      · exact Or.inr (isdigit_decimal _ c h)
    · exact Or.inr (isdigit_decimal _ c hc)

theorem format_tag_is_tag (f : Fields) (tag : List Nat) (h : format_tag f = some tag) :
    is_tag tag := by
  unfold format_tag at h
  cases h1 : int_result (f.hour * 3600) with
  | none => simp [h1] at h
  | some a =>
    cases h2 : int_result (f.minute * 60) with
    | none => simp [h1, h2] at h
    | some b =>
      cases h3 : int_result (a + b) with
      | none => simp [h1, h2, h3] at h
      | some ab =>
        cases h4 : int_result (ab + f.second) with
        | none => simp [h1, h2, h3, h4] at h
        | some total =>
          cases h5 : int_result (f.millisecond + 5) with
          | none => simp [h1, h2, h3, h4, h5] at h
          | some ms5 =>
            simp only [h1, h2, h3, h4, h5, Option.bind_some, Option.some_bind,
              Option.some.injEq] at h
            exact ⟨_, _, _, h.symm⟩

theorem start_time_tag_is_tag (s tag : List Nat) (h : start_time_tag s = some (some tag)) :
    is_tag tag := by
  unfold start_time_tag at h
  split at h
  · simp at h
  · split at h
    · simp at h
    · split at h
      · simp at h
      · simp at h
      · rename_i f hf
        split at h
        · simp at h
        · rename_i t ht
          simp only [Option.some.injEq] at h
          rw [← h]
          exact format_tag_is_tag f t ht

theorem timestamp_rule_is_tag (line : List Nat) (p : Nat) (tag : List Nat)
    (h : timestamp_rule line p = some (some tag)) : is_tag tag := by
  unfold timestamp_rule at h
  simp only at h
  split at h
  · simp at h
  · exact start_time_tag_is_tag _ tag h

/-- A tag is a `[`, then digits, signs, `:` and `.`, then a `]`: no newline, and not empty. -/
theorem is_tag_bytes (t : List Nat) (h : is_tag t) :
    10 ∉ t ∧ t.head? = some 91 ∧ t ≠ [] := by
  obtain ⟨a, b, c, e⟩ := h
  have k : ∀ v : Int, 10 ∉ fmt_02d v := by
    intro v hv
    rcases fmt_02d_bytes v 10 hv with h1 | h1
    · exact absurd h1 (by decide)
    · exact absurd h1 (by decide)
  have e1 : ascii "[" = [91] := rfl
  have e2 : ascii "]" = [93] := rfl
  refine ⟨?_, ?_, ?_⟩
  · rw [e]
    simp [e1, e2, ascii_colon, ascii_dot, k a, k b, k c]
  · rw [e]; simp [e1]
  · rw [e]; simp [e1]

/-- A line that the timestamp rule parses writes its tag and sets the timestamp flag. -/
theorem process_line_parses_as (st : State) (line tag : List Nat) (h : parses_as st line tag) :
    process_line st line = some (⟨st.is_first_webvtt_line, true⟩, tag) ∧ is_tag tag := by
  obtain ⟨h1, h2, h3⟩ := h
  cases hs : strstr line (ascii "-->") with
  | none => simp [hs] at h3
  | some p =>
    simp only [hs] at h3
    have hle := strstr_some_le _ _ _ hs
    have hm : (45 : Nat) ∈ line := by
      rw [(strstr_take _ _ _ hs).2]; simp [ascii_arrow]
    have hc := is_cue_number_of_mem line 45 hm (by decide) (by decide)
    refine ⟨?_, timestamp_rule_is_tag line p tag h3⟩
    unfold process_line timestamp_or_lyric
    simp only [h1, h2, hc, hs, h3, Bool.false_eq_true, if_false]

/-! ## The lines of a file -/

theorem cut_line_is_plain (buf : List Nat) : plain_line (cut_line buf) := by
  intro c hc
  have := List.mem_takeWhile_imp hc
  simp only [Bool.and_eq_true, bne_iff_ne, ne_eq] at this
  exact ⟨this.1.1, this.1.2, this.2⟩

/-- Every line that the loop body sees is free of NUL, `\r` and `\n`. -/
theorem source_lines_plain (input : List Nat) : ∀ l ∈ source_lines input, plain_line l := by
  suffices H : ∀ (n : Nat) (input : List Nat), input.length = n →
      ∀ l ∈ source_lines input, plain_line l from H input.length input rfl
  intro n
  induction n using Nat.strong_induction_on with
  | _ n ih =>
    intro input hn l hl
    cases hg : fgets 1024 input with
    | none =>
      cases input with
      | nil => rw [source_lines_nil] at hl; simp at hl
      | cons c cs => simp [fgets] at hg
    | some br =>
      obtain ⟨buf, rest⟩ := br
      have hlt := fgets_length input buf rest hg
      rw [source_lines_step input buf rest hg] at hl
      rcases List.mem_cons.mp hl with h1 | h1
      · rw [h1]; exact cut_line_is_plain buf
      · exact ih rest.length (by omega) rest rfl l h1

theorem source_lines_line (line rest : List Nat) (h : plain_line line)
    (hlen : line.length ≤ 1022) :
    source_lines (line ++ 10 :: rest) = line :: source_lines rest := by
  have h10 : 10 ∉ line := fun hm => (h 10 hm).2.2 rfl
  rw [source_lines_step _ _ _ (fgets_line line rest h10 hlen)]
  have e : line ++ [10] = line ++ 10 :: [] := rfl
  rw [e, cut_line_newline line [] h]

theorem fgets_read_eof (line : List Nat) (h : 10 ∉ line) :
    ∀ room : Nat, line.length ≤ room → fgets_read room line = (line, []) := by
  induction line with
  | nil =>
    intro room _
    cases room <;> rfl
  | cons c cs ih =>
    intro room hr
    have hc : ¬ c = 10 := fun e => h (by simp [e])
    have hcs : 10 ∉ cs := fun e => h (by simp [e])
    obtain ⟨k, rfl⟩ : ∃ k, room = k + 1 := ⟨room - 1, by simp at hr; omega⟩
    simp only [fgets_read, hc, if_false]
    rw [ih hcs k (by simpa using hr)]

/-- A last line without a newline is read as it stands. -/
theorem source_lines_eof (line : List Nat) (h : plain_line line) (hne : line ≠ [])
    (hlen : line.length ≤ 1023) : source_lines line = [line] := by
  have h10 : 10 ∉ line := fun hm => (h 10 hm).2.2 rfl
  have hg : fgets 1024 line = some (line, []) := by
    cases hl : line with
    | nil => exact absurd hl hne
    | cons x xs =>
      rw [← hl]
      have e := fgets_read_eof line h10 1023 hlen
      rw [hl] at e ⊢
      simp only [fgets, Nat.add_one_sub_one, e]
  rw [source_lines_step _ _ _ hg, source_lines_nil, cut_line_plain line h]

/-! ## Tags that share a line -/

/-- C14: the timestamp rule never writes a newline.  When the lines of a file are
    some lines `lines` followed by two lines `T1`, `T2` that the timestamp rule parses and
    a line `L` that reaches the lyric rule, the output is the output for `lines`, then
    `tag1`, `tag2`, the text `s` that the lyric rule keeps of `L` and one newline, with no
    newline inside `tag1 ++ tag2 ++ s`; and when the lines of a file end with `T1`, the
    output ends with `tag1`, which holds no newline. -/
theorem timing_lines_share_line (st st1 : State) (lines : List (List Nat))
    (out1 T1 T2 L tag1 tag2 : List Nat)
    (hpre : run_lines st lines = some (st1, out1))
    (h1 : parses_as st1 T1 tag1)
    (h2 : parses_as ⟨st1.is_first_webvtt_line, true⟩ T2 tag2)
    (hL : reaches_lyric_rule ⟨st1.is_first_webvtt_line, true⟩ L) :
    (∀ line p tag, timestamp_rule line p = some (some tag) → 10 ∉ tag) ∧
    (∀ input, source_lines input = lines ++ [T1, T2, L] →
      ∃ s, lyric_rule L = s ++ ascii "\n" ∧ 10 ∉ tag1 ++ tag2 ++ s ∧
        convert_loop st input = some (out1 ++ (tag1 ++ tag2 ++ s ++ ascii "\n"))) ∧
    (∀ input, source_lines input = lines ++ [T1] →
      convert_loop st input = some (out1 ++ tag1) ∧ tag1 ≠ [] ∧ 10 ∉ tag1) := by
  obtain ⟨p1, t1⟩ := process_line_parses_as st1 T1 tag1 h1
  obtain ⟨p2, t2⟩ := process_line_parses_as _ T2 tag2 h2
  obtain ⟨l1, l2, l3, l4, l5, l6⟩ := hL
  have p3 := process_line_lyric _ L l1 l2 l3 l4 l5 l6
  obtain ⟨s, _, hs, hlyr⟩ := lyric_rule_nonempty L l2 l5
  refine ⟨fun line p tag h => (is_tag_bytes tag (timestamp_rule_is_tag line p tag h)).1, ?_, ?_⟩
  · intro input hsrc
    have hplain : plain_line L := source_lines_plain input L (by rw [hsrc]; simp)
    have h10 : 10 ∉ s := fun hm => (hplain 10 (hs.subset hm)).2.2 rfl
    refine ⟨s, hlyr, ?_, ?_⟩
    · simp [(is_tag_bytes tag1 t1).1, (is_tag_bytes tag2 t2).1, h10]
    · rw [convert_loop_eq_run_lines, hsrc, run_lines_append, hpre]
      simp only [run_lines, p1, p2, p3, hlyr, Option.map_some', List.append_nil]
      simp [ascii_newline]
  · intro input hsrc
    refine ⟨?_, (is_tag_bytes tag1 t1).2.2, (is_tag_bytes tag1 t1).1⟩
    rw [convert_loop_eq_run_lines, hsrc, run_lines_append, hpre]
    simp only [run_lines, p1, Option.map_some', List.append_nil]

theorem timing_lines_share_line_witness :
    convert_vtt_to_lrc (ascii
      "WEBVTT\n\n00:00:01.000 --> 00:00:02.000\n00:00:03.000 --> 00:00:04.000\nhello world 12\n") =
      some (ascii "[00:01.00][00:03.00]hello world\n") ∧
    convert_vtt_to_lrc (ascii "WEBVTT\n\n00:00:01.000 --> 00:00:02.000") =
      some (ascii "[00:01.00]") ∧
    convert_vtt_to_lrc (ascii "WEBVTT\n\n00:00:01.000 --> 00:00:02.000\n") =
      some (ascii "[00:01.00]") := by
  have H := timing_lines_share_line ⟨true, false⟩ ⟨false, false⟩ [ascii "WEBVTT", []] []
    (ascii "00:00:01.000 --> 00:00:02.000") (ascii "00:00:03.000 --> 00:00:04.000")
    (ascii "hello world 12") (ascii "[00:01.00]") (ascii "[00:03.00]") (by decide)
    ⟨by decide, by decide, (by decide : timestamp_rule (ascii "00:00:01.000 --> 00:00:02.000") 13
      = some (some (ascii "[00:01.00]")))⟩
    ⟨by decide, by decide, (by decide : timestamp_rule (ascii "00:00:03.000 --> 00:00:04.000") 13
      = some (some (ascii "[00:03.00]")))⟩
    (by decide)
  refine ⟨?_, ?_, ?_⟩
  · obtain ⟨s, hs, _, hc⟩ := H.2.1 (ascii
      "WEBVTT\n\n00:00:01.000 --> 00:00:02.000\n00:00:03.000 --> 00:00:04.000\nhello world 12\n")
      (by
        have e : ascii
            "WEBVTT\n\n00:00:01.000 --> 00:00:02.000\n00:00:03.000 --> 00:00:04.000\nhello world 12\n"
            = ascii "WEBVTT" ++ 10 :: ([] ++ 10 :: (ascii "00:00:01.000 --> 00:00:02.000" ++ 10 ::
              (ascii "00:00:03.000 --> 00:00:04.000" ++ 10 :: (ascii "hello world 12" ++ 10 :: []))))
            := by decide
        rw [e, source_lines_line _ _ (by decide) (by decide),
          source_lines_line _ _ (by decide) (by decide),
          source_lines_line _ _ (by decide) (by decide),
          source_lines_line _ _ (by decide) (by decide),
          source_lines_line _ _ (by decide) (by decide), source_lines_nil]
        rfl)
    have e2 : lyric_rule (ascii "hello world 12") = ascii "hello world" ++ ascii "\n" := by decide
    rw [e2] at hs
    have e3 : s = ascii "hello world" := (List.append_cancel_right hs).symm
    rw [e3] at hc
    exact hc
  · exact (H.2.2 (ascii "WEBVTT\n\n00:00:01.000 --> 00:00:02.000")
      (by
        have e : ascii "WEBVTT\n\n00:00:01.000 --> 00:00:02.000"
            = ascii "WEBVTT" ++ 10 :: ([] ++ 10 :: ascii "00:00:01.000 --> 00:00:02.000")
            := by decide
        rw [e, source_lines_line _ _ (by decide) (by decide),
          source_lines_line _ _ (by decide) (by decide),
          source_lines_eof _ (by decide) (by decide) (by decide)]
        rfl)).1
  · exact (H.2.2 (ascii "WEBVTT\n\n00:00:01.000 --> 00:00:02.000\n")
      (by
        have e : ascii "WEBVTT\n\n00:00:01.000 --> 00:00:02.000\n"
            = ascii "WEBVTT" ++ 10 :: ([] ++ 10 :: (ascii "00:00:01.000 --> 00:00:02.000" ++ 10 :: []))
            := by decide
        rw [e, source_lines_line _ _ (by decide) (by decide),
          source_lines_line _ _ (by decide) (by decide),
          source_lines_line _ _ (by decide) (by decide), source_lines_nil]
        rfl)).1

/-! ## A file without the header line -/

/-- The end of the loop body does not look at the header flag. -/
theorem timestamp_or_lyric_header_flag (b f : Bool) (line : List Nat) :
    timestamp_or_lyric ⟨b, f⟩ line =
      (timestamp_or_lyric ⟨false, f⟩ line).map
        (fun r => (⟨b, r.1.found_first_timestamp⟩, r.2)) := by
  unfold timestamp_or_lyric
  cases strstr line (ascii "-->") with
  | none =>
    simp only
    split <;> rfl
  | some p =>
    simp only
    cases timestamp_rule line p with
    | none => rfl
    | some r =>
      cases r <;> rfl

/-- A line without `WEBVTT` that does not start with `\r` is processed before the header
    as after it, but for the header flag, which it leaves as it is. -/
theorem process_line_header_flag (f : Bool) (line : List Nat)
    (hW : strstr line (ascii "WEBVTT") = none) (h13 : line.head? ≠ some 13) :
    process_line ⟨true, f⟩ line =
      (process_line ⟨false, f⟩ line).map
        (fun r => (⟨true, r.1.found_first_timestamp⟩, r.2)) := by
  cases line with
  | nil => rfl
  | cons c cs =>
    have hc : c ≠ 13 := fun e => h13 (by simp [e])
    have h1 : pre_header_skip ⟨true, f⟩ (c :: cs) = false := by
      simp [pre_header_skip, hW, hc]
    have h2 : pre_header_skip ⟨false, f⟩ (c :: cs) = false := rfl
    unfold process_line
    simp only [h1, h2, Bool.false_eq_true, if_false]
    split
    · rfl
    · split
      · rfl
      · exact timestamp_or_lyric_header_flag true f (c :: cs)

theorem run_lines_header_flag (lines : List (List Nat)) :
    ∀ f : Bool, (∀ line ∈ lines, strstr line (ascii "WEBVTT") = none ∧ plain_line line) →
      run_lines ⟨true, f⟩ lines =
        (run_lines ⟨false, f⟩ lines).map
          (fun r => (⟨true, r.1.found_first_timestamp⟩, r.2)) := by
  induction lines with
  | nil => intro f _; rfl
  | cons line rest ih =>
    intro f h
    obtain ⟨hW, hp⟩ := h line (by simp)
    have h13 : line.head? ≠ some 13 := by
      intro e
      exact (hp 13 (List.mem_of_mem_head? e)).2.1 rfl
    have e1 : ∀ st : State, run_lines st (line :: rest) =
        match process_line st line with
        | none => none
        | some (st1, out) => (run_lines st1 rest).map (fun r => (r.1, out ++ r.2)) :=
      fun _ => rfl
    rw [e1, e1, process_line_header_flag f line hW h13]
    cases hq : process_line ⟨false, f⟩ line with
    | none => rfl
    | some r =>
      obtain ⟨st1, out⟩ := r
      have hf := process_line_is_first _ _ _ _ hq
      simp only [Bool.false_and] at hf
      obtain ⟨b, g⟩ := st1
      simp only at hf
      subst hf
      simp only [Option.map_some']
      rw [ih g (fun l hl => h l (List.mem_cons_of_mem _ hl))]
      cases run_lines ⟨false, g⟩ rest <;> rfl

/-- C18: the header is optional.  For every input in which no line that the loop
    body sees contains `WEBVTT`, the converter gives the same result (the same output, or
    undefined behaviour both times) on the input and on the input with a `WEBVTT` line
    prepended. -/
theorem header_optional (input : List Nat)
    (h : ∀ line ∈ source_lines input, strstr line (ascii "WEBVTT") = none) :
    convert_vtt_to_lrc (ascii "WEBVTT\n" ++ input) = convert_vtt_to_lrc input := by
  have e0 : ascii "WEBVTT\n" ++ input = ascii "WEBVTT" ++ 10 :: input := rfl
  unfold convert_vtt_to_lrc
  rw [e0, convert_loop_step ⟨true, false⟩ ⟨false, false⟩ _ _ _ []
    (fgets_line (ascii "WEBVTT") _ (by decide) (by decide))
    (by rw [cut_line_newline _ _ (by decide)]; decide),
    convert_loop_eq_run_lines, convert_loop_eq_run_lines,
    run_lines_header_flag (source_lines input) false
      (fun l hl => ⟨h l hl, source_lines_plain input l hl⟩)]
  cases run_lines ⟨false, false⟩ (source_lines input) <;> rfl

theorem header_optional_witness :
    convert_vtt_to_lrc (ascii "WEBVTT\n" ++ ascii "\n00:00:01.000 --> 00:00:02.000\nhello\n") =
      convert_vtt_to_lrc (ascii "\n00:00:01.000 --> 00:00:02.000\nhello\n") ∧
    convert_vtt_to_lrc (ascii "\n00:00:01.000 --> 00:00:02.000\nhello\n") =
      some (ascii "[00:01.00]hello\n") := by
  have H := header_optional (ascii "\n00:00:01.000 --> 00:00:02.000\nhello\n") (by
    have e : ascii "\n00:00:01.000 --> 00:00:02.000\nhello\n" =
        [] ++ 10 :: (ascii "00:00:01.000 --> 00:00:02.000" ++ 10 :: (ascii "hello" ++ 10 :: [])) := by
      decide
    rw [e, source_lines_line _ _ (by decide) (by decide),
      source_lines_line _ _ (by decide) (by decide),
      source_lines_line _ _ (by decide) (by decide), source_lines_nil]
    decide)
  refine ⟨H, ?_⟩
  rw [← H]
  have e : ascii "WEBVTT\n" ++ ascii "\n00:00:01.000 --> 00:00:02.000\nhello\n" =
      ascii "WEBVTT\n\n" ++ timing_line (ascii "00") (ascii "00") (ascii "01") (ascii "000")
        (ascii "00") (ascii "00") (ascii "02") (ascii "000") ++ ascii "\n" ++
        ascii "hello\n" := by decide
  rw [e, convert_header_and_cue _ _ _ _ _ _ _ _ _ (by decide) (by decide) (by decide)
      (by decide) (by decide) (by decide) (by decide) (by decide),
    convert_loop_step ⟨false, true⟩ ⟨false, true⟩ (ascii "hello\n")
      (ascii "hello\n") [] (ascii "hello\n") (by decide) (by decide),
    convert_loop_nil]
  decide

/-! ## Names in which a marker is found -/

/-- When `remove_audio_extension` finds a marker `.vtt` or `.VTT` in the name, its result
    (if the copy to `potential_ext` stays within the buffer) is a beginning of the name
    that is shorter than the name. -/
theorem remove_audio_extension_marker_found (name : List Nat)
    (h : (strstr name (ascii ".vtt")).isSome = true ∨ (strstr name (ascii ".VTT")).isSome = true) :
    remove_audio_extension name = none ∨
      ∃ b, remove_audio_extension name = some b ∧ b <+: name ∧ b.length < name.length := by
  have core : ∀ pos : Nat, pos + 4 ≤ name.length →
      ∀ r : Option (List Nat),
        r = (match prev_dot_scan (name.take pos) 0 none with
          | some dot =>
            if 32 ≤ pos - dot then none
            else
              if audio_extensions.any (fun e =>
                  decide (((name.drop dot).take (pos - dot)).map tolower = e)) then
                some (name.take dot)
              else some (name.take pos)
          | none => some (name.take pos)) →
        r = none ∨ ∃ b, r = some b ∧ b <+: name ∧ b.length < name.length := by
    intro pos hle r hr
    have ktake : ∀ k, k ≤ pos → (name.take k) <+: name ∧ (name.take k).length < name.length := by
      intro k hk
      refine ⟨List.take_prefix _ _, ?_⟩
      rw [List.length_take]
      omega
    rcases prev_dot_scan_spec (name.take pos) with ⟨_, hnone⟩ | ⟨stem, seg, hl, _, hsome⟩
    · rw [hnone] at hr
      exact Or.inr ⟨_, hr, ktake pos (Nat.le_refl _)⟩
    · rw [hsome] at hr
      have hlen : stem.length ≤ pos := by
        have := congrArg List.length hl
        rw [List.length_take, List.length_append, List.length_cons] at this
        omega
      simp only at hr
      split at hr
      · exact Or.inl hr
      · split at hr
        · exact Or.inr ⟨_, hr, ktake _ hlen⟩
        · exact Or.inr ⟨_, hr, ktake pos (Nat.le_refl _)⟩
  cases h1 : strstr name (ascii ".vtt") with
  | some p =>
    refine core p (strstr_some_le _ _ _ h1) _ ?_
    unfold remove_audio_extension
    simp only [h1]
  | none =>
    cases h2 : strstr name (ascii ".VTT") with
    | some p =>
      refine core p (strstr_some_le _ _ _ h2) _ ?_
      unfold remove_audio_extension
      simp only [h1, h2]
    | none => simp [h1, h2] at h

/-! ## Nothing is written before the first parsed timestamp -/

/-- The loop body on a line that is not a successfully parsed cue timing line, before any
    timestamp has been found: nothing is written and no timestamp is found, unless the
    timestamp rule has undefined behaviour on the line. -/
theorem process_line_not_parsed (b : Bool) (line : List Nat)
    (h : ∀ tag, ¬ parses_as ⟨b, false⟩ line tag) :
    process_line ⟨b, false⟩ line =
        some (⟨b && !(strstr line (ascii "WEBVTT")).isSome, false⟩, []) ∨
      (process_line ⟨b, false⟩ line = none ∧
        ∃ p, strstr line (ascii "-->") = some p ∧ timestamp_rule line p = none) := by
  have key : (∃ st1, process_line ⟨b, false⟩ line = some (st1, []) ∧
        st1.found_first_timestamp = false) ∨
      (process_line ⟨b, false⟩ line = none ∧
        ∃ p, strstr line (ascii "-->") = some p ∧ timestamp_rule line p = none) := by
    unfold process_line
    by_cases h1 : pre_header_skip ⟨b, false⟩ line = true
    · simp only [h1, if_true]
      exact Or.inl ⟨_, rfl, rfl⟩
    · simp only [h1, Bool.false_eq_true, if_false]
      by_cases h2 : metadata_skip line = true
      · simp only [h2, if_true]
        exact Or.inl ⟨_, rfl, rfl⟩
      · simp only [h2, Bool.false_eq_true, if_false]
        by_cases h3 : is_cue_number line = true
        · simp only [h3, if_true]
          exact Or.inl ⟨_, rfl, rfl⟩
        · simp only [h3, Bool.false_eq_true, if_false]
          unfold timestamp_or_lyric
          cases hs : strstr line (ascii "-->") with
          | none =>
            simp only [Bool.false_and, Bool.false_eq_true, if_false]
            exact Or.inl ⟨_, rfl, rfl⟩
          | some p =>
            simp only
            cases ht : timestamp_rule line p with
            | none => exact Or.inr ⟨rfl, p, rfl, ht⟩
            | some r =>
              cases r with
              | none => exact Or.inl ⟨_, rfl, rfl⟩
              | some tag =>
                exfalso
                refine h tag ⟨by simpa using h1, by simpa using h2, ?_⟩
                simp only [hs]
                exact ht
  rcases key with ⟨st1, hp, hf⟩ | hu
  · left
    have hi := process_line_is_first _ _ _ _ hp
    obtain ⟨i, f⟩ := st1
    simp only at hf hi
    rw [hp, hf, hi]
  · exact Or.inr hu

theorem no_line_parsed_take (lines : List (List Nat)) :
    ∀ (b : Bool) (k : Nat), no_line_parsed b lines → no_line_parsed b (lines.take k) := by
  induction lines with
  | nil => intro b k h; simpa using h
  | cons line rest ih =>
    intro b k h
    cases k with
    | zero => exact trivial
    | succ k => exact ⟨h.1, ih _ k h.2⟩

/-- As long as no line is a successfully parsed cue timing line, a run of the loop body
    that starts before any timestamp writes nothing and finds no timestamp; and the run is
    defined when the timestamp rule is defined on every line that contains `-->`. -/
theorem run_lines_not_parsed (lines : List (List Nat)) :
    ∀ b : Bool, no_line_parsed b lines →
      (∀ st2 out, run_lines ⟨b, false⟩ lines = some (st2, out) →
        out = [] ∧ st2.found_first_timestamp = false) ∧
      ((∀ line ∈ lines, ∀ p ∈ strstr line (ascii "-->"), timestamp_rule line p ≠ none) →
        ∃ st2, run_lines ⟨b, false⟩ lines = some (st2, [])) := by
  induction lines with
  | nil =>
    intro b _
    refine ⟨?_, fun _ => ⟨_, rfl⟩⟩
    intro st2 out h
    simp only [run_lines, Option.some.injEq, Prod.mk.injEq] at h
    exact ⟨h.2.symm, by rw [← h.1]⟩
  | cons line rest ih =>
    intro b h
    have e1 : ∀ st : State, run_lines st (line :: rest) =
        match process_line st line with
        | none => none
        | some (st1, o) => (run_lines st1 rest).map (fun r => (r.1, o ++ r.2)) :=
      fun _ => rfl
    obtain ⟨ih1, ih2⟩ := ih _ h.2
    rcases process_line_not_parsed b line h.1 with hp | ⟨hp, p, hs, ht⟩
    · refine ⟨?_, ?_⟩
      · intro st2 out hr
        rw [e1, hp] at hr
        simp only at hr
        cases hq : run_lines ⟨b && !(strstr line (ascii "WEBVTT")).isSome, false⟩ rest with
        | none =>
          rw [hq] at hr
          exact absurd hr (by simp)
        | some r =>
          obtain ⟨st3, out3⟩ := r
          rw [hq] at hr
          simp only [Option.map_some', Option.some.injEq, Prod.mk.injEq,
            List.nil_append] at hr
          obtain ⟨a1, a2⟩ := ih1 st3 out3 hq
          exact ⟨by rw [← hr.2, a1], by rw [← hr.1, a2]⟩
      · intro hd
        obtain ⟨st2, hq⟩ := ih2 (fun l hl => hd l (List.mem_cons_of_mem _ hl))
        refine ⟨st2, ?_⟩
        rw [e1, hp]
        simp only [hq, Option.map_some', List.nil_append]
    · refine ⟨?_, ?_⟩
      · intro st2 out hr
        rw [e1, hp] at hr
        simp at hr
      · intro hd
        exact absurd ht (hd line (by simp) p hs)

/-- C10: for every input in which no line is a successfully parsed cue timing line, the
    converter writes nothing.  As far as the run of the loop over the lines is defined,
    nothing has been written and `found_first_timestamp` is still clear; whenever the
    conversion is defined its output is empty; and the conversion is defined, with
    the empty output, when the timestamp rule has defined behaviour on every line that
    contains `-->` (always so when no line contains `-->`). -/
theorem no_output_before_timestamp (input : List Nat)
    (h : no_line_parsed true (source_lines input)) :
    (∀ k st2 out, run_lines ⟨true, false⟩ ((source_lines input).take k) = some (st2, out) →
      out = [] ∧ st2.found_first_timestamp = false) ∧
    (∀ out, convert_vtt_to_lrc input = some out → out = []) ∧
    ((∀ line ∈ source_lines input, ∀ p ∈ strstr line (ascii "-->"),
        timestamp_rule line p ≠ none) →
      convert_vtt_to_lrc input = some []) := by
  refine ⟨?_, ?_, ?_⟩
  · intro k st2 out hr
    exact (run_lines_not_parsed _ true (no_line_parsed_take _ true k h)).1 st2 out hr
  · intro out ho
    unfold convert_vtt_to_lrc at ho
    rw [convert_loop_eq_run_lines] at ho
    cases hr : run_lines ⟨true, false⟩ (source_lines input) with
    | none => simp [hr] at ho
    | some r =>
      obtain ⟨st2, o⟩ := r
      simp only [hr, Option.map_some', Option.some.injEq] at ho
      rw [← ho]
      exact ((run_lines_not_parsed _ true h).1 st2 o hr).1
  · intro hd
    obtain ⟨st2, hr⟩ := (run_lines_not_parsed _ true h).2 hd
    unfold convert_vtt_to_lrc
    rw [convert_loop_eq_run_lines, hr]
    rfl

theorem not_parses_as_of_no_arrow (st : State) (line : List Nat)
    (h : strstr line (ascii "-->") = none) : ∀ tag, ¬ parses_as st line tag := by
  intro tag hp
  have := hp.2.2
  simp only [h] at this

theorem not_parses_as_of_rejected (st : State) (line : List Nat) (p : Nat)
    (h : strstr line (ascii "-->") = some p) (ht : timestamp_rule line p = some none) :
    ∀ tag, ¬ parses_as st line tag := by
  intro tag hp
  have := hp.2.2
  simp only [h, ht] at this
  exact absurd this (by simp)

theorem no_output_before_timestamp_witness :
    convert_vtt_to_lrc (ascii "hello\nTrack 7\n") = some [] ∧
    convert_vtt_to_lrc (ascii "WEBVTT\n\nintro\nabc --> def\nla la\n") = some [] := by
  have e1 : source_lines (ascii "hello\nTrack 7\n") = [ascii "hello", ascii "Track 7"] := by
    have e : ascii "hello\nTrack 7\n" =
        ascii "hello" ++ 10 :: (ascii "Track 7" ++ 10 :: []) := by decide
    rw [e, source_lines_line _ _ (by decide) (by decide),
      source_lines_line _ _ (by decide) (by decide), source_lines_nil]
  have e2 : source_lines (ascii "WEBVTT\n\nintro\nabc --> def\nla la\n") =
      [ascii "WEBVTT", [], ascii "intro", ascii "abc --> def", ascii "la la"] := by
    have e : ascii "WEBVTT\n\nintro\nabc --> def\nla la\n" =
        ascii "WEBVTT" ++ 10 :: ([] ++ 10 :: (ascii "intro" ++ 10 ::
          (ascii "abc --> def" ++ 10 :: (ascii "la la" ++ 10 :: [])))) := by decide
    rw [e, source_lines_line _ _ (by decide) (by decide),
      source_lines_line _ _ (by decide) (by decide),
      source_lines_line _ _ (by decide) (by decide),
      source_lines_line _ _ (by decide) (by decide),
      source_lines_line _ _ (by decide) (by decide), source_lines_nil]
  exact ⟨(no_output_before_timestamp (ascii "hello\nTrack 7\n") (by
      rw [e1]
      exact ⟨not_parses_as_of_no_arrow _ _ (by decide),
        not_parses_as_of_no_arrow _ _ (by decide), trivial⟩)).2.2 (by rw [e1]; decide),
    (no_output_before_timestamp (ascii "WEBVTT\n\nintro\nabc --> def\nla la\n") (by
      rw [e2]
      exact ⟨not_parses_as_of_no_arrow _ _ (by decide),
        not_parses_as_of_no_arrow _ _ (by decide),
        not_parses_as_of_no_arrow _ _ (by decide),
        not_parses_as_of_rejected _ _ 4 (by decide) (by decide),
        not_parses_as_of_no_arrow _ _ (by decide), trivial⟩)).2.2 (by rw [e2]; decide)⟩

/-! ## The form of the tag -/

theorem toDigitsCore_length_le (fuel : Nat) :
    ∀ (n : Nat) (ds : List Char), ds.length ≤ (Nat.toDigitsCore 10 fuel n ds).length := by
  induction fuel with
  | zero => intro n ds; simp [Nat.toDigitsCore]
  | succ fuel ih =>
    intro n ds
    simp only [Nat.toDigitsCore]
    by_cases h0 : n / 10 = 0
    · simp [h0]
    · simp only [h0, if_false]
      have := ih (n / 10) (Nat.digitChar (n % 10) :: ds)
      simp only [List.length_cons] at this
      omega

theorem toDigitsCore_length_succ (fuel n : Nat) (ds : List Char) :
    ds.length + 1 ≤ (Nat.toDigitsCore 10 (fuel + 1) n ds).length := by
  simp only [Nat.toDigitsCore]
  by_cases h0 : n / 10 = 0
  · simp [h0]
  · simp only [h0, if_false]
    have := toDigitsCore_length_le fuel (n / 10) (Nat.digitChar (n % 10) :: ds)
    simp only [List.length_cons] at this
    exact this

theorem decimal_length_pos (n : Nat) : 1 ≤ (decimal n).length := by
  unfold decimal Nat.toDigits
  rw [List.length_map]
  have := toDigitsCore_length_succ n n []
  simpa using this

theorem decimal_length_two (n : Nat) (h : 10 ≤ n) : 2 ≤ (decimal n).length := by
  unfold decimal Nat.toDigits
  rw [List.length_map]
  obtain ⟨m, rfl⟩ : ∃ m, n = m + 1 := ⟨n - 1, by omega⟩
  have h0 : ¬ (m + 1) / 10 = 0 := by omega
  have e : Nat.toDigitsCore 10 (m + 1 + 1) (m + 1) [] =
      Nat.toDigitsCore 10 (m + 1) ((m + 1) / 10) [Nat.digitChar ((m + 1) % 10)] := by
    simp only [Nat.toDigitsCore, h0, if_false]
  rw [e]
  have := toDigitsCore_length_succ m ((m + 1) / 10) [Nat.digitChar ((m + 1) % 10)]
  simpa using this

/-- The conversion `%02d` of a value that is not negative: digits only, at least two. -/
theorem fmt_02d_nat (n : Nat) :
    (∀ c ∈ fmt_02d (n : Int), isdigit c = true) ∧ 2 ≤ (fmt_02d (n : Int)).length := by
  have h0 : ¬ ((n : Int) < 0) := by omega
  unfold fmt_02d
  simp only [h0, if_false, Int.toNat_ofNat]
  by_cases h1 : (n : Int) < 10
  · simp only [h1, if_true]
    refine ⟨?_, ?_⟩
    · intro c hc
      rcases List.mem_cons.mp hc with h | h
      · rw [h]; decide
      · exact isdigit_decimal n c h
    · have := decimal_length_pos n
      simp only [List.length_cons]
      omega
  · simp only [h1, if_false]
    exact ⟨isdigit_decimal n, decimal_length_two n (by omega)⟩

/-- The tag written for a well-formed start time is a timestamp tag. -/
theorem timestamp_tag_of_nat (total cs : Nat) :
    timestamp_tag (ascii "[" ++ fmt_02d ((total / 60 : Nat) : Int) ++ ascii ":" ++
      fmt_02d ((total % 60 : Nat) : Int) ++ ascii "." ++ fmt_02d ((cs : Nat) : Int) ++ ascii "]") :=
  ⟨_, _, _, (fmt_02d_nat _).1, (fmt_02d_nat _).2, (fmt_02d_nat _).1,
    fmt_02d_length (total % 60) (by omega), (fmt_02d_nat _).1, (fmt_02d_nat _).2, rfl⟩

/-- A timestamp tag starts with `[` and a digit and holds no newline. -/
theorem timestamp_tag_bytes (t : List Nat) (h : timestamp_tag t) :
    10 ∉ t ∧ ∃ c r, t = 91 :: c :: r ∧ isdigit c = true := by
  obtain ⟨mm, ss, xx, h1, h2, h3, _, h5, _, e⟩ := h
  have k : ∀ l : List Nat, (∀ c ∈ l, isdigit c = true) → 10 ∉ l :=
    fun l hl hm => absurd (hl 10 hm) (by decide)
  have e1 : ascii "[" = [91] := rfl
  have e2 : ascii "]" = [93] := rfl
  refine ⟨?_, ?_⟩
  · rw [e]
    simp [e1, e2, ascii_colon, ascii_dot, k mm h1, k ss h3, k xx h5]
  · cases mm with
    | nil => simp at h2
    | cons c cs =>
      refine ⟨c, cs ++ ascii ":" ++ ss ++ ascii "." ++ xx ++ ascii "]", ?_, h1 c (by simp)⟩
      rw [e, e1]
      simp

theorem begins_with_tag_append (l x : List Nat) (h : begins_with_tag l) :
    begins_with_tag (l ++ x) := by
  obtain ⟨t, rest, ht, e⟩ := h
  exact ⟨t, rest ++ x, ht, by rw [e, List.append_assoc]⟩

/-- A line that does not start with `[` and a digit does not begin with a timestamp tag. -/
theorem not_begins_with_tag (l : List Nat)
    (h : l.head? ≠ some 91 ∨ ∀ c ∈ l.tail.head?, isdigit c = false) : ¬ begins_with_tag l := by
  rintro ⟨t, rest, ht, e⟩
  obtain ⟨_, c, r, et, hc⟩ := timestamp_tag_bytes t ht
  rw [et] at e
  rcases h with h | h
  · exact h (by rw [e]; rfl)
  · have := h c (by rw [e]; rfl)
    rw [hc] at this
    exact Bool.noConfusion this

/-! ## Cue timing lines and text lines -/

/-- A cue timing line with a well-formed start time writes a timestamp tag and sets the
    timestamp flag, in every state. -/
theorem process_line_cue_timing_line (st : State) (line : List Nat)
    (h : cue_timing_line line) :
    ∃ tag, process_line st line = some (⟨st.is_first_webvtt_line, true⟩, tag) ∧
      timestamp_tag tag := by
  obtain ⟨hW, hN, hS, hR, hour, dm, ds, dms, sep, ws, rest, hwf, hws, hl⟩ := h
  have htag := start_time_tag_well_formed hour dm ds dms sep hwf
  obtain ⟨hh, hm, hs, hms, hsep, _, _, _⟩ := hwf
  have hsep45 : sep ≠ 45 := by rcases hsep with e | e <;> rw [e] <;> decide
  have shape : ∃ d mid, digit_run d ∧ 45 ∉ mid ∧
      start_field hour dm ds dms sep = d ++ 58 :: mid ++ dms := by
    cases hour with
    | some dh =>
      refine ⟨dh, dm ++ 58 :: ds ++ [sep], hh dh rfl, ?_, ?_⟩
      · have a1 := digit_run_not_mem dm hm 45 (by decide)
        have a2 := digit_run_not_mem ds hs 45 (by decide)
        simp [a1, a2, Ne.symm hsep45]
      · simp [start_field, ascii_colon]
    | none =>
      refine ⟨dm, ds ++ [sep], hm, ?_, ?_⟩
      · have a2 := digit_run_not_mem ds hs 45 (by decide)
        simp [a2, Ne.symm hsep45]
      · simp [start_field, ascii_colon]
  obtain ⟨d, mid, hd, hmid, hshape⟩ := shape
  rw [hshape] at hl htag
  obtain ⟨c, cs, hc⟩ := List.exists_cons_of_ne_nil hd.1
  have hcd : isdigit c = true := hd.2 c (by rw [hc]; simp)
  have hc13 : c ≠ 13 := by
    simp only [isdigit, Bool.and_eq_true, decide_eq_true_eq] at hcd; omega
  have h1 : pre_header_skip st line = false := by
    unfold pre_header_skip
    rw [hW, hl, hc]
    simp [hc13]
  have h2 : metadata_skip line = false := by
    unfold metadata_skip
    rw [hN, hS, hR, hl, hc]
    simp
  rw [hl] at h1 h2 ⊢
  rw [process_line_timing st d mid dms ws rest hd hms hmid hws h1 h2, htag]
  exact ⟨_, rfl, timestamp_tag_of_nat _ _⟩

/-- A line without `-->` leaves the timestamp flag as it is; it writes nothing, or, when a
    timestamp has been found and the line is a text line, a beginning of the line and a
    newline. -/
theorem process_line_no_arrow (st : State) (line : List Nat)
    (h : strstr line (ascii "-->") = none) :
    ∃ st1 out, process_line st line = some (st1, out) ∧
      st1.found_first_timestamp = st.found_first_timestamp ∧
      (out = [] ∨ (st.found_first_timestamp = true ∧ text_line line ∧
        ∃ s, s <+: line ∧ out = s ++ [10])) := by
  unfold process_line
  by_cases h1 : pre_header_skip st line = true
  · simp only [h1, if_true]
    exact ⟨_, _, rfl, rfl, Or.inl rfl⟩
  · simp only [h1, Bool.false_eq_true, if_false]
    by_cases h2 : metadata_skip line = true
    · simp only [h2, if_true]
      exact ⟨_, _, rfl, rfl, Or.inl rfl⟩
    · simp only [h2, Bool.false_eq_true, if_false]
      by_cases h3 : is_cue_number line = true
      · simp only [h3, if_true]
        exact ⟨_, _, rfl, rfl, Or.inl rfl⟩
      · simp only [h3, Bool.false_eq_true, if_false]
        unfold timestamp_or_lyric
        simp only [h]
        by_cases h4 : (st.found_first_timestamp && decide (0 < line.length)) = true
        · simp only [h4, if_true]
          simp only [Bool.and_eq_true, decide_eq_true_eq] at h4
          have hne : line ≠ [] := List.length_pos.mp h4.2
          obtain ⟨s, _, hs2, hs3⟩ := lyric_rule_nonempty line hne (by simpa using h3)
          refine ⟨_, _, rfl, rfl, Or.inr ⟨h4.1, ?_, s, hs2, hs3⟩⟩
          have hm : metadata_skip line = false := by simpa using h2
          unfold metadata_skip at hm
          simp only [Bool.or_eq_false_iff] at hm
          have k : ∀ o : Option Nat, o.isSome = false → o = none := by
            intro o ho
            cases o with
            | none => rfl
            | some _ => exact Bool.noConfusion ho
          refine ⟨hne, h, k _ hm.1.1.1, k _ hm.1.1.2, k _ hm.1.2, ?_⟩
          intro hdr
          apply h3
          unfold is_cue_number
          simp only [Bool.and_eq_true, Bool.not_eq_true', List.isEmpty_eq_false_iff_exists_mem,
            List.all_eq_true]
          obtain ⟨c, cs, hc⟩ := List.exists_cons_of_ne_nil hdr.1
          exact ⟨⟨c, by rw [hc]; simp⟩, hdr.2⟩
        · simp only [h4, Bool.false_eq_true, if_false]
          exact ⟨_, _, rfl, rfl, Or.inl rfl⟩

/-! ## The lines of the output -/

theorem complete_lines_append_of_not_mem (a b : List Nat) (h : 10 ∉ a) :
    ∀ cur : List Nat, complete_lines cur (a ++ b) = complete_lines (cur ++ a) b := by
  induction a with
  | nil => intro cur; simp
  | cons c cs ih =>
    intro cur
    have hc : ¬ c = 10 := fun e => h (by simp [e])
    have hcs : 10 ∉ cs := fun e => h (by simp [e])
    rw [List.cons_append]
    simp only [complete_lines, hc, if_false]
    rw [ih hcs]
    simp

theorem complete_lines_newline (cur b : List Nat) :
    complete_lines cur (10 :: b) = cur :: complete_lines [] b := by
  simp [complete_lines]

/-- The invariant of the output over cues with at most one text line each: the open last
    line `cur` of the output is empty or begins with a timestamp tag, and it begins with
    one when a cue timing line has been read and no text line after it. -/
theorem run_lines_cues (lines : List (List Nat)) :
    ∀ (st : State) (seen fresh : Bool) (cur : List Nat),
      (∀ l ∈ lines, plain_line l) →
      one_text_per_cue seen fresh lines →
      (st.found_first_timestamp = true → seen = true) →
      (fresh = true → begins_with_tag cur) → (cur = [] ∨ begins_with_tag cur) →
      ∃ st2 out, run_lines st lines = some (st2, out) ∧
        ∀ l ∈ complete_lines cur out, begins_with_tag l := by
  induction lines with
  | nil =>
    intro st seen fresh cur _ _ _ _ _
    exact ⟨st, [], rfl, by simp [complete_lines]⟩
  | cons line rest ih =>
    intro st seen fresh cur hplain hc hseen hfresh hcur
    have e1 : run_lines st (line :: rest) =
        match process_line st line with
        | none => none
        | some (st1, o) => (run_lines st1 rest).map (fun r => (r.1, o ++ r.2)) := rfl
    have e2 : one_text_per_cue seen fresh (line :: rest) =
        if (strstr line (ascii "-->")).isSome then
          cue_timing_line line ∧ one_text_per_cue true true rest
        else if text_line line then
          (seen = true → fresh = true) ∧ one_text_per_cue seen false rest
        else one_text_per_cue seen fresh rest := rfl
    have hrest : ∀ l ∈ rest, plain_line l := fun l hl => hplain l (List.mem_cons_of_mem _ hl)
    rw [e2] at hc
    rw [e1]
    by_cases ha : (strstr line (ascii "-->")).isSome = true
    · simp only [ha, if_true] at hc
      obtain ⟨tag, hp, htag⟩ := process_line_cue_timing_line st line hc.1
      have hcur2 : begins_with_tag (cur ++ tag) := by
        rcases hcur with e | hb
        · rw [e, List.nil_append]
          exact ⟨tag, [], htag, by simp⟩
        · exact begins_with_tag_append cur tag hb
      obtain ⟨st2, out, hr, hl⟩ := ih ⟨st.is_first_webvtt_line, true⟩ true true (cur ++ tag)
        hrest hc.2 (fun _ => rfl) (fun _ => hcur2) (Or.inr hcur2)
      refine ⟨st2, tag ++ out, by rw [hp]; simp only [hr, Option.map_some'], ?_⟩
      rw [complete_lines_append_of_not_mem tag out (timestamp_tag_bytes tag htag).1]
      exact hl
    · have hn : strstr line (ascii "-->") = none := by
        cases hs : strstr line (ascii "-->") with
        | none => rfl
        | some p => rw [hs] at ha; exact absurd rfl ha
      simp only [ha, Bool.false_eq_true, if_false] at hc
      obtain ⟨st1, o, hp, hf, ho⟩ := process_line_no_arrow st line hn
      have hseen1 : st1.found_first_timestamp = true → seen = true := by
        rw [hf]; exact hseen
      rw [hp]
      simp only
      rcases ho with ho | ⟨hfound, htext, s, hs, ho⟩
      · have hc2 : ∃ fresh2 : Bool, one_text_per_cue seen fresh2 rest ∧
            (fresh2 = true → begins_with_tag cur) := by
          by_cases ht : text_line line
          · simp only [ht, if_true] at hc
            exact ⟨false, hc.2, fun e => Bool.noConfusion e⟩
          · simp only [ht, if_false] at hc
            exact ⟨fresh, hc, hfresh⟩
        obtain ⟨fresh2, hc3, hfresh2⟩ := hc2
        obtain ⟨st2, out, hr, hl⟩ := ih st1 seen fresh2 cur hrest hc3 hseen1 hfresh2 hcur
        refine ⟨st2, out, by simp only [hr, Option.map_some', ho, List.nil_append], hl⟩
      · simp only [htext, if_true] at hc
        have hb := hfresh (hc.1 (hseen hfound))
        obtain ⟨st2, out, hr, hl⟩ := ih st1 seen false [] hrest hc.2 hseen1
          (fun e => Bool.noConfusion e) (Or.inl rfl)
        refine ⟨st2, o ++ out, by simp only [hr, Option.map_some'], ?_⟩
        have h10 : 10 ∉ s := fun hm => (hplain line (by simp) 10 (hs.subset hm)).2.2 rfl
        rw [ho, List.append_assoc, complete_lines_append_of_not_mem s _ h10,
          List.singleton_append, complete_lines_newline]
        intro l hl2
        rcases List.mem_cons.mp hl2 with h1 | h1
        · rw [h1]
          exact begins_with_tag_append cur s hb
        · exact hl l h1

/-! ## Files given by their lines -/

theorem source_lines_file_of_lines (lines : List (List Nat))
    (h : ∀ l ∈ lines, plain_line l ∧ l.length ≤ 1022) :
    source_lines (file_of_lines lines) = lines := by
  induction lines with
  | nil => exact source_lines_nil
  | cons line rest ih =>
    have e : file_of_lines (line :: rest) = line ++ 10 :: file_of_lines rest := rfl
    obtain ⟨hp, hlen⟩ := h line (by simp)
    rw [e, source_lines_line line _ hp hlen, ih (fun l hl => h l (List.mem_cons_of_mem _ hl))]

/-- The conversion of a file of short lines is the run of the loop body over them. -/
theorem convert_file_of_lines (lines : List (List Nat)) (out : List Nat)
    (h : ∀ l ∈ lines, plain_line l ∧ l.length ≤ 1022)
    (hr : (run_lines ⟨true, false⟩ lines).map (fun r => r.2) = some out) :
    convert_vtt_to_lrc (file_of_lines lines) = some out := by
  unfold convert_vtt_to_lrc
  rw [convert_loop_eq_run_lines, source_lines_file_of_lines lines h, hr]

/-! ## Every line of the output begins with a tag -/

theorem one_text_per_cue_timing (seen fresh : Bool) (line : List Nat) (rest : List (List Nat))
    (ha : (strstr line (ascii "-->")).isSome = true) (hc : cue_timing_line line)
    (hr : one_text_per_cue true true rest) : one_text_per_cue seen fresh (line :: rest) := by
  have e : one_text_per_cue seen fresh (line :: rest) =
      if (strstr line (ascii "-->")).isSome then
        cue_timing_line line ∧ one_text_per_cue true true rest
      else if text_line line then
        (seen = true → fresh = true) ∧ one_text_per_cue seen false rest
      else one_text_per_cue seen fresh rest := rfl
  rw [e]
  simp only [ha, if_true]
  exact ⟨hc, hr⟩

theorem one_text_per_cue_text (seen fresh : Bool) (line : List Nat) (rest : List (List Nat))
    (ha : (strstr line (ascii "-->")).isSome = false) (ht : text_line line)
    (hs : seen = true → fresh = true)
    (hr : one_text_per_cue seen false rest) : one_text_per_cue seen fresh (line :: rest) := by
  have e : one_text_per_cue seen fresh (line :: rest) =
      if (strstr line (ascii "-->")).isSome then
        cue_timing_line line ∧ one_text_per_cue true true rest
      else if text_line line then
        (seen = true → fresh = true) ∧ one_text_per_cue seen false rest
      else one_text_per_cue seen fresh rest := rfl
  rw [e]
  simp only [ha, Bool.false_eq_true, if_false, ht, if_true]
  exact ⟨hs, hr⟩

theorem one_text_per_cue_other (seen fresh : Bool) (line : List Nat) (rest : List (List Nat))
    (ha : (strstr line (ascii "-->")).isSome = false) (ht : ¬ text_line line)
    (hr : one_text_per_cue seen fresh rest) : one_text_per_cue seen fresh (line :: rest) := by
  have e : one_text_per_cue seen fresh (line :: rest) =
      if (strstr line (ascii "-->")).isSome then
        cue_timing_line line ∧ one_text_per_cue true true rest
      else if text_line line then
        (seen = true → fresh = true) ∧ one_text_per_cue seen false rest
      else one_text_per_cue seen fresh rest := rfl
  rw [e]
  simp only [ha, Bool.false_eq_true, if_false, ht]
  exact hr

end VttLrc
